import Mathlib

/-!
# Library reconciliation engine (`scanner/tag_scanner.go`)

A shallow embedding of the tag scanner: the change detector, the folder
reconciler, the batched metadata loader and the cue-sheet expansion it calls.
The last section embeds the command-line builder of the transcoder
(`core/ffmpeg/ffmpeg.go`).

Conventions of the embedding

* Go `string` is `String`; `sort.Strings` orders byte-wise, which coincides
  with the code-point order of `String` on valid UTF-8.
* `time.Time` is an instant on the integer time line, `0` being Go's zero time.
* A Go `map` is an association list with distinct keys; the order in which
  `range` visits it is chosen by the run time and is a parameter (`MapOrder`).
* Everything outside the scanner (repository, file system, extractor, refresher,
  playlist importer) is consulted through `Env`; every call is appended to a
  trace of `Event`s and may answer depending on the trace so far.
* The `int64` counters are unbounded integers: they start at zero in `Scan` and
  grow by one per file or record.
* A run-time panic of the Go code (nil dereference, index out of range) is the
  outcome `Ret.panic`.
* A `time.Duration` is an integer number of nanoseconds; the start offsets of a
  cue sheet and the duration of a file are far inside the `int64` range, so the
  differences the extractor takes are exact.
* The `float32` and `float64` values the transcoder reads are exact binary
  fractions with the rounding of IEEE 754 (`ffmpeg.float32`, `ffmpeg.float64`).
-/

namespace Scanner

/-! ## Basic types -/

/-- Go `error` values. -/
abbrev GoError := String

/-- Go `time.Time`, as an instant; `0` is the zero time. -/
abbrev Time := Int

/-- Go `Time.IsZero`. -/
def Time.IsZero (t : Time) : Bool := decide (t = 0)

/-- Go `Time.After`: `t.After u` reports whether `t` is strictly after `u`. -/
def Time.After (t u : Time) : Bool := decide (u < t)

/-- A Go map: association list, the keys of a well-formed map are distinct. -/
structure GoMap (κ ν : Type) where
  entries : List (κ × ν)
deriving DecidableEq, Repr

namespace GoMap

variable {κ ν : Type}

/-- The empty map literal. -/
def empty : GoMap κ ν := ⟨[]⟩

/-- Keys of the map. -/
def keys (m : GoMap κ ν) : List κ := m.entries.map Prod.fst

/-- Go `len(m)`. -/
def len (m : GoMap κ ν) : Nat := m.entries.length

/-- Well-formedness: no key occurs twice. -/
def WF (m : GoMap κ ν) : Prop := m.keys.Nodup

instance [DecidableEq κ] (m : GoMap κ ν) : Decidable m.WF :=
  inferInstanceAs (Decidable m.keys.Nodup)

/-- Go `v, ok := m[k]`. -/
def get? [DecidableEq κ] (m : GoMap κ ν) (k : κ) : Option ν :=
  (m.entries.find? (fun e => decide (e.1 = k))).map Prod.snd

/-- Go `_, ok := m[k]`. -/
def contains [DecidableEq κ] (m : GoMap κ ν) (k : κ) : Bool :=
  m.entries.any (fun e => decide (e.1 = k))

/-- Go `m[k] = v`. -/
def insert [DecidableEq κ] (m : GoMap κ ν) (k : κ) (v : ν) : GoMap κ ν :=
  if m.contains k then
    ⟨m.entries.map (fun e => if e.1 = k then (k, v) else e)⟩
  else
    ⟨m.entries ++ [(k, v)]⟩

/-- Go `delete(m, k)`. -/
def erase [DecidableEq κ] (m : GoMap κ ν) (k : κ) : GoMap κ ν :=
  ⟨m.entries.filter (fun e => !decide (e.1 = k))⟩

end GoMap

/-- The order in which `range` visits the entries of a map: some permutation. -/
structure MapOrder where
  range : {α : Type} → List α → List α
  perm : ∀ {α : Type} (l : List α), (range l).Perm l

/-- The order that visits the entries as they are stored. -/
def MapOrder.stored : MapOrder := ⟨fun l => l, fun l => List.Perm.refl l⟩

/-- Modelled from the spec: the type `dirStats` is declared with the walker,
outside the sources at hand. It is the FolderSummary of the data model: path,
newest modification time, playlist flag, audio-file count. -/
structure dirStats where
  Path : String
  ModTime : Time
  HasPlaylist : Bool
  AudioFilesCount : Nat
deriving DecidableEq, Repr

/-- Go `type dirMap map[string]dirStats`. -/
abbrev dirMap := GoMap String dirStats

/-! ## Change detector -/

/-- Source `TagScanner.folderHasChanged`. -/
def folderHasChanged (folder : dirStats) (dbDirs : GoMap String Unit) (lastModified : Time) : Bool :=
  let inDB := dbDirs.contains folder.Path
  -- If is a new folder with at least one song OR it was modified after lastModified
  (!inDB && decide (folder.AudioFilesCount > 0)) || folder.ModTime.After lastModified

/-- Go `sort.Strings`. -/
def sortStrings (l : List String) : List String := l.insertionSort (· ≤ ·)

/-- Source `TagScanner.getDeletedDirs`. -/
def getDeletedDirs (o : MapOrder) (fsDirs : dirMap) (dbDirs : GoMap String Unit) : List String :=
  let deleted := (o.range dbDirs.keys).filter (fun d => !fsDirs.contains d)
  sortStrings deleted

/-! ## Go standard library helpers -/

namespace strings

/-- Go `strings.HasPrefix`. -/
def HasPrefix (s pre : String) : Bool := pre.data.isPrefixOf s.data

/-- Go `strings.Contains`. -/
def Contains (s sub : String) : Bool := decide (sub.data <:+: s.data)

/-- Go `strings.ToLower` (on the ASCII letters, the alphabet of the mode names). -/
def ToLower (s : String) : String := ⟨s.data.map Char.toLower⟩

/-- Go `unicode.IsSpace`. -/
def isSpace (c : Char) : Bool :=
  c.val ∈ [0x09, 0x0A, 0x0B, 0x0C, 0x0D, 0x20, 0x85, 0xA0, 0x1680, 0x2000, 0x2001, 0x2002,
    0x2003, 0x2004, 0x2005, 0x2006, 0x2007, 0x2008, 0x2009, 0x200A, 0x2028, 0x2029, 0x202F,
    0x205F, 0x3000]

/-- Go `strings.TrimSpace`. -/
def TrimSpace (s : String) : String :=
  ⟨((s.data.dropWhile isSpace).reverse.dropWhile isSpace).reverse⟩

/-- Go `strings.Split(s, sep)` for a separator of one character. -/
def Split (s : String) (sep : Char) : List String :=
  (s.data.splitOn sep).map String.mk

end strings

namespace filepath

/-- One step of the lexical clean-up of `filepath.Clean`: the elements kept so
far (last first) and the next element. -/
def cleanStep (rooted : Bool) (stack : List (List Char)) (e : List Char) : List (List Char) :=
  if e = [] ∨ e = ['.'] then stack
  else if e = ['.', '.'] then
    match stack with
    | top :: rest => if top = ['.', '.'] then e :: stack else rest
    | [] => if rooted then [] else [e]
  else e :: stack

/-- Go `filepath.Clean` on slash-separated paths. -/
def Clean (path : String) : String :=
  let rooted := path.data.head? = some '/'
  let stack := (path.data.splitOn '/').foldl (cleanStep rooted) []
  let body := List.intercalate ['/'] stack.reverse
  let out := if rooted then '/' :: body else body
  if out = [] then "." else ⟨out⟩

/-- Go `filepath.Join` of two elements: empty elements are ignored, the result
is cleaned, and the join of empty elements is empty. -/
def Join (a b : String) : String :=
  if a = "" ∧ b = "" then ""
  else if a = "" then Clean b
  else if b = "" then Clean a
  else Clean (a ++ "/" ++ b)

/-- Drop the trailing slashes of a path. -/
def dropTrailingSlashes (p : List Char) : List Char :=
  (p.reverse.dropWhile (· = '/')).reverse

/-- Go `filepath.Base`. -/
def Base (path : String) : String :=
  if path = "" then "."
  else
    let p := dropTrailingSlashes path.data
    if p = [] then "/"
    else ⟨(p.reverse.takeWhile (· ≠ '/')).reverse⟩

/-- Go `filepath.Dir`. -/
def Dir (path : String) : String :=
  Clean ⟨(path.data.reverse.dropWhile (· ≠ '/')).reverse⟩

end filepath

/-! ## Data model -/

/-- Go `os.FileInfo`, as far as the scanner reads it. -/
structure FileInfo where
  ModTime : Time
deriving DecidableEq, Repr

/-- Go `fs.DirEntry` as returned by `fs.ReadDir`. -/
structure DirEntry where
  Name : String
  IsDir : Bool
deriving DecidableEq, Repr

/-- Modelled from the spec: the type `model.Annotations` is declared in the model
package, outside the sources at hand. It holds the annotation fields of a track:
play count and date, rating, star flag and date. -/
structure Annotations where
  PlayCount : Int
  PlayDate : Option Time
  Rating : Int
  Starred : Bool
  StarredAt : Option Time
deriving DecidableEq, Repr

/-- Modelled from the spec: the type `model.Bookmarkable` is declared in the model
package, outside the sources at hand. It holds the bookmark of a track. -/
structure Bookmarkable where
  BookmarkPosition : Int
deriving DecidableEq, Repr

/-- Modelled from the spec: the type `model.MediaFile` is declared in the model
package, outside the sources at hand. It is the CatalogTrackRecord of the data
model: the identity, the fields the scanner reads (path, `UpdatedAt`, album and
album-artist IDs), the two embedded annotation records, and `Title`, `SubTrack`
standing for the extracted attributes. -/
structure MediaFile where
  ID : String
  Path : String
  Title : String
  AlbumID : String
  AlbumArtistID : String
  SubTrack : Int
  UpdatedAt : Time
  Annotations : Annotations
  Bookmarkable : Bookmarkable
deriving DecidableEq, Repr

/-- The Go zero value of `model.MediaFile`. -/
def MediaFile.zero : MediaFile :=
  { ID := "", Path := "", Title := "", AlbumID := "", AlbumArtistID := "", SubTrack := 0,
    UpdatedAt := 0,
    Annotations := { PlayCount := 0, PlayDate := none, Rating := 0, Starred := false,
                     StarredAt := none },
    Bookmarkable := { BookmarkPosition := 0 } }

/-- Modelled from the spec: the type `metadata.ParsedTags` (a tag bag,
`map[string][]string`) is declared in the metadata package, outside the sources
at hand. -/
abbrev ParsedTags := GoMap String (List String)

/-- Modelled from the spec: the type `metadata.Tags` is declared in the metadata
package, outside the sources at hand. It is the tag bag of one file, as built by
`metadata.NewTag(filePath, fileInfo, tags)`; its accessors are parameters of
`Env`. -/
structure Tags where
  filePath : String
  fileInfo : FileInfo
  tags : ParsedTags
deriving DecidableEq, Repr

/-- Modelled from the spec: the remarks of a cue sheet or track (`Rem`, declared
in the cuesheet package, outside the sources at hand), by the accessors the
extractor calls. -/
structure CueRem where
  Genre : String
  Comment : String
  Date : String
  AlbumGain : String
  AlbumPeak : String
  TrackGain : String
  TrackPeak : String
  TotalDiscs : Nat
  DiscNumber : Nat
deriving DecidableEq, Repr

/-- Modelled from the spec: a track of a cue sheet (declared in the cuesheet
package, outside the sources at hand); `StartOffset` is `GetStartOffset()`, a
`time.Duration` in nanoseconds. -/
structure CueTrack where
  TrackNumber : Nat
  Title : String
  Performer : String
  StartOffset : Int
  Rem : CueRem
deriving DecidableEq, Repr

/-- Modelled from the spec: a `FILE` entry of a cue sheet (declared in the
cuesheet package, outside the sources at hand) with its ordered tracks. -/
structure CueFile where
  FileName : String
  Tracks : List CueTrack
deriving DecidableEq, Repr

/-- Modelled from the spec: the type `cuesheet.Cuesheet` (declared in the cuesheet
package, outside the sources at hand): ordered files, each with ordered tracks. -/
structure Cuesheet where
  Title : String
  Performer : String
  Rem : CueRem
  File : List CueFile
deriving DecidableEq, Repr

/-- Go `counters`. -/
structure counters where
  added : Int
  updated : Int
  deleted : Int
  playlists : Int
deriving DecidableEq, Repr

/-- Source `counters.total`. -/
def counters.total (cnt : counters) : Int := cnt.added + cnt.updated + cnt.deleted

/-- Source `filesBatchSize` used for batching file metadata extraction. -/
def filesBatchSize : Nat := 100

/-! ## The outside world -/

/-- A call made by the scanner to one of its collaborators. -/
inductive Event where
  | withAdminUser
  | loadDir (dir : String)
  | findPathsRecursively (root : String)
  | walkDirTree (root : String)
  | progress (n : Nat)
  | findAllByPath (dir : String)
  | readDir (dir : String)
  | stat (path : String)
  | entryInfo (path : String)
  | readFromFile (path : String)
  | extract (paths : List String)
  | put (mf : MediaFile)
  | delete (id : String)
  | deleteByPath (dir : String)
  | accumulate (mf : MediaFile)
  | flush
  | processPlaylists (dir : String)
  | gc (root : String)
deriving DecidableEq, Repr

/-- The calls that write: a catalog put, delete or bulk delete, an aggregate
refresh (accumulate, flush), a playlist import, a garbage collection. -/
def Event.isWrite : Event → Bool
  | .put _ => true
  | .delete _ => true
  | .deleteByPath _ => true
  | .accumulate _ => true
  | .flush => true
  | .processPlaylists _ => true
  | .gc _ => true
  | _ => false

/-- The calls of `MediaFileRepository.Put`. -/
def Event.isPut : Event → Bool
  | .put _ => true
  | _ => false

/-- The collaborators and the configuration of a pass. Each collaborator answers
from the calls made so far (the trace) and its arguments. -/
structure Env where
  /-- Setting `conf.Server.Scanner.CUESheetSupport` -/
  CUESheetSupport : String
  /-- Setting `conf.Server.AutoImportPlaylists` -/
  AutoImportPlaylists : Bool
  /-- Constant `consts.CUEDisable` -/
  CUEDisable : String
  /-- Constant `consts.CUEEmbedded` -/
  CUEEmbedded : String
  /-- Constant `consts.CUEExternal` -/
  CUEExternal : String
  /-- iteration order of `range` over maps -/
  order : MapOrder
  /-- Collaborator `model.IsCueSheetFile` -/
  IsCueSheetFile : String → Bool
  /-- Collaborator `model.IsAudioFile` -/
  IsAudioFile : String → Bool
  /-- whether the user found by `auth.WithAdminUser` is an administrator -/
  adminUser : List Event → Bool
  /-- Collaborator `loadDir` of the walker: the sub-directories and the summary of a folder -/
  loadDir : List Event → String → Except GoError (List String × dirStats)
  /-- Collaborator `walkDirTree`: the summaries received from the walker before it closes
  the channel, and the value of its error channel -/
  walkDirTree : List Event → String → List dirStats × Option GoError
  /-- Collaborator `fs.ReadDir(os.DirFS(dir), ".")` -/
  readDir : List Event → String → Except GoError (List DirEntry)
  /-- Collaborator `os.Stat` -/
  stat : List Event → String → Except GoError FileInfo
  /-- Collaborator `DirEntry.Info` of the entry at a path -/
  entryInfo : List Event → String → Except GoError FileInfo
  /-- Collaborator `cuesheet.ReadFromFile` -/
  readFromFile : List Event → String → Except GoError Cuesheet
  /-- Collaborator `cuesheet.ReadCue` on the text of an embedded sheet: the sheet pointer
  (possibly nil) and the error -/
  readCue : String → Option Cuesheet × Option GoError
  /-- Collaborator `metadata.Extract` -/
  extract : List Event → List String → Except GoError (List Tags)
  /-- Collaborator `MediaFileMapper.ToMediaFile` -/
  toMediaFile : Tags → MediaFile
  /-- Collaborator `Tags.CueSheet` -/
  mdCueSheet : Tags → String
  /-- Collaborator `Tags.Artist` -/
  mdArtist : Tags → String
  /-- Collaborator `Tags.Album` -/
  mdAlbum : Tags → String
  /-- Collaborator `Tags.Genres` -/
  mdGenres : Tags → List String
  /-- Collaborator `Tags.MbzAlbumID` -/
  mdMbzAlbumID : Tags → String
  /-- Collaborator `Tags.MbzArtistID` -/
  mdMbzArtistID : Tags → String
  /-- Collaborator `Tags.MbzRecordingID` -/
  mdMbzRecordingID : Tags → String
  /-- Collaborator `Tags.MbzReleaseTrackID` -/
  mdMbzReleaseTrackID : Tags → String
  /-- Collaborator `Tags.DiscNumber` -/
  mdDiscNumber : Tags → Nat × Nat
  /-- Collaborator `Tags.BitRate` -/
  mdBitRate : Tags → Int
  /-- Collaborator `Tags.Channels` -/
  mdChannels : Tags → Int
  /-- Value of `time.Millisecond * time.Duration(md.Duration()*1000.0)`, in nanoseconds -/
  mdFileDuration : Tags → Int
  /-- Value of `strconv.FormatFloat(d.Seconds(), 'f', 3, 32)` of a duration in nanoseconds -/
  formatSeconds : Int → String
  /-- Collaborator `MediaFileRepository.FindPathsRecursively` -/
  findPathsRecursively : List Event → String → Except GoError (List String)
  /-- Collaborator `MediaFileRepository.FindAllByPath` -/
  findAllByPath : List Event → String → Except GoError (List MediaFile)
  /-- Collaborator `MediaFileRepository.Put`: the error, if any -/
  put : List Event → MediaFile → Option GoError
  /-- Collaborator `MediaFileRepository.Delete`: the error, if any -/
  delete : List Event → String → Option GoError
  /-- Collaborator `MediaFileRepository.DeleteByPath`: the number of records removed -/
  deleteByPath : List Event → String → Except GoError Int
  /-- Collaborator `refresher.flush`: the error, if any -/
  flush : List Event → Option GoError
  /-- Collaborator `playlistImporter.processPlaylists`: the number of playlists imported -/
  processPlaylists : List Event → String → Int
  /-- Collaborator `DataStore.GC`: the error, if any -/
  gc : List Event → String → Option GoError

/-- The scanner: its fields, and the trace of the calls it has made. -/
structure TagScanner where
  rootFolder : String
  cnt : counters
  cueCache : GoMap String Cuesheet
  trace : List Event
deriving DecidableEq, Repr

/-- Record a call. -/
def TagScanner.log (s : TagScanner) (e : Event) : TagScanner :=
  { s with trace := s.trace ++ [e] }

/-- Result of a call that may end in a run-time panic. -/
inductive Ret (α : Type) where
  | val (a : α)
  | panic
deriving DecidableEq, Repr

/-! ## Cue sheet expansion (`scanner/metadata/cuesheet/tags_extractor.go`) -/

/-- Go `cuesheet.TagsExtractor`. -/
structure TagsExtractor where
  md : Tags
  fileInfo : FileInfo
  result : GoMap Nat ParsedTags
deriving DecidableEq, Repr

/-- Source `cuesheet.NewExtractor`: a nil extractor and the error when the media
file cannot be stat'ed. -/
def NewExtractor (env : Env) (s : TagScanner) (md : Tags) :
    TagScanner × Option TagsExtractor × Option GoError :=
  let s1 := s.log (.stat md.filePath)
  match env.stat s.trace md.filePath with
  | .error err => (s1, none, some err)
  | .ok fileInfo => (s1, some { md := md, fileInfo := fileInfo, result := GoMap.empty }, none)

/-- Source `makeDuration`. -/
def makeDuration (env : Env) (d : Int) : String := env.formatSeconds d

/-- Source `addTagValue`: append the first non-empty value to the tag. -/
def addTagValue (name : String) (tags : ParsedTags) (values : List String) : ParsedTags :=
  match values.find? (fun v => v != "") with
  | some v => tags.insert name ((tags.get? name).getD [] ++ [v])
  | none => tags

/-- Body of the track loop of `TagsExtractor.Extract`: the tag bag of the track
at position `i` of `file`. -/
def extractTrackTags (env : Env) (md : Tags) (cuesheet : Cuesheet) (last : Bool)
    (file : CueFile) (i : Nat) (t : CueTrack) (tags0 : ParsedTags) : ParsedTags :=
  let totalTracks := file.Tracks.length
  let tags := addTagValue "title" tags0 [t.Title]
  let tags := addTagValue "sub_track" tags [toString i]
  let tags :=
    if last then
      let tags := addTagValue "artist" tags [t.Performer, cuesheet.Performer, env.mdArtist md]
      let tags := addTagValue "album" tags [cuesheet.Title, env.mdAlbum md]
      let tags := addTagValue "genre" tags [cuesheet.Rem.Genre]
      let tags := tags.insert "genre" ((tags.get? "genre").getD [] ++ env.mdGenres md)
      let tags := addTagValue "musicbrainz_albumid" tags [env.mdMbzAlbumID md]
      let tags := addTagValue "musicbrainz_artistid" tags [env.mdMbzArtistID md]
      let tags := addTagValue "musicbrainz_trackid" tags [env.mdMbzRecordingID md]
      let tags := addTagValue "musicbrainz_releasetrackid" tags [env.mdMbzReleaseTrackID md]
      let disc := (env.mdDiscNumber md).1
      let disctotal := (env.mdDiscNumber md).2
      if disc > 0 ∧ disctotal > 0 then
        let tags := addTagValue "discnumber" tags [toString disc]
        addTagValue "discnumbertotal" tags [toString disctotal]
      else tags
    else
      let tags := addTagValue "artist" tags [t.Performer, cuesheet.Performer]
      let tags := addTagValue "album" tags [cuesheet.Title]
      let tags := addTagValue "genre" tags [cuesheet.Rem.Genre]
      if t.Rem.TotalDiscs > 0 then
        let tags :=
          if t.Rem.DiscNumber > 0 then addTagValue "discnumber" tags [toString t.Rem.DiscNumber]
          else tags
        addTagValue "discnumbertotal" tags [toString t.Rem.TotalDiscs]
      else tags
  let tags := addTagValue "album_artist" tags [cuesheet.Performer]
  let tags := addTagValue "comment" tags [t.Rem.Comment, cuesheet.Rem.Comment]
  let tags := addTagValue "tracknumber" tags [toString t.TrackNumber]
  let tags := addTagValue "tracknumbertotal" tags [toString totalTracks]
  let tags := addTagValue "date" tags [cuesheet.Rem.Date]
  let tags := addTagValue "replaygain_album_gain" tags [cuesheet.Rem.AlbumGain]
  let tags := addTagValue "replaygain_album_peak" tags [cuesheet.Rem.AlbumPeak]
  let tags := addTagValue "replaygain_track_gain" tags [t.Rem.TrackGain]
  let tags := addTagValue "replaygain_track_peak" tags [t.Rem.TrackPeak]
  let tags := addTagValue "bitrate" tags [toString (env.mdBitRate md)]
  let tags := addTagValue "channels" tags [toString (env.mdChannels md)]
  let tags := addTagValue "offset" tags [makeDuration env t.StartOffset]
  let length : Int :=
    if i + 1 < totalTracks then
      match file.Tracks[i + 1]? with
      | some nextTrack => nextTrack.StartOffset - t.StartOffset
      | none => 0
    else
      env.mdFileDuration md - t.StartOffset
  let length := if length < 0 then 0 else length
  addTagValue "duration" tags [makeDuration env length]

/-- The track loop of `TagsExtractor.Extract` over the tracks from position `i`. -/
def extractTracks (env : Env) (cuesheet : Cuesheet) (last : Bool) (file : CueFile) :
    Nat → List CueTrack → TagsExtractor → TagsExtractor
  | _, [], e => e
  | i, t :: ts, e =>
    let tags0 := (e.result.get? i).getD GoMap.empty
    let tags := extractTrackTags env e.md cuesheet last file i t tags0
    extractTracks env cuesheet last file (i + 1) ts { e with result := e.result.insert i tags }

/-- The file loop of `TagsExtractor.Extract`. A nil extractor is dereferenced
when a file name is compared (external sheets) or a track is stored. -/
def extractFiles (env : Env) (cuesheet : Cuesheet) (last embedded : Bool) :
    List CueFile → Option TagsExtractor → Ret (Option TagsExtractor)
  | [], e => .val e
  | file :: files, none =>
    if !embedded then .panic
    else if file.Tracks.length = 0 then extractFiles env cuesheet last embedded files none
    else .panic
  | file :: files, some e =>
    if !embedded && file.FileName != filepath.Base e.md.filePath then
      extractFiles env cuesheet last embedded files (some e)
    else
      extractFiles env cuesheet last embedded files
        (some (extractTracks env cuesheet last file 0 file.Tracks e))

/-- Source `TagsExtractor.Extract`; the error it returns is always nil. A nil
sheet is dereferenced by the file loop. -/
def Extract (env : Env) (e : Option TagsExtractor) (cuesheet : Option Cuesheet)
    (last embedded : Bool) : Ret (Option TagsExtractor) :=
  match cuesheet with
  | none => .panic
  | some cue => extractFiles env cue last embedded cue.File e

/-- Source `TagsExtractor.ForEachTrack`: the tag sets handed to the callback, in
the order the result map is ranged over. -/
def ForEachTrack (env : Env) (e : Option TagsExtractor) : Ret (List Tags) :=
  match e with
  | none => .panic
  | some ex =>
    .val ((env.order.range ex.result.entries).map
      (fun kv => { filePath := ex.md.filePath, fileInfo := ex.fileInfo, tags := kv.2 }))

/-! ## Batched metadata loader -/

/-- The mode loop of `loadCueSheet`, from the mode at position `i`. -/
def loadCueModes (env : Env) (s : TagScanner) (md : Tags) (cueStr : String) (n : Nat) :
    Nat → List String → Option TagsExtractor → Ret (Option TagsExtractor)
  | _, [], e => .val e
  | i, mode :: modes, e =>
    let isLast := decide (i + 1 = n)
    let m := strings.TrimSpace (strings.ToLower mode)
    if m = env.CUEEmbedded then
      match Extract env e (env.readCue cueStr).1 isLast true with
      | .panic => .panic
      | .val e1 => loadCueModes env s md cueStr n (i + 1) modes e1
    else if m = env.CUEExternal then
      match s.cueCache.get? md.filePath with
      | some cue =>
        match Extract env e (some cue) isLast false with
        | .panic => .panic
        | .val e1 => loadCueModes env s md cueStr n (i + 1) modes e1
      | none => loadCueModes env s md cueStr n (i + 1) modes e
    else loadCueModes env s md cueStr n (i + 1) modes e

/-- Source `TagScanner.loadCueSheet`. -/
def loadCueSheet (env : Env) (s : TagScanner) (md : Tags) : Ret (TagScanner × List MediaFile) :=
  let cueStr := env.mdCueSheet md
  if cueStr = "" ∨ env.CUESheetSupport = env.CUEDisable then .val (s, [])
  else
    let r := NewExtractor env s md
    let modes := strings.Split env.CUESheetSupport ','
    match loadCueModes env r.1 md cueStr modes.length 0 modes r.2.1 with
    | .panic => .panic
    | .val e =>
      match ForEachTrack env e with
      | .panic => .panic
      | .val mds => .val (r.1, mds.map env.toMediaFile)

/-- The loop of `loadTracks` over the extracted tag sets. -/
def loadTracksLoop (env : Env) :
    List Tags → TagScanner → List MediaFile → Ret (TagScanner × List MediaFile)
  | [], s, mfs => .val (s, mfs)
  | md :: mds, s, mfs =>
    match loadCueSheet env s md with
    | .panic => .panic
    | .val (s1, tracks) =>
      if tracks.length > 0 then loadTracksLoop env mds s1 (mfs ++ tracks)
      else loadTracksLoop env mds s1 (mfs ++ [env.toMediaFile md])

/-- Source `TagScanner.loadTracks`. -/
def loadTracks (env : Env) (s : TagScanner) (filePaths : List String) :
    Ret (TagScanner × Except GoError (List MediaFile)) :=
  let s1 := s.log (.extract filePaths)
  match env.extract s.trace filePaths with
  | .error err => .val (s1, .error err)
  | .ok mds =>
    match loadTracksLoop env mds s1 [] with
    | .panic => .panic
    | .val (s2, mfs) => .val (s2, .ok mfs)

/-- Modelled from the spec: `slice.BreakUp` is declared in the utils package,
outside the sources at hand. It cuts the list into consecutive batches of at
most `chunkSize` items. -/
def BreakUp {α : Type} (items : List α) (chunkSize : Nat) : List (List α) :=
  items.toChunks chunkSize

/-- The record loop of `addOrUpdateTracksInDB` over the tracks of one chunk;
`st` is the state the callback closes over. -/
def putTracks {σ : Type} (env : Env) (trackCallback : MediaFile → σ → MediaFile × σ) :
    List MediaFile → TagScanner → σ → Int → TagScanner × σ × Except GoError Int
  | [], s, st, numUpdatedTracks => (s, st, .ok numUpdatedTracks)
  | n :: rest, s, st, numUpdatedTracks =>
    let r := trackCallback n st
    let s1 := s.log (.put r.1)
    match env.put s.trace r.1 with
    | some err => (s1, r.2, .error err)
    | none => putTracks env trackCallback rest (s1.log (.accumulate r.1)) r.2 (numUpdatedTracks + 1)

/-- The chunk loop of `addOrUpdateTracksInDB`. -/
def updateChunks {σ : Type} (env : Env) (trackCallback : MediaFile → σ → MediaFile × σ) :
    List (List String) → TagScanner → σ → Int → Ret (TagScanner × σ × Int × Option GoError)
  | [], s, st, numUpdatedTracks => .val (s, st, numUpdatedTracks, none)
  | chunk :: chunks, s, st, numUpdatedTracks =>
    -- Load tracks Metadata from the folder
    match loadTracks env s chunk with
    | .panic => .panic
    | .val (s1, .error err) => .val (s1, st, 0, some err)
    | .val (s1, .ok newTracks) =>
      match putTracks env trackCallback newTracks s1 st numUpdatedTracks with
      | (s2, st2, .error err) => .val (s2, st2, 0, some err)
      | (s2, st2, .ok n2) => updateChunks env trackCallback chunks s2 st2 n2

/-- Source `TagScanner.addOrUpdateTracksInDB`. -/
def addOrUpdateTracksInDB {σ : Type} (env : Env) (s : TagScanner) (filesToUpdate : List String)
    (trackCallback : MediaFile → σ → MediaFile × σ) (st : σ) :
    Ret (TagScanner × σ × Int × Option GoError) :=
  -- Break the file list in chunks to avoid calling ffmpeg with too many parameters
  updateChunks env trackCallback (BreakUp filesToUpdate filesBatchSize) s st 0

/-! ## Folder reconciler -/

/-- Go `counters.added++`. -/
def counters.incAdded (cnt : counters) : counters := { cnt with added := cnt.added + 1 }

/-- Go `counters.deleted += c`. -/
def counters.addDeleted (cnt : counters) (c : Int) : counters :=
  { cnt with deleted := cnt.deleted + c }

/-- Source `TagScanner.addMediaForUpdate`. -/
def addMediaForUpdate (s : TagScanner) (filesToUpdate : List String) (filePath : String)
    (visitedPaths : GoMap String Unit) : TagScanner × List String :=
  if !visitedPaths.contains filePath then
    ({ s with cnt := s.cnt.incAdded }, filesToUpdate ++ [filePath])
  else (s, filesToUpdate)

/-- Source `TagScanner.removeFromOrphan`. -/
def removeFromOrphan (orphanTracks : GoMap String MediaFile) (tracks : List MediaFile) :
    GoMap String MediaFile :=
  tracks.foldl (fun o track => o.erase track.ID) orphanTracks

/-- Source `TagScanner.deleteOrphanSongs`, the loop over the ranged entries. -/
def deleteOrphanLoop (env : Env) :
    List (String × MediaFile) → TagScanner → Int → TagScanner × Int × Option GoError
  | [], s, numPurgedTracks => (s, numPurgedTracks, none)
  | kv :: rest, s, numPurgedTracks =>
    let ct := kv.2
    let s1 := s.log (.accumulate ct)
    let s2 := s1.log (.delete ct.ID)
    match env.delete s1.trace ct.ID with
    | some err => (s2, 0, some err)
    | none =>
      deleteOrphanLoop env rest { s2 with cnt := s2.cnt.addDeleted 1 } (numPurgedTracks + 1)

/-- Source `TagScanner.deleteOrphanSongs`. -/
def deleteOrphanSongs (env : Env) (s : TagScanner) (tracksToDelete : GoMap String MediaFile) :
    TagScanner × Int × Option GoError :=
  -- Remaining tracks from DB that are not in the folder are deleted
  deleteOrphanLoop env (env.order.range tracksToDelete.entries) s 0

/-- Source `loadAllAudioFiles`, the loop over the directory entries. -/
def loadAllAudioFilesLoop (env : Env) (dirPath cueSupport : String) :
    List DirEntry → GoMap String DirEntry → GoMap String DirEntry
  | [], fileInfos => fileInfos
  | f :: files, fileInfos =>
    if f.IsDir then loadAllAudioFilesLoop env dirPath cueSupport files fileInfos
    else if strings.HasPrefix f.Name "." then
      loadAllAudioFilesLoop env dirPath cueSupport files fileInfos
    else
      let filePath := filepath.Join dirPath f.Name
      if env.IsCueSheetFile filePath then
        if strings.Contains (strings.ToLower cueSupport) env.CUEExternal then
          loadAllAudioFilesLoop env dirPath cueSupport files (fileInfos.insert filePath f)
        else loadAllAudioFilesLoop env dirPath cueSupport files fileInfos
      else if !env.IsAudioFile filePath then
        loadAllAudioFilesLoop env dirPath cueSupport files fileInfos
      else loadAllAudioFilesLoop env dirPath cueSupport files (fileInfos.insert filePath f)

/-- Source `loadAllAudioFiles`. -/
def loadAllAudioFiles (env : Env) (s : TagScanner) (dirPath cueSupport : String) :
    TagScanner × Except GoError (GoMap String DirEntry) :=
  let s1 := s.log (.readDir dirPath)
  match env.readDir s.trace dirPath with
  | .error err => (s1, .error err)
  | .ok files => (s1, .ok (loadAllAudioFilesLoop env dirPath cueSupport files GoMap.empty))

/-- The locals of `processChangedDir` that its closures capture. -/
structure DirCtx where
  filesToUpdate : List String
  orphanTracks : GoMap String MediaFile
  visitedPaths : GoMap String Unit
deriving DecidableEq, Repr

/-- The value `processChangedDir` stores in the orphan set for a catalog record:
a `model.MediaFile` literal with `AlbumID` and `AlbumArtistID` only. -/
def orphanOf (t : MediaFile) : MediaFile :=
  { MediaFile.zero with AlbumID := t.AlbumID, AlbumArtistID := t.AlbumArtistID }

/-- The first loop of `processChangedDir`: the catalog tracks of the folder
grouped by path, and the orphan set seeded with every one of them. -/
def seedTracks :
    List MediaFile → GoMap String (List MediaFile) × GoMap String MediaFile →
    GoMap String (List MediaFile) × GoMap String MediaFile
  | [], acc => acc
  | t :: ct, (currentTracks, orphanTracks) =>
    seedTracks ct
      (currentTracks.insert t.Path ((currentTracks.get? t.Path).getD [] ++ [t]),
       -- We don't need a full MediaFile here
       orphanTracks.insert t.ID (orphanOf t))

/-- The closure `handleMediaPath` of `processChangedDir`. -/
def handleMediaPath (env : Env) (fullScan : Bool) (currentTracks : GoMap String (List MediaFile))
    (mediaPath : String) (trackCallback : Time → MediaFile → Bool)
    (s : TagScanner) (c : DirCtx) : Ret (TagScanner × DirCtx × Bool) :=
  let s1 := s.log (.stat mediaPath)
  match env.stat s.trace mediaPath with
  | .error _ => .val (s1, c, false)
  | .ok info =>
    match currentTracks.get? mediaPath with
    | none =>
      let r := addMediaForUpdate s1 c.filesToUpdate mediaPath c.visitedPaths
      .val (r.1, { c with filesToUpdate := r.2 }, true)
    | some tracks =>
      if fullScan then
        let r := addMediaForUpdate s1 c.filesToUpdate mediaPath c.visitedPaths
        .val (r.1, { c with filesToUpdate := r.2 }, true)
      else
        match tracks with
        | [] => .panic
        | trackFromDB :: _ =>
          -- Need add only one from multi-track source, but mark as visited all tracks
          let r : TagScanner × DirCtx :=
            if trackCallback info.ModTime trackFromDB then
              let r := addMediaForUpdate s1 c.filesToUpdate mediaPath c.visitedPaths
              (r.1, { c with filesToUpdate := r.2 })
            else
              (s1, { c with orphanTracks := removeFromOrphan c.orphanTracks tracks })
          -- Force a refresh of the album and artist, to cater for cover art files
          .val (r.1.log (.accumulate trackFromDB), r.2, true)

/-- The callback of `processChangedDir` for a media file listed by a cue file. -/
def cueTrackCallback (env : Env) (cueInfo : FileInfo) (fileModTime : Time)
    (trackFromDB : MediaFile) : Bool :=
  cueInfo.ModTime.After trackFromDB.UpdatedAt ||
    (env.CUESheetSupport != env.CUEExternal && fileModTime.After trackFromDB.UpdatedAt)

/-- The callback of `processChangedDir` for a plain media file. -/
def plainTrackCallback (fileModTime : Time) (trackFromDB : MediaFile) : Bool :=
  fileModTime.After trackFromDB.UpdatedAt

/-- The loop of `processChangedDir` over the `FILE` entries of a cue sheet. -/
def visitCueFiles (env : Env) (fullScan : Bool) (currentTracks : GoMap String (List MediaFile))
    (filePath : String) (cueInfo : FileInfo) (cue : Cuesheet) :
    List CueFile → TagScanner → DirCtx → Ret (TagScanner × DirCtx)
  | [], s, c => .val (s, c)
  | f :: fs, s, c =>
    let mediaPath := filepath.Join (filepath.Dir filePath) (filepath.Base f.FileName)
    match handleMediaPath env fullScan currentTracks mediaPath (cueTrackCallback env cueInfo) s c with
    | .panic => .panic
    | .val (s1, c1, true) =>
      -- Store CUE data in cache for future use
      visitCueFiles env fullScan currentTracks filePath cueInfo cue fs
        { s1 with cueCache := s1.cueCache.insert filePath cue } c1
    | .val (s1, c1, false) =>
      visitCueFiles env fullScan currentTracks filePath cueInfo cue fs s1 c1

/-- Body of the loop of `processChangedDir` over the files of the folder. -/
def visitEntry (env : Env) (fullScan : Bool) (currentTracks : GoMap String (List MediaFile))
    (filePath : String) (s : TagScanner) (c : DirCtx) : Ret (TagScanner × DirCtx) :=
  if env.IsCueSheetFile filePath then
    let s1 := s.log (.entryInfo filePath)
    match env.entryInfo s.trace filePath with
    | .error _ => .val (s1, c)
    | .ok cueInfo =>
      let s2 := s1.log (.readFromFile filePath)
      match env.readFromFile s1.trace filePath with
      | .error _ => .val (s2, c)
      | .ok cue => visitCueFiles env fullScan currentTracks filePath cueInfo cue cue.File s2 c
  else
    match handleMediaPath env fullScan currentTracks filePath plainTrackCallback s c with
    | .panic => .panic
    | .val (s1, c1, _) => .val (s1, c1)

/-- The loop of `processChangedDir` over the files of the folder. -/
def visitEntries (env : Env) (fullScan : Bool) (currentTracks : GoMap String (List MediaFile)) :
    List (String × DirEntry) → TagScanner → DirCtx → Ret (TagScanner × DirCtx)
  | [], s, c => .val (s, c)
  | kv :: rest, s, c =>
    match visitEntry env fullScan currentTracks kv.1 s c with
    | .panic => .panic
    | .val (s1, c1) => visitEntries env fullScan currentTracks rest s1 c1

/-- The callback `processChangedDir` hands to `addOrUpdateTracksInDB`. -/
def keepAnnotations (currentTracks : GoMap String (List MediaFile)) (track : MediaFile)
    (orphanTracks : GoMap String MediaFile) : MediaFile × GoMap String MediaFile :=
  -- Keep current annotations if the track is in the DB
  match currentTracks.get? track.Path with
  | some tracks =>
    match tracks.find? (fun dbTrack => decide (dbTrack.ID = track.ID)) with
    | some dbTrack =>
      ({ track with Annotations := dbTrack.Annotations, Bookmarkable := dbTrack.Bookmarkable },
       -- Track will be updated in DB, no need to remove it
       orphanTracks.erase track.ID)
    | none => (track, orphanTracks)
  | none => (track, orphanTracks)

/-- What a call of `processChangedDir` leaves behind: the scanner, the error it
returns, and the values of its locals `filesToUpdate` and `orphanTracks` at the
return. -/
structure DirPass where
  s : TagScanner
  err : Option GoError
  filesToUpdate : List String
  orphanTracks : GoMap String MediaFile
deriving DecidableEq, Repr

/-- Source `TagScanner.processChangedDir`, with its locals. -/
def processChangedDirPass (env : Env) (s : TagScanner) (fullScan : Bool) (dir : String) :
    Ret DirPass :=
  -- Load folder's current tracks from DB into a map
  let s1 := s.log (.findAllByPath dir)
  match env.findAllByPath s.trace dir with
  | .error err => .val ⟨s1, some err, [], GoMap.empty⟩
  | .ok ct =>
    let seeded := seedTracks ct (GoMap.empty, GoMap.empty)
    let currentTracks := seeded.1
    let orphanTracks := seeded.2
    -- Load track list from the folder
    match loadAllAudioFiles env s1 dir env.CUESheetSupport with
    | (s2, .error err) => .val ⟨s2, some err, [], orphanTracks⟩
    | (s2, .ok files) =>
      -- If no files to process, return
      if files.len + currentTracks.len = 0 then .val ⟨s2, none, [], orphanTracks⟩
      else
        match visitEntries env fullScan currentTracks (env.order.range files.entries) s2
            ⟨[], orphanTracks, GoMap.empty⟩ with
        | .panic => .panic
        | .val (s3, c) =>
          let updated : Ret (TagScanner × GoMap String MediaFile × Int × Option GoError) :=
            if c.filesToUpdate.length > 0 then
              addOrUpdateTracksInDB env s3 c.filesToUpdate (keepAnnotations currentTracks)
                c.orphanTracks
            else .val (s3, c.orphanTracks, 0, none)
          match updated with
          | .panic => .panic
          | .val (s4, orphans, _, some err) => .val ⟨s4, some err, c.filesToUpdate, orphans⟩
          | .val (s4, orphans, _, none) =>
            let purged : TagScanner × Int × Option GoError :=
              if orphans.len > 0 then deleteOrphanSongs env s4 orphans
              else (s4, 0, none)
            match purged with
            | (s5, _, some err) => .val ⟨s5, some err, c.filesToUpdate, orphans⟩
            | (s5, _, none) =>
              .val ⟨s5.log .flush, env.flush s5.trace, c.filesToUpdate, orphans⟩

/-- Source `TagScanner.processChangedDir`. -/
def processChangedDir (env : Env) (s : TagScanner) (fullScan : Bool) (dir : String) :
    Ret (TagScanner × Option GoError) :=
  match processChangedDirPass env s fullScan dir with
  | .panic => .panic
  | .val p => .val (p.s, p.err)

/-- Source `TagScanner.processDeletedDir`. -/
def processDeletedDir (env : Env) (s : TagScanner) (dir : String) : TagScanner × Option GoError :=
  let s1 := s.log (.findAllByPath dir)
  match env.findAllByPath s.trace dir with
  | .error err => (s1, some err)
  | .ok mfs =>
    let s2 := s1.log (.deleteByPath dir)
    match env.deleteByPath s1.trace dir with
    | .error err => (s2, some err)
    | .ok c =>
      let s3 := { s2 with cnt := s2.cnt.addDeleted c }
      let s4 := mfs.foldl (fun st t => st.log (.accumulate t)) s3
      (s4.log .flush, env.flush s4.trace)

/-! ## The pass -/

/-- Source `isDirEmpty`. -/
def isDirEmpty (env : Env) (s : TagScanner) (dir : String) : TagScanner × Except GoError Bool :=
  let s1 := s.log (.loadDir dir)
  match env.loadDir s.trace dir with
  | .error err => (s1, .error err)
  | .ok r => (s1, .ok (decide (r.1.length = 0) && decide (r.2.AudioFilesCount = 0)))

/-- Source `TagScanner.getDBDirTree`. -/
def getDBDirTree (env : Env) (s : TagScanner) : TagScanner × Except GoError (GoMap String Unit) :=
  let s1 := s.log (.findPathsRecursively s.rootFolder)
  match env.findPathsRecursively s.trace s.rootFolder with
  | .error err => (s1, .error err)
  | .ok dirs => (s1, .ok (dirs.foldl (fun resp d => resp.insert (filepath.Clean d) ()) GoMap.empty))

/-- The walker loop of `Scan`: the folders received so far, the changed ones. -/
def scanFolders (env : Env) (lastModifiedSince : Time) (fullScan : Bool)
    (allDBDirs : GoMap String Unit) :
    List dirStats → TagScanner → dirMap → List String → Ret (TagScanner × dirMap × List String)
  | [], s, allFSDirs, changedDirs => .val (s, allFSDirs, changedDirs)
  | folderStats :: more, s, allFSDirs, changedDirs =>
    let s1 := s.log (.progress folderStats.AudioFilesCount)
    let allFSDirs1 := allFSDirs.insert folderStats.Path folderStats
    if folderHasChanged folderStats allDBDirs lastModifiedSince then
      match processChangedDir env s1 fullScan folderStats.Path with
      | .panic => .panic
      | .val (s2, _) =>
        scanFolders env lastModifiedSince fullScan allDBDirs more s2 allFSDirs1
          (changedDirs ++ [folderStats.Path])
    else
      scanFolders env lastModifiedSince fullScan allDBDirs more s1 allFSDirs1 changedDirs

/-- The loop of `Scan` over the deleted directories; errors are logged only. -/
def processDeletedDirs (env : Env) : List String → TagScanner → TagScanner
  | [], s => s
  | dir :: dirs, s => processDeletedDirs env dirs (processDeletedDir env s dir).1

/-- The loop of `Scan` over the changed directories that imports playlists. -/
def importPlaylists (env : Env) (isAdmin : Bool) (allFSDirs : dirMap) :
    List String → TagScanner → TagScanner
  | [], s => s
  | dir :: dirs, s =>
    let hasPlaylist :=
      match allFSDirs.get? dir with
      | some info => info.HasPlaylist
      | none => false
    if hasPlaylist then
      if !isAdmin then importPlaylists env isAdmin allFSDirs dirs s
      else
        let s1 := s.log (.processPlaylists dir)
        importPlaylists env isAdmin allFSDirs dirs
          { s1 with cnt := { s1.cnt with playlists := env.processPlaylists s.trace dir } }
    else importPlaylists env isAdmin allFSDirs dirs s

/-- Source `TagScanner.Scan`: the scanner after the pass and the pair it returns. -/
def Scan (env : Env) (s : TagScanner) (lastModifiedSince : Time) :
    Ret (TagScanner × Int × Option GoError) :=
  let isAdmin := env.adminUser s.trace
  let s0 := s.log .withAdminUser
  -- Special case: if lastModifiedSince is zero, re-import all files
  let fullScan := lastModifiedSince.IsZero
  -- If the media folder is empty (no music and no subfolders), abort to avoid deleting all data from DB
  match isDirEmpty env s0 s0.rootFolder with
  | (s1, .error err) => .val (s1, 0, some err)
  | (s1, .ok empty) =>
    if empty && !fullScan then .val (s1, 0, none)
    else
      match getDBDirTree env s1 with
      | (s2, .error err) => .val (s2, 0, some err)
      | (s2, .ok allDBDirs) =>
        let s3 := { s2 with cnt := ⟨0, 0, 0, 0⟩ }
        let s4 := s3.log (.walkDirTree s3.rootFolder)
        let walk := env.walkDirTree s3.trace s3.rootFolder
        match scanFolders env lastModifiedSince fullScan allDBDirs walk.1 s4 GoMap.empty [] with
        | .panic => .panic
        | .val (s5, allFSDirs, changedDirs) =>
          match walk.2 with
          | some err => .val (s5, 0, some err)
          | none =>
            let deletedDirs := getDeletedDirs env.order allFSDirs allDBDirs
            if deletedDirs.length + changedDirs.length = 0 then .val (s5, 0, none)
            else
              let s6 := processDeletedDirs env deletedDirs s5
              let s7 := { s6 with cnt := { s6.cnt with playlists := 0 } }
              let s8 :=
                if env.AutoImportPlaylists then importPlaylists env isAdmin allFSDirs changedDirs s7
                else s7
              let s9 := s8.log (.gc s8.rootFolder)
              .val (s9, s9.cnt.total, env.gc s8.trace s8.rootFolder)

/-! ## Relations between two states of the scanner -/

/-- From `s` to `s1` the trace grew, and by no call of `Put`. -/
def NoPut (s s1 : TagScanner) : Prop :=
  ∃ evs, s1.trace = s.trace ++ evs ∧ ∀ e ∈ evs, e.isPut = false

/-- A track matches a catalog record of the folder: same path, same identity. -/
def Matches (currentTracks : GoMap String (List MediaFile)) (mf : MediaFile) : Prop :=
  ∃ tracks, currentTracks.get? mf.Path = some tracks ∧ ∃ t ∈ tracks, t.ID = mf.ID

/-- From `(s, o)` to `(s1, o1)` the loader ran with the callback of
`processChangedDir`: the trace grew, every track put that matches a catalog
record has left the orphan set, the counters are the same and the orphan set
only lost entries. -/
def UpdateInv (currentTracks : GoMap String (List MediaFile))
    (s : TagScanner) (o : GoMap String MediaFile)
    (s1 : TagScanner) (o1 : GoMap String MediaFile) : Prop :=
  (∃ evs, s1.trace = s.trace ++ evs ∧
    ∀ mf, Event.put mf ∈ evs → Matches currentTracks mf → mf.ID ∉ o1.keys) ∧
  s1.cnt = s.cnt ∧ ∀ k ∈ o1.keys, k ∈ o.keys

/-! ## Concrete collaborators, for running the scanner on examples -/

/-- Whether a path ends in the given extension. -/
def hasExt (ext path : String) : Bool := ext.data.isSuffixOf path.data

/-- An answer "no such file". -/
def noEntry {α : Type} : Except GoError α := .error "no such file or directory"

/-- Collaborators that never fail over an empty library: empty folders, an
empty catalog, cue sheets recognised by `.cue`, audio files by `.mp3`/`.flac`. -/
def baseEnv : Env where
  CUESheetSupport := "disabled"
  AutoImportPlaylists := true
  CUEDisable := "disabled"
  CUEEmbedded := "embedded"
  CUEExternal := "external"
  order := MapOrder.stored
  IsCueSheetFile := hasExt ".cue"
  IsAudioFile := fun p => hasExt ".mp3" p || hasExt ".flac" p
  adminUser := fun _ => true
  loadDir := fun _ dir => .ok ([], ⟨dir, 0, false, 0⟩)
  walkDirTree := fun _ _ => ([], none)
  readDir := fun _ _ => .ok []
  stat := fun _ _ => noEntry
  entryInfo := fun _ _ => noEntry
  readFromFile := fun _ _ => noEntry
  readCue := fun _ => (none, some "empty cue sheet")
  extract := fun _ _ => .ok []
  toMediaFile := fun md => { MediaFile.zero with ID := md.filePath, Path := md.filePath }
  mdCueSheet := fun _ => ""
  mdArtist := fun _ => ""
  mdAlbum := fun _ => ""
  mdGenres := fun _ => []
  mdMbzAlbumID := fun _ => ""
  mdMbzArtistID := fun _ => ""
  mdMbzRecordingID := fun _ => ""
  mdMbzReleaseTrackID := fun _ => ""
  mdDiscNumber := fun _ => (0, 0)
  mdBitRate := fun _ => 0
  mdChannels := fun _ => 0
  mdFileDuration := fun _ => 0
  formatSeconds := fun d => toString d
  findPathsRecursively := fun _ _ => .ok []
  findAllByPath := fun _ _ => .ok []
  put := fun _ _ => none
  delete := fun _ _ => none
  deleteByPath := fun _ _ => .ok 0
  flush := fun _ => none
  processPlaylists := fun _ _ => 0
  gc := fun _ _ => none

/-- A scanner on the root `music` that has made no call yet. -/
def freshScanner : TagScanner :=
  { rootFolder := "music", cnt := ⟨0, 0, 0, 0⟩, cueCache := GoMap.empty, trace := [] }

/-- A catalog record at the given path, identified by `id`. -/
def record (id path album artist : String) (updatedAt : Time) : MediaFile :=
  { MediaFile.zero with
    ID := id, Path := path, AlbumID := album, AlbumArtistID := artist, UpdatedAt := updatedAt }

/-- The root `music` is empty on disk while the catalog still holds records. -/
def emptyRootEnv : Env :=
  { baseEnv with
    findPathsRecursively := fun _ _ => .ok ["music", "music/album"]
    findAllByPath := fun _ _ => .ok [record "id-a" "music/a.mp3" "al-a" "ar-a" 10] }

/-- The folder `music` holds the catalog records of `a.mp3` and `b.mp3`; on
disk only `a.mp3` is left, unchanged since it was catalogued. -/
def deletionEnv : Env :=
  { baseEnv with
    findAllByPath := fun _ _ =>
      .ok [record "id-a" "music/a.mp3" "al-a" "ar-a" 10, record "id-b" "music/b.mp3" "al-b" "ar-b" 10]
    readDir := fun _ _ => .ok [⟨"a.mp3", false⟩]
    stat := fun _ p => if p = "music/a.mp3" then .ok ⟨10⟩ else noEntry }

/-- The folder `music/gone` has left the disk; the catalog holds two records
of it, which the bulk delete removes. -/
def deletedDirEnv : Env :=
  { baseEnv with
    findAllByPath := fun _ _ =>
      .ok [record "id-a" "music/gone/a.mp3" "al-a" "ar-a" 10,
           record "id-b" "music/gone/b.mp3" "al-b" "ar-b" 10]
    deleteByPath := fun _ _ => .ok 2 }

/-- The folder `music` holds a record of `a.mp3`, starred and rated, and the
file on disk was modified after the record. -/
def annotatedRecord : MediaFile :=
  { record "id-a" "music/a.mp3" "al-a" "ar-a" 10 with
    Annotations := { PlayCount := 7, PlayDate := some 9, Rating := 5, Starred := true,
                     StarredAt := some 8 },
    Bookmarkable := { BookmarkPosition := 42 } }

/-- Remarks without any value. -/
def noRem : CueRem :=
  { Genre := "", Comment := "", Date := "", AlbumGain := "", AlbumPeak := "", TrackGain := "",
    TrackPeak := "", TotalDiscs := 0, DiscNumber := 0 }

/-- The cue sheet `music/a.cue`: two tracks carved out of `a.flac`. -/
def pairSheet : Cuesheet :=
  { Title := "Album", Performer := "Artist", Rem := noRem,
    File := [⟨"a.flac", [⟨1, "One", "", 0, noRem⟩, ⟨2, "Two", "", 60000000000, noRem⟩]⟩] }

/-- A new folder `music` with external cue sheets enabled: the audio file
`a.flac` and the cue sheet `a.cue` that lists it; the catalog knows neither. -/
def cuePairEnv : Env :=
  { baseEnv with
    CUESheetSupport := "external"
    readDir := fun _ _ => .ok [⟨"a.flac", false⟩, ⟨"a.cue", false⟩]
    stat := fun _ p => if p = "music/a.flac" then .ok ⟨10⟩ else noEntry
    entryInfo := fun _ p => if p = "music/a.cue" then .ok ⟨10⟩ else noEntry
    readFromFile := fun _ p => if p = "music/a.cue" then .ok pairSheet else noEntry
    extract := fun _ paths => .ok (paths.map fun p => ⟨p, ⟨10⟩, GoMap.empty⟩) }

/-- The first value of a tag, or the empty string. -/
def firstTag (md : Tags) (name : String) : String :=
  match md.tags.get? name with
  | some (v :: _) => v
  | _ => ""

/-- The folder `music` holds three catalog records carved out of `a.flac` by its
embedded cue sheet (sub-tracks 0, 1, 2). The file on disk is newer than the
records and its embedded sheet now lists two tracks only. -/
def cueShrinkEnv : Env :=
  { baseEnv with
    CUESheetSupport := "embedded"
    findAllByPath := fun _ _ =>
      .ok [record "music/a.flac#0" "music/a.flac" "al-a" "ar-a" 10,
           record "music/a.flac#1" "music/a.flac" "al-a" "ar-a" 10,
           record "music/a.flac#2" "music/a.flac" "al-a" "ar-a" 10]
    readDir := fun _ _ => .ok [⟨"a.flac", false⟩]
    stat := fun _ p => if p = "music/a.flac" then .ok ⟨20⟩ else noEntry
    extract := fun _ paths => .ok (paths.map fun p => ⟨p, ⟨20⟩, ⟨[("cuesheet", ["sheet"])]⟩⟩)
    mdCueSheet := fun md => firstTag md "cuesheet"
    readCue := fun _ => (some pairSheet, none)
    toMediaFile := fun md =>
      { MediaFile.zero with
        ID := md.filePath ++ "#" ++ firstTag md "sub_track", Path := md.filePath,
        Title := firstTag md "title" } }

/-- The folder `music` holds the catalog record of `a.mp3`, identified by its
path; the file on disk is newer than the record and the extractor reads it. -/
def updatedEnv : Env :=
  { baseEnv with
    findAllByPath := fun _ _ => .ok [record "music/a.mp3" "music/a.mp3" "al-a" "ar-a" 10]
    readDir := fun _ _ => .ok [⟨"a.mp3", false⟩]
    stat := fun _ p => if p = "music/a.mp3" then .ok ⟨20⟩ else noEntry
    extract := fun _ paths => .ok (paths.map fun p => ⟨p, ⟨20⟩, GoMap.empty⟩) }

/-- The outcome of a folder pass that did not panic. -/
def Ret.pass (r : Ret DirPass) : DirPass :=
  match r with
  | .val p => p
  | .panic => ⟨⟨"", ⟨0, 0, 0, 0⟩, GoMap.empty, []⟩, none, [], GoMap.empty⟩

/-- The length `TagsExtractor.Extract` computes for the track `t` at position `i`
of `file`: up to the next track, or up to the end of the file for the last
track, and zero when that is negative. -/
def trackDuration (env : Env) (md : Tags) (file : CueFile) (i : Nat) (t : CueTrack) : Int :=
  let length : Int :=
    if i + 1 < file.Tracks.length then
      match file.Tracks[i + 1]? with
      | some nextTrack => nextTrack.StartOffset - t.StartOffset
      | none => 0
    else
      env.mdFileDuration md - t.StartOffset
  if length < 0 then 0 else length

/-- An extractor created by `NewExtractor` on which no sheet was applied yet. -/
def freshExtractor (md : Tags) (fileInfo : FileInfo) : TagsExtractor :=
  { md := md, fileInfo := fileInfo, result := GoMap.empty }

/-- The value of a tag in the bag at position `i` of an extraction result. -/
def bagTag (e : Option TagsExtractor) (i : Nat) (name : String) : Option (List String) :=
  match e with
  | some ex =>
    match ex.result.get? i with
    | some bag => bag.get? name
    | none => none
  | none => none

/-- A cue sheet of an album split in one file per track: two `FILE` entries of
one track each. -/
def twoFileSheet : Cuesheet :=
  { Title := "Album", Performer := "Artist", Rem := noRem,
    File := [⟨"01.flac", [⟨1, "One", "", 0, noRem⟩]⟩, ⟨"02.flac", [⟨2, "Two", "", 0, noRem⟩]⟩] }

/-- A cue sheet of three tracks whose second track starts after the third and
after the end of the file. -/
def skewSheet : Cuesheet :=
  { Title := "Album", Performer := "Artist", Rem := noRem,
    File := [⟨"a.flac", [⟨1, "One", "", 0, noRem⟩, ⟨2, "Two", "", 100, noRem⟩,
                         ⟨3, "Three", "", 50, noRem⟩]⟩] }

/-- Collaborators for a file of duration 60; durations are printed as integers. -/
def shortFileEnv : Env := { baseEnv with mdFileDuration := fun _ => 60 }

/-- The tag set of the media file `music/a.flac` before any sheet is applied. -/
def plainTags : Tags := ⟨"music/a.flac", ⟨10⟩, GoMap.empty⟩

/-- A sheet with one `FILE` entry of three tracks starting at 0, 20 and 40. -/
def tripleSheet : Cuesheet :=
  { Title := "Album", Performer := "Artist", Rem := noRem,
    File := [⟨"a.flac", [⟨1, "One", "", 0, noRem⟩, ⟨2, "Two", "", 20, noRem⟩,
                         ⟨3, "Three", "", 40, noRem⟩]⟩] }

/-- The folder `music` holds the catalog records of `a.mp3` and `b.mp3`, both
still listed by the directory read; `b.mp3` vanishes before it is stat'ed. -/
def vanishedEnv : Env :=
  { deletionEnv with
    readDir := fun _ _ => .ok [⟨"a.mp3", false⟩, ⟨"b.mp3", false⟩] }

/-- One call of a run of the loader in which every call succeeds, `h` being the
trace before it and `rest` the calls after it: an extraction that succeeds, the
stat of a new cue extractor, an accumulation, or a `Put` that succeeds and is
directly followed by the accumulation of the record put. No other call is
allowed, in particular no delete. -/
def loaderStep (env : Env) (h : List Event) (e : Event) (rest : List Event) : Bool :=
  match e with
  | .put mf =>
    decide (env.put h mf = none) &&
      (match rest with
       | .accumulate mf1 :: _ => decide (mf1 = mf)
       | _ => false)
  | .extract paths =>
    (match env.extract h paths with
     | .ok _ => true
     | .error _ => false)
  | .accumulate _ => true
  | .stat _ => true
  | _ => false

/-- The calls a run of the loader logs while every call succeeds, `h` being the
trace before the first of them. -/
def loaderLog (env : Env) : List Event → List Event → Bool
  | _, [] => true
  | h, e :: rest => loaderStep env h e rest && loaderLog env (h ++ [e]) rest

/-- The call `e`, made after the trace `h`, is a `Put` or an extraction that
fails with `err`. -/
def Event.failsWith (env : Env) (h : List Event) (err : GoError) : Event → Bool
  | .put mf => decide (env.put h mf = some err)
  | .extract paths =>
    (match env.extract h paths with
     | .error e => decide (e = err)
     | .ok _ => false)
  | _ => false

/-- The number of `Put` calls among the events. -/
def putCount (evs : List Event) : Nat := (evs.filter Event.isPut).length

/-- The folder of `updatedEnv` with a second file `b.mp3`; the repository
refuses to store `b.mp3`. -/
def putFailsEnv : Env :=
  { updatedEnv with
    put := fun _ mf => if mf.Path = "music/b.mp3" then some "disk full" else none }

/-- The calls that remove catalog records. -/
def Event.isRemoval : Event → Bool
  | .delete _ => true
  | .deleteByPath _ => true
  | _ => false

/-- The calls made while the folders of the walk are received: the progress
report and the calls of a folder pass. -/
def Event.inFolderLoop : Event → Bool
  | .progress _ => true
  | .findAllByPath _ => true
  | .readDir _ => true
  | .stat _ => true
  | .entryInfo _ => true
  | .readFromFile _ => true
  | .extract _ => true
  | .put _ => true
  | .delete _ => true
  | .accumulate _ => true
  | .flush => true
  | _ => false

/-- What the call `e`, made after the trace `h`, adds to the counter `deleted`:
one for a `Delete` that returns no error, whatever identity it was given, and
the count that a successful `DeleteByPath` reports. -/
def removedBy (env : Env) (h : List Event) : Event → Int
  | .delete id => if env.delete h id = none then 1 else 0
  | .deleteByPath dir =>
    (match env.deleteByPath h dir with
     | .ok c => c
     | .error _ => 0)
  | _ => 0

/-- What the calls `evs`, made after `h`, add to the counter `deleted`. -/
def removedCount (env : Env) : List Event → List Event → Int
  | _, [] => 0
  | h, e :: rest => removedBy env h e + removedCount env (h ++ [e]) rest

/-- From `s` to `s1` the scanner made calls that all satisfy `Q`, `updated` did
not move and `deleted` grew by one per `Delete` that returned no error and by
the count of each successful `DeleteByPath`. -/
def Step (env : Env) (Q : Event → Bool) (s s1 : TagScanner) : Prop :=
  ∃ evs, s1.trace = s.trace ++ evs ∧ (∀ e ∈ evs, Q e = true) ∧
    s1.cnt.updated = s.cnt.updated ∧
    s1.cnt.deleted = s.cnt.deleted + removedCount env s.trace evs

/-- The scanner after the prologue of `Scan`: the admin lookup, the listing of
the root and the load of the catalog folders are done. -/
def afterPrologue (s : TagScanner) : TagScanner :=
  ((s.log .withAdminUser).log (.loadDir s.rootFolder)).log (.findPathsRecursively s.rootFolder)

/-- The scanner at the point where `Scan` starts to receive the folders of the
walk: the prologue is done, the counters are reset, the walker is started. -/
def walkStart (s : TagScanner) : TagScanner :=
  { afterPrologue s with cnt := ⟨0, 0, 0, 0⟩ }.log (.walkDirTree s.rootFolder)

/-- The set `getDBDirTree` builds from the folder paths of the catalog. -/
def dbDirTree (dirs : List String) : GoMap String Unit :=
  dirs.foldl (fun resp d => resp.insert (filepath.Clean d) ()) GoMap.empty

/-- The answer of the walker to `Scan` started on `s`. -/
def walkOf (env : Env) (s : TagScanner) : List dirStats × Option GoError :=
  env.walkDirTree (afterPrologue s).trace s.rootFolder

/-- The library of `updatedEnv` under a walker that delivers the folder `music`
and then fails. -/
def walkFailsEnv : Env :=
  { updatedEnv with
    loadDir := fun _ dir => .ok ([], ⟨dir, 20, false, 1⟩)
    findPathsRecursively := fun _ _ => .ok ["music"]
    walkDirTree := fun _ _ => ([⟨"music", 20, false, 1⟩], some "walk failed") }

/-- Modelled from the spec: the refresher is declared outside the sources at
hand. Its accumulator holds what was accumulated since the last flush; a flush
clears it. The records pending after the calls of a trace. -/
def pendingRefresh (tr : List Event) : List MediaFile :=
  tr.foldl (fun acc e =>
    match e with
    | .accumulate mf => acc ++ [mf]
    | .flush => []
    | _ => acc) []

/-- No call is excluded. -/
def Event.anyCall (_ : Event) : Bool := true

/-- A library whose folder `music` holds `a.mp3`, catalogued and now newer than
its record, and the new file `b.mp3`; the repository refuses to store `b.mp3`.
The walker delivers the folder and succeeds. -/
def partialFailEnv : Env :=
  { putFailsEnv with
    readDir := fun _ _ => .ok [⟨"a.mp3", false⟩, ⟨"b.mp3", false⟩]
    stat := fun _ _ => .ok ⟨20⟩
    loadDir := fun _ dir => .ok ([], ⟨dir, 20, false, 2⟩)
    findPathsRecursively := fun _ _ => .ok ["music"]
    walkDirTree := fun _ _ => ([⟨"music", 20, false, 2⟩], none) }

/-- The library of `cueShrinkEnv` under a walker that delivers the folder
`music` and succeeds. -/
def cueShrinkScanEnv : Env :=
  { cueShrinkEnv with
    loadDir := fun _ dir => .ok ([], ⟨dir, 20, false, 1⟩)
    findPathsRecursively := fun _ _ => .ok ["music"]
    walkDirTree := fun _ _ => ([⟨"music", 20, false, 1⟩], none) }

/-- The folder `music` holds one audio file that the metadata extractor leaves
out of its answer, so the catalog stays empty; nothing changes on disk. -/
def unreadableEnv : Env :=
  { baseEnv with
    loadDir := fun _ dir => .ok ([], ⟨dir, 20, false, 1⟩)
    walkDirTree := fun _ _ => ([⟨"music", 20, false, 1⟩], none)
    readDir := fun _ _ => .ok [⟨"a.mp3", false⟩]
    stat := fun _ _ => .ok ⟨20⟩ }

/-- The call is not a `Delete` of an identity other than the empty one. -/
def Event.emptyDelete : Event → Bool
  | .delete id => decide (id = "")
  | _ => true

/-- From `s` to `s1` the trace grew, and by no `Delete` of an identity other
than the empty one. -/
def Quiet (s s1 : TagScanner) : Prop :=
  ∃ evs, s1.trace = s.trace ++ evs ∧ ∀ e ∈ evs, e.emptyDelete = true

/-- Every record of the orphan set is without identity. -/
def NoIds (o : GoMap String MediaFile) : Prop := ∀ kv ∈ o.entries, kv.2.ID = ""

/-- The calls that leave the folders of the catalog as they are: every call but
a `Put` and a `DeleteByPath`. -/
def Event.keepsFolders : Event → Bool
  | .put _ => false
  | .deleteByPath _ => false
  | _ => true

/-- Modelled from the spec: the repository is declared outside the sources at
hand. The folders in which the catalog holds a record after the calls `evs`,
made after the trace `h`, when it held records in `folders` before: a `Put` that
succeeds adds the folder of the record it stores, a `DeleteByPath` that succeeds
removes the folder it is given. A `Delete` leaves the folders as they are: the
scanner only calls it with the empty identity, that of the record literal
`processChangedDir` builds without an identity, which is the identity of no
record. -/
def foldersAfter (env : Env) : List Event → List Event → List String → List String
  | _, [], folders => folders
  | h, e :: rest, folders =>
    foldersAfter env (h ++ [e]) rest
      (match e with
       | .put mf => if env.put h mf = none then filepath.Dir mf.Path :: folders else folders
       | .deleteByPath dir =>
         (match env.deleteByPath h dir with
          | .ok _ => folders.filter (fun d => decide (d ≠ dir))
          | .error _ => folders)
       | _ => folders)

/-- The folders in which the calls `evs`, made after the trace `h`, stored a
record: the folder of every record given to a `Put` that succeeded. -/
def storedFolders (env : Env) : List Event → List Event → List String
  | _, [] => []
  | h, e :: rest =>
    (match e with
     | .put mf => if env.put h mf = none then [filepath.Dir mf.Path] else []
     | _ => []) ++ storedFolders env (h ++ [e]) rest

/-- The calls a pass of `Scan` made from the start of the walk on, when it was
started on `s` and left the scanner `s1`. -/
def passCalls (s s1 : TagScanner) : List Event := s1.trace.drop (walkStart s).trace.length

/-- A library of one folder `music` with the audio file `a.mp3`, modified at 20,
that the extractor reads; the catalog is empty at first and lists the folder
once a record has been put. No call fails. -/
def newFolderEnv : Env :=
  { baseEnv with
    loadDir := fun _ dir => .ok ([], ⟨dir, 20, false, 1⟩)
    walkDirTree := fun _ _ => ([⟨"music", 20, false, 1⟩], none)
    readDir := fun _ _ => .ok [⟨"a.mp3", false⟩]
    stat := fun _ _ => .ok ⟨20⟩
    extract := fun _ paths => .ok (paths.map fun p => ⟨p, ⟨20⟩, GoMap.empty⟩)
    findPathsRecursively := fun h _ => if h.any Event.isPut then .ok ["music"] else .ok [] }

/-- The test `loadAllAudioFiles` applies to a directory entry, as the code makes
it: not a directory, not hidden, and then a cue sheet is kept when the setting
names the external mode, any other file when it is an audio file. -/
def keptEntry (env : Env) (dirPath cueSupport : String) (f : DirEntry) : Bool :=
  !f.IsDir && !strings.HasPrefix f.Name "." &&
    (if env.IsCueSheetFile (filepath.Join dirPath f.Name) then
      strings.Contains (strings.ToLower cueSupport) env.CUEExternal
     else env.IsAudioFile (filepath.Join dirPath f.Name))

/-- The entries the specification lists for `loadAllAudioFiles`: not a
directory, not hidden, and an audio file, or a cue sheet when the lower-cased
setting names the external mode. -/
def listedEntry (env : Env) (dirPath cueSupport : String) (f : DirEntry) : Bool :=
  !f.IsDir && !strings.HasPrefix f.Name "." &&
    (env.IsAudioFile (filepath.Join dirPath f.Name) ||
      (env.IsCueSheetFile (filepath.Join dirPath f.Name) &&
        strings.Contains (strings.ToLower cueSupport) env.CUEExternal))

/-- The durations `Extract` computes for the tracks of a `FILE` entry, in track
order. -/
def trackDurations (env : Env) (md : Tags) (file : CueFile) : List Int :=
  file.Tracks.enum.map (fun it => trackDuration env md file it.1 it.2)

/-- A folder that holds the cue sheet `album.cue` and no audio file. -/
def cueOnlyEnv : Env :=
  { baseEnv with readDir := fun _ _ => .ok [⟨"album.cue", false⟩, ⟨"notes.txt", false⟩] }

/-- The condition under which the cue branch of `processChangedDir` queues a
catalogued media path: the callback it hands to `handleMediaPath`, on the first
record at the path. -/
def cueQueues (env : Env) (cueInfo info : FileInfo) (t0 : MediaFile) : Prop :=
  t0.UpdatedAt < cueInfo.ModTime ∨
    (env.CUESheetSupport ≠ env.CUEExternal ∧ t0.UpdatedAt < info.ModTime)

instance (env : Env) (cueInfo info : FileInfo) (t0 : MediaFile) :
    Decidable (cueQueues env cueInfo info t0) := by
  unfold cueQueues
  exact inferInstance

/-- The folder `music` under the setting `embedded,external`: the catalog holds
the record of `a.flac`, updated at 10; the media file was modified at 5 and the
cue sheet `a.cue` that lists it at 20. -/
def cueNewerEnv : Env :=
  { baseEnv with
    CUESheetSupport := "embedded,external"
    findAllByPath := fun _ _ => .ok [record "music/a.flac" "music/a.flac" "al-a" "ar-a" 10]
    readDir := fun _ _ => .ok [⟨"a.flac", false⟩, ⟨"a.cue", false⟩]
    stat := fun _ p => if p = "music/a.flac" then .ok ⟨5⟩ else noEntry
    entryInfo := fun _ p => if p = "music/a.cue" then .ok ⟨20⟩ else noEntry
    readFromFile := fun _ p => if p = "music/a.cue" then .ok pairSheet else noEntry
    extract := fun _ paths => .ok (paths.map fun p => ⟨p, ⟨5⟩, GoMap.empty⟩) }

/-- The folder `music` under the setting `external`: the catalog holds the record
of `a.flac`, updated at 10, and the media file was last modified at 10, so it is
unchanged; the cue sheet `a.cue` that lists it was modified at 20. -/
def cueTouchedEnv : Env :=
  { baseEnv with
    CUESheetSupport := "external"
    findAllByPath := fun _ _ => .ok [record "music/a.flac" "music/a.flac" "al-a" "ar-a" 10]
    readDir := fun _ _ => .ok [⟨"a.flac", false⟩, ⟨"a.cue", false⟩]
    stat := fun _ p => if p = "music/a.flac" then .ok ⟨10⟩ else noEntry
    entryInfo := fun _ p => if p = "music/a.cue" then .ok ⟨20⟩ else noEntry
    readFromFile := fun _ p => if p = "music/a.cue" then .ok pairSheet else noEntry
    extract := fun _ paths => .ok (paths.map fun p => ⟨p, ⟨10⟩, GoMap.empty⟩) }

/-- A library of one folder `music`: the catalog holds the records of `a.mp3` and
`b.mp3`, identified by their paths and updated at 10; on disk `a.mp3` was
modified at 20 and `b.mp3` is gone. No call fails. -/
def staleCatalogEnv : Env :=
  { baseEnv with
    loadDir := fun _ dir => .ok ([], ⟨dir, 20, false, 1⟩)
    walkDirTree := fun _ _ => ([⟨"music", 20, false, 1⟩], none)
    findPathsRecursively := fun _ _ => .ok ["music"]
    findAllByPath := fun _ _ =>
      .ok [record "music/a.mp3" "music/a.mp3" "al-a" "ar-a" 10,
           record "music/b.mp3" "music/b.mp3" "al-b" "ar-b" 10]
    readDir := fun _ _ => .ok [⟨"a.mp3", false⟩]
    stat := fun _ _ => .ok ⟨20⟩
    extract := fun _ paths => .ok (paths.map fun p => ⟨p, ⟨20⟩, GoMap.empty⟩) }

/-- Source `NewTagScanner`: the scanner is created with an empty cue cache; the
counters are set by `Scan`. -/
def NewTagScanner (rootFolder : String) : TagScanner :=
  { rootFolder := rootFolder, cnt := ⟨0, 0, 0, 0⟩, cueCache := GoMap.empty, trace := [] }

/-- Every cue sheet cached in `s` is still cached, under the same path, in
`s1`. -/
def CacheKept (s s1 : TagScanner) : Prop :=
  ∀ k ∈ s.cueCache.keys, k ∈ s1.cueCache.keys

/-- The library of `cuePairEnv` for whole passes: the walker delivers the folder
`music`, and the catalog knows the folder once a record has been put. -/
def cueScanEnv : Env :=
  { cuePairEnv with
    loadDir := fun _ dir => .ok ([], ⟨dir, 20, false, 1⟩)
    walkDirTree := fun _ _ => ([⟨"music", 20, false, 1⟩], none)
    findPathsRecursively := fun h _ => if h.any Event.isPut then .ok ["music"] else .ok [] }

/-- The folder of `cuePairEnv` where the tags extracted from `a.flac` carry a
cue string, and the mapper shows the `sub_track` and the title of a tag set. -/
def cueExternalEnv : Env :=
  { cuePairEnv with
    mdCueSheet := fun _ => "REM sheet"
    toMediaFile := fun md =>
      { MediaFile.zero with
        ID := md.filePath ++ "#" ++ firstTag md "sub_track", Path := md.filePath,
        Title := firstTag md "title" } }

/-- Embedded cue sheets are enabled and the media file cannot be stat'ed when
the cue extractor is created; the tags carry a cue string that parses. -/
def nilExtractorEnv : Env :=
  { baseEnv with
    CUESheetSupport := "embedded"
    mdCueSheet := fun _ => "REM sheet"
    readCue := fun _ => (some pairSheet, none) }

/-- Two changed folders with playlists: the import reports 2 playlists for
`music/a` and 3 for `music/b`. -/
def playlistsEnv : Env :=
  { baseEnv with
    loadDir := fun _ dir => .ok (["a", "b"], ⟨dir, 20, false, 0⟩)
    walkDirTree := fun _ _ => ([⟨"music/a", 20, true, 0⟩, ⟨"music/b", 20, true, 0⟩], none)
    findPathsRecursively := fun _ _ => .ok ["music/a", "music/b"]
    processPlaylists := fun _ dir => if dir = "music/a" then 2 else 3 }

/-- The changed directories for which `Scan` imports playlists. -/
def playlistDirs (allFSDirs : dirMap) (changedDirs : List String) : List String :=
  changedDirs.filter (fun dir =>
    match allFSDirs.get? dir with
    | some info => info.HasPlaylist
    | none => false)

/-! ## Transcoder command line (`core/ffmpeg/ffmpeg.go`) -/

namespace strings

/-- Replace the non-overlapping occurrences of a non-empty `old`, from the left;
`fuel` bounds the number of characters still to scan. -/
def replaceChars (old new : List Char) : Nat → List Char → List Char
  | 0, s => s
  | _ + 1, [] => []
  | fuel + 1, c :: cs =>
    if old.isPrefixOf (c :: cs) then
      new ++ replaceChars old new fuel ((c :: cs).drop old.length)
    else c :: replaceChars old new fuel cs

/-- Go `strings.ReplaceAll`; an empty `old` matches before every character and
at the end. -/
def ReplaceAll (s old new : String) : String :=
  if old = "" then ⟨new.data ++ s.data.flatMap (fun c => c :: new.data)⟩
  else ⟨replaceChars old.data new.data s.data.length s.data⟩

end strings

namespace ffmpeg

/-- The number of binary digits of `n`, counted on at most `fuel` of them. -/
def bitLengthUpTo : Nat → Nat → Nat
  | 0, _ => 0
  | fuel + 1, n => if n = 0 then 0 else bitLengthUpTo fuel (n / 2) + 1

/-- The number of binary digits of `n`; a number has no more digits than its
value. -/
def bitLength (n : Nat) : Nat := bitLengthUpTo n n

/-- Rounding of IEEE 754 arithmetic: the whole number nearest to `n` that has at
most `p` significant bits, a tie going to the one whose last kept bit is even. -/
def roundToBits (p : Nat) (n : Int) : Int :=
  let a := n.natAbs
  if bitLength a ≤ p then n
  else
    let shift := bitLength a - p
    let q := a >>> shift
    let r := a - (q <<< shift)
    let half := 1 <<< (shift - 1)
    let q1 := if half < r ∨ (r = half ∧ q % 2 = 1) then q + 1 else q
    if n < 0 then -((q1 <<< shift : Nat) : Int) else ((q1 <<< shift : Nat) : Int)

/-- Go `int64` arithmetic wraps around. -/
def wrapInt64 (n : Int) : Int := (n + 2 ^ 63) % 2 ^ 64 - 2 ^ 63

/-- A Go `float32`: a finite value, counted in units of `2^-149` (every finite
`float32` is a whole number of them, with at most 24 significant bits and less
than 278 bits in all), an infinity, or a NaN. The sign of a zero is not kept: the
transcoder only compares, adds, multiplies and converts, which do not see it. -/
inductive float32 where
  | finite (units : Int)
  | inf (negative : Bool)
  | nan
deriving DecidableEq, Repr

namespace float32

/-- The `float32` that an exact value, given in units of `2^-149`, rounds to. -/
def ofExact (units : Int) : float32 :=
  let n := roundToBits 24 units
  if bitLength n.natAbs ≤ 277 then .finite n else .inf (decide (n < 0))

/-- Go conversion `float32(i)` of an integer. -/
def ofInt (i : Int) : float32 := ofExact (i * 2 ^ 149)

/-- Go `x + y` on `float32`. -/
def add : float32 → float32 → float32
  | .finite a, .finite b => ofExact (a + b)
  | .nan, _ => .nan
  | _, .nan => .nan
  | .inf s, .finite _ => .inf s
  | .finite _, .inf s => .inf s
  | .inf s, .inf s1 => if s = s1 then .inf s else .nan

/-- Go `x * 1000.0` on `float32`. -/
def timesThousand : float32 → float32
  | .finite a => ofExact (a * 1000)
  | .inf s => .inf s
  | .nan => .nan

/-- Go `x > 0.0`. -/
def isPositive : float32 → Bool
  | .finite a => decide (0 < a)
  | .inf s => !s
  | .nan => false

/-- Go conversion `int64(x)`, as in `time.Duration(x)`: the fraction is dropped.
For a value outside the range of `int64`, an infinity or a NaN, Go leaves the
result to the implementation; the smallest `int64` is what amd64 gives. -/
def toInt64 : float32 → Int
  | .finite a =>
    let q : Int := if a < 0 then -((a.natAbs / 2 ^ 149 : Nat) : Int) else ((a.natAbs / 2 ^ 149 : Nat) : Int)
    if -(2 ^ 63) ≤ q ∧ q < 2 ^ 63 then q else -(2 ^ 63)
  | _ => -(2 ^ 63)

end float32

/-- A Go `float64`: a finite value, counted in units of `2^-1074`, an infinity,
or a NaN; the sign of a zero is not kept. -/
inductive float64 where
  | finite (units : Int)
  | inf (negative : Bool)
  | nan
deriving DecidableEq, Repr

namespace float64

/-- Go `x != 0.0`. -/
def isNonZero : float64 → Bool
  | .finite a => decide (a ≠ 0)
  | _ => true

end float64

/-- Modelled from the spec: the fields of `model.MediaFile` that the transcoder
reads (the type is declared in the model package, outside the sources at hand).
`Offset` and `Duration` are `float32` seconds, as `makeRangeParams` and
`makeTime` use them; the replay-gain values are floating-point numbers printed
with `%f`. -/
structure MediaFile where
  Suffix : String
  SubTrack : Int
  Offset : float32
  Duration : float32
  Title : String
  Artist : String
  Album : String
  AlbumArtist : String
  Year : Int
  TrackNumber : Int
  DiscNumber : Int
  Comment : String
  Genre : String
  RgAlbumGain : float64
  RgAlbumPeak : float64
  RgTrackGain : float64
  RgTrackPeak : float64
deriving DecidableEq, Repr

/-- Source constant `intermediateSubTrackTranscodingFormat`. -/
def intermediateSubTrackTranscodingFormat : String := "flac"

/-- Source `isSubTrack`. -/
def isSubTrack (mf : MediaFile) : Bool := decide (mf.SubTrack > -1)

/-- Source `forceStreamCopy`. -/
def forceStreamCopy (mf : MediaFile) (format : String) : Bool :=
  if isSubTrack mf then
    decide (mf.Suffix = format) && decide (format ≠ intermediateSubTrackTranscodingFormat)
  else false

/-- A number written in decimal on at least `width` digits. -/
def padded (width n : Nat) : String :=
  ⟨List.replicate (width - (toString n).length) '0'⟩ ++ toString n

/-- Go `zeroTime.Add(d).Format("15:04:05.000")` for a duration of `d`
nanoseconds: the time of day, in UTC, that long after the midnight of the Unix
epoch, with the milliseconds cut. -/
def clockAfter (d : Int) : String :=
  let n := (d / 1000000 % 86400000).toNat
  padded 2 (n / 3600000) ++ ":" ++ padded 2 (n / 60000 % 60) ++ ":" ++
    padded 2 (n / 1000 % 60) ++ "." ++ padded 3 (n % 1000)

/-- Source `makeTime`: the seconds are multiplied by `1000.0` in `float32`,
converted to a `time.Duration`, and multiplied by `time.Millisecond` in
`int64`. -/
def makeTime (timeInSeconds : float32) : String :=
  clockAfter (wrapInt64 (timeInSeconds.timesThousand.toInt64 * 1000000))

/-- Go `fmt.Sprintf("%f", x)`: six decimals of the exact value, rounded to the
nearest, a tie to the even digit. -/
def formatFloat : float64 → String
  | .nan => "NaN"
  | .inf s => if s then "-Inf" else "+Inf"
  | .finite u =>
    let scaled := u.natAbs * 1000000
    let q := scaled >>> 1074
    let r := scaled - (q <<< 1074)
    let half := 1 <<< 1073
    let q1 := if half < r ∨ (r = half ∧ q % 2 = 1) then q + 1 else q
    (if u < 0 then "-" else "") ++ toString (q1 / 1000000) ++ "." ++ padded 6 (q1 % 1000000)

/-- Source `makeMetadataParams`. -/
def makeMetadataParams (mf : MediaFile) : List String :=
  -- Fill metadata only for multi-track media
  if !isSubTrack mf then []
  else
    ["-metadata", "title=" ++ mf.Title, "-metadata", "artist=" ++ mf.Artist,
     "-metadata", "album=" ++ mf.Album] ++
    (if mf.AlbumArtist ≠ "" then ["-metadata", "album_artist=" ++ mf.AlbumArtist] else []) ++
    ["-metadata", "year=" ++ toString mf.Year, "-metadata", "track=" ++ toString mf.TrackNumber] ++
    (if mf.DiscNumber > 0 then ["-metadata", "disc=" ++ toString mf.DiscNumber] else []) ++
    ["-metadata", "comment=" ++ mf.Comment, "-metadata", "genre=" ++ mf.Genre] ++
    (if mf.RgAlbumGain.isNonZero then
      ["-metadata", "replaygain_album_gain=" ++ formatFloat mf.RgAlbumGain] else []) ++
    (if mf.RgAlbumPeak.isNonZero then
      ["-metadata", "replaygain_album_peak=" ++ formatFloat mf.RgAlbumPeak] else []) ++
    (if mf.RgTrackGain.isNonZero then
      ["-metadata", "replaygain_track_gain=" ++ formatFloat mf.RgTrackGain] else []) ++
    (if mf.RgTrackPeak.isNonZero then
      ["-metadata", "replaygain_track_peak=" ++ formatFloat mf.RgTrackPeak] else []) ++
    ["-metadata", "cuesheet="]

/-- Source `makeRangeParams`. -/
def makeRangeParams (mf : MediaFile) (extraOffset : Int) : List String :=
  -- Insert range only for multi-track media
  if isSubTrack mf then
    (if (mf.Offset.add (float32.ofInt extraOffset)).isPositive then
      ["-ss", makeTime (mf.Offset.add (float32.ofInt extraOffset))] else []) ++
    (if mf.Duration.isPositive then ["-t", makeTime mf.Duration] else [])
  else []

/-- The locals of `createFFmpegCommandForMedia` that its loop updates; the index
`-1` of the source is `none`. -/
structure cmdState where
  args : List String
  offsetIndex : Option Nat
  destFormat : String
  copyIndex : Option Nat
deriving DecidableEq, Repr

/-- The end of the loop body of `createFFmpegCommandForMedia`: the arguments
inserted before the token, then the token unless it is empty. -/
def appendToken (args preArgs : List String) (s : String) : List String :=
  let args := if preArgs.length > 0 then args ++ preArgs else args
  if s ≠ "" then args ++ [s] else args

/-- The loop body of `createFFmpegCommandForMedia` for the token `s` at
position `i` of `split`; `split[i+1]` is out of range when `-f` is the last
token. -/
def cmdStep (format sourcePath intermediatePath : String) (mf : MediaFile)
    (maxBitRate beginOffset : Int) (split : List String) (i : Nat) (s : String)
    (st : cmdState) : Ret cmdState :=
  if s = "-vn" then
    .val { st with copyIndex := some st.args.length, args := appendToken st.args [] s }
  else if s = "-i" then
    -- Need insert start offset and duration before input file
    let preArgs := if isSubTrack mf then makeRangeParams mf beginOffset else []
    .val { st with args := appendToken st.args preArgs s }
  else if s = "-" then
    let destFormat := if st.destFormat = "" then format else st.destFormat
    let preArgs := if st.destFormat = "" then ["-f", format] else []
    -- Insert metadata before last param for sub-tracks
    let preArgs := if isSubTrack mf then preArgs ++ makeMetadataParams mf else preArgs
    let s1 := if isSubTrack mf ∧ intermediatePath ≠ "" then intermediatePath else s
    .val { st with destFormat := destFormat, args := appendToken st.args preArgs s1 }
  else if s = "%t" then
    if !isSubTrack mf then
      .val { st with offsetIndex := none, args := appendToken st.args [] (toString beginOffset) }
    else .val { st with args := appendToken st.args [] s }
  else if s = "%s" then
    let offsetIndex :=
      if beginOffset > 0 ∧ !isSubTrack mf then some (st.args.length + 1) else st.offsetIndex
    .val { st with offsetIndex := offsetIndex, args := appendToken st.args [] sourcePath }
  else if s = "-f" then
    match split[i + 1]? with
    | none => .panic
    | some next => .val { st with destFormat := next, args := appendToken st.args [] s }
  else
    let s1 :=
      if strings.Contains s "%b" then strings.ReplaceAll s "%b" (toString maxBitRate) else s
    .val { st with args := appendToken st.args [] s1 }

/-- The loop of `createFFmpegCommandForMedia` over the tokens of the template,
from position `i`. -/
def cmdLoop (format sourcePath intermediatePath : String) (mf : MediaFile)
    (maxBitRate beginOffset : Int) (split : List String) :
    Nat → List String → cmdState → Ret cmdState
  | _, [], st => .val st
  | i, s :: rest, st =>
    match cmdStep format sourcePath intermediatePath mf maxBitRate beginOffset split i s st with
    | .panic => .panic
    | .val st1 =>
      cmdLoop format sourcePath intermediatePath mf maxBitRate beginOffset split (i + 1) rest st1

/-- Go `append(args[:k], append(ins, args[k:]...)...)`: the slice expressions
are out of range when `k` exceeds the length. -/
def insertAt (args : List String) (k : Nat) (ins : List String) : Ret (List String) :=
  if k ≤ args.length then .val (args.take k ++ ins ++ args.drop k) else .panic

/-- Source `createFFmpegCommandForMedia`. -/
def createFFmpegCommandForMedia (cmd format sourcePath intermediatePath : String)
    (mf : MediaFile) (maxBitRate beginOffset : Int) : Ret (List String) :=
  let split := strings.Split cmd ' '
  match cmdLoop format sourcePath intermediatePath mf maxBitRate beginOffset split 0 split
      ⟨[], none, "", none⟩ with
  | .panic => .panic
  | .val st =>
    let withOffset :=
      match st.offsetIndex with
      | some k => insertAt st.args k ["-ss", toString beginOffset]
      | none => .val st.args
    match withOffset with
    | .panic => .panic
    | .val args =>
      match st.copyIndex with
      | some k =>
        if forceStreamCopy mf st.destFormat then insertAt args k ["-c:a copy"] else .val args
      | none => .val args

/-- A media file that is not a sub-track, as in the tests of the package. -/
def plainMedia : MediaFile :=
  { Suffix := "", SubTrack := -1, Offset := .finite 0, Duration := .finite 0, Title := "",
    Artist := "", Album := "", AlbumArtist := "", Year := 0, TrackNumber := 0, DiscNumber := 0,
    Comment := "", Genre := "", RgAlbumGain := .finite 0, RgAlbumPeak := .finite 0,
    RgTrackGain := .finite 0, RgTrackPeak := .finite 0 }

/-- The sub-track of the tests of the package: offset 100 s, duration 5 s. -/
def subTrackMedia : MediaFile :=
  { plainMedia with
    SubTrack := 1, Offset := float32.ofInt 100, Duration := float32.ofInt 5, Title := "title",
    Artist := "Artist",
    Album := "Album", Year := 2019, TrackNumber := 5, Comment := "c", Genre := "rock" }

end ffmpeg

/-! ## Lemmas on maps -/

theorem GoMap.contains_iff {κ ν : Type} [DecidableEq κ] (m : GoMap κ ν) (k : κ) :
    m.contains k = true ↔ k ∈ m.keys := by
  simp [GoMap.contains, GoMap.keys]

/-! ## Lemmas on maps, continued -/

theorem GoMap.get?_eq_none {κ ν : Type} [DecidableEq κ] (m : GoMap κ ν) (k : κ)
    (h : k ∉ m.keys) : m.get? k = none := by
  simp only [GoMap.get?, Option.map_eq_none', List.find?_eq_none]
  intro e he
  simp only [decide_eq_true_eq]
  intro hk
  exact h (by simpa [GoMap.keys] using ⟨e.2, by rw [← hk]; exact he⟩)

theorem GoMap.get?_isSome {κ ν : Type} [DecidableEq κ] (m : GoMap κ ν) (k : κ)
    (h : k ∈ m.keys) : ∃ v, m.get? k = some v := by
  cases hg : m.get? k with
  | some v => exact ⟨v, rfl⟩
  | none =>
    exfalso
    simp only [GoMap.get?, Option.map_eq_none', List.find?_eq_none] at hg
    simp only [GoMap.keys, List.mem_map] at h
    obtain ⟨e, he, hk⟩ := h
    exact hg e he (by simp [hk])

theorem GoMap.mem_keys_of_get? {κ ν : Type} [DecidableEq κ] (m : GoMap κ ν) (k : κ) (v : ν)
    (h : m.get? k = some v) : k ∈ m.keys := by
  by_contra hk
  rw [GoMap.get?_eq_none m k hk] at h
  cases h

theorem GoMap.get?_insert {κ ν : Type} [DecidableEq κ] (m : GoMap κ ν) (k k' : κ) (v : ν) :
    (m.insert k v).get? k' = if k' = k then some v else m.get? k' := by
  obtain ⟨l⟩ := m
  simp only [GoMap.insert, GoMap.contains, GoMap.get?]
  induction l with
  | nil => by_cases h : k' = k <;> simp [h, eq_comm]
  | cons e l ih =>
    by_cases hek : e.1 = k
    · by_cases h : k' = k
      · simp [hek, h]
      · have h2 : ¬ k = k' := fun x => h x.symm
        simp only [List.any_cons, hek, decide_True, Bool.true_or, if_true, List.map_cons,
          List.find?_cons, h2, decide_False, h, if_false] at ih ⊢
        by_cases hany : (l.any fun e => decide (e.1 = k)) = true
        · simpa [hany] using ih
        · have hn : ∀ x ∈ l, ¬ x.1 = k := by
            intro x hx hxk
            exact hany (List.any_eq_true.2 ⟨x, hx, by simp [hxk]⟩)
          have : l.map (fun e => if e.1 = k then (k, v) else e) = l := by
            conv_rhs => rw [← List.map_id l]
            apply List.map_congr_left
            intro x hx
            simp [hn x hx]
          rw [this]
    · by_cases hany : (l.any fun e => decide (e.1 = k)) = true
      · simp only [List.any_cons, hek, decide_False, Bool.false_or, hany, if_true, List.map_cons,
          if_false, List.find?_cons] at ih ⊢
        by_cases h1 : e.1 = k'
        · have : ¬ k' = k := fun x => hek (h1.trans x)
          simp [h1, this]
        · simpa [h1] using ih
      · simp only [List.any_cons, hek, decide_False, Bool.false_or, hany, if_false,
          List.cons_append, List.find?_cons, Bool.false_eq_true] at ih ⊢
        by_cases h1 : e.1 = k'
        · have : ¬ k' = k := fun x => hek (h1.trans x)
          simp [h1, this]
        · simpa [h1] using ih

theorem GoMap.mem_keys_insert {κ ν : Type} [DecidableEq κ] (m : GoMap κ ν) (k k' : κ) (v : ν) :
    k' ∈ (m.insert k v).keys ↔ k' = k ∨ k' ∈ m.keys := by
  constructor
  · intro h
    obtain ⟨w, hw⟩ := GoMap.get?_isSome _ _ h
    rw [GoMap.get?_insert] at hw
    by_cases hk : k' = k
    · exact Or.inl hk
    · rw [if_neg hk] at hw
      exact Or.inr (GoMap.mem_keys_of_get? _ _ _ hw)
  · intro h
    by_cases hk : k' = k
    · exact GoMap.mem_keys_of_get? _ _ v (by rw [GoMap.get?_insert, if_pos hk])
    · rcases h with h | h
      · exact absurd h hk
      · obtain ⟨w, hw⟩ := GoMap.get?_isSome _ _ h
        exact GoMap.mem_keys_of_get? _ _ w (by rw [GoMap.get?_insert, if_neg hk]; exact hw)

theorem GoMap.insert_entries_of_not_mem {κ ν : Type} [DecidableEq κ] (m : GoMap κ ν) (k : κ)
    (v : ν) (h : k ∉ m.keys) : (m.insert k v).entries = m.entries ++ [(k, v)] := by
  have : m.contains k = false := by
    cases hc : m.contains k
    · rfl
    · exact absurd ((GoMap.contains_iff m k).1 hc) h
  simp [GoMap.insert, this]

theorem GoMap.keys_erase {κ ν : Type} [DecidableEq κ] (m : GoMap κ ν) (k k' : κ) :
    k' ∈ (m.erase k).keys ↔ k' ≠ k ∧ k' ∈ m.keys := by
  simp only [GoMap.erase, GoMap.keys, List.mem_map, List.mem_filter]
  constructor
  · rintro ⟨e, ⟨he, hne⟩, rfl⟩
    exact ⟨by simpa using hne, e, he, rfl⟩
  · rintro ⟨hne, e, he, rfl⟩
    exact ⟨e, ⟨he, by simpa using hne⟩, rfl⟩

theorem GoMap.len_pos_of_mem_keys {κ ν : Type} (m : GoMap κ ν) (k : κ) (h : k ∈ m.keys) :
    0 < m.len := by
  simp only [GoMap.keys, List.mem_map] at h
  obtain ⟨e, he, _⟩ := h
  exact List.length_pos_of_mem he


/-! ## Change detector -/

/-- C1: `folderHasChanged` is true exactly for a folder unknown to the catalog
with at least one audio file, or a folder modified strictly after the last scan;
a known folder without audio files and not modified since is unchanged. -/
theorem folderHasChanged_iff (F : dirStats) (D : GoMap String Unit) (t : Time) :
    (folderHasChanged F D t = true ↔
      (F.Path ∉ D.keys ∧ F.AudioFilesCount ≥ 1) ∨ t < F.ModTime) ∧
    (F.Path ∈ D.keys → F.AudioFilesCount = 0 → ¬ t < F.ModTime →
      folderHasChanged F D t = false) := by
  have hc := GoMap.contains_iff D F.Path
  constructor
  · cases hcon : D.contains F.Path
    · have : F.Path ∉ D.keys := fun h => by simp [hc.2 h] at hcon
      simp [folderHasChanged, Time.After, hcon, this]
      exact Iff.rfl
    · have : F.Path ∈ D.keys := hc.1 hcon
      simp [folderHasChanged, Time.After, hcon, this]
  · intro hin h0 hnot
    simp [folderHasChanged, Time.After, hc.2 hin, hnot]

/-- Witness for C1 -/
theorem folderHasChanged_iff_witness :
    folderHasChanged ⟨"music/a", 5, false, 0⟩ ⟨[("music/a", ())]⟩ 7 = false :=
  (folderHasChanged_iff ⟨"music/a", 5, false, 0⟩ ⟨[("music/a", ())]⟩ 7).2
    (by decide) rfl (by decide)

theorem getDeletedDirs_perm (o : MapOrder) (fsDirs : dirMap) (dbDirs : GoMap String Unit) :
    (getDeletedDirs o fsDirs dbDirs).Perm
      (dbDirs.keys.filter (fun d => !fsDirs.contains d)) :=
  (List.perm_insertionSort _ _).trans ((o.perm dbDirs.keys).filter _)

theorem getDeletedDirs_sorted_le (o : MapOrder) (fsDirs : dirMap) (dbDirs : GoMap String Unit) :
    (getDeletedDirs o fsDirs dbDirs).Sorted (· ≤ ·) :=
  List.sorted_insertionSort _ _

/-- C3: `getDeletedDirs` returns exactly the catalog directories that the walk
did not report, each once, in ascending order, whatever the iteration order of
the map. -/
theorem getDeletedDirs_spec (o : MapOrder) (fsDirs : dirMap) (dbDirs : GoMap String Unit)
    (hwf : dbDirs.WF) :
    (∀ p, p ∈ getDeletedDirs o fsDirs dbDirs ↔ p ∈ dbDirs.keys ∧ p ∉ fsDirs.keys) ∧
    (∀ p, p ∈ dbDirs.keys → p ∉ fsDirs.keys → (getDeletedDirs o fsDirs dbDirs).count p = 1) ∧
    (getDeletedDirs o fsDirs dbDirs).Sorted (· < ·) ∧
    (∀ o' : MapOrder, getDeletedDirs o' fsDirs dbDirs = getDeletedDirs o fsDirs dbDirs) := by
  have hperm := getDeletedDirs_perm o fsDirs dbDirs
  have hmem : ∀ p, p ∈ getDeletedDirs o fsDirs dbDirs ↔ p ∈ dbDirs.keys ∧ p ∉ fsDirs.keys := by
    intro p
    rw [hperm.mem_iff, List.mem_filter]
    have := GoMap.contains_iff fsDirs p
    constructor
    · rintro ⟨h1, h2⟩
      refine ⟨h1, fun h => ?_⟩
      simp [this.2 h] at h2
    · rintro ⟨h1, h2⟩
      refine ⟨h1, ?_⟩
      cases hc : fsDirs.contains p
      · rfl
      · exact absurd (this.1 hc) h2
  have hnd : (getDeletedDirs o fsDirs dbDirs).Nodup :=
    hperm.nodup_iff.2 (List.Nodup.filter _ hwf)
  refine ⟨hmem, ?_, (getDeletedDirs_sorted_le o fsDirs dbDirs).lt_of_le hnd, ?_⟩
  · intro p h1 h2
    exact List.count_eq_one_of_mem hnd ((hmem p).2 ⟨h1, h2⟩)
  · intro o'
    exact List.eq_of_perm_of_sorted
      ((getDeletedDirs_perm o' fsDirs dbDirs).trans hperm.symm)
      (getDeletedDirs_sorted_le o' fsDirs dbDirs) (getDeletedDirs_sorted_le o fsDirs dbDirs)

/-- Witness for C3 -/
theorem getDeletedDirs_spec_witness :
    GoMap.WF (⟨[("m/c", ()), ("m/b", ()), ("m/a", ())]⟩ : GoMap String Unit) ∧
    (getDeletedDirs MapOrder.stored ⟨[("m/b", ⟨"m/b", 1, false, 2⟩)]⟩
        ⟨[("m/c", ()), ("m/b", ()), ("m/a", ())]⟩).count "m/a" = 1 ∧
    (getDeletedDirs MapOrder.stored ⟨[("m/b", ⟨"m/b", 1, false, 2⟩)]⟩
        ⟨[("m/c", ()), ("m/b", ()), ("m/a", ())]⟩).Sorted (· < ·) :=
  ⟨by decide,
   (getDeletedDirs_spec MapOrder.stored ⟨[("m/b", ⟨"m/b", 1, false, 2⟩)]⟩
      ⟨[("m/c", ()), ("m/b", ()), ("m/a", ())]⟩ (by decide)).2.1 "m/a" (by decide) (by decide),
   (getDeletedDirs_spec MapOrder.stored ⟨[("m/b", ⟨"m/b", 1, false, 2⟩)]⟩
      ⟨[("m/c", ()), ("m/b", ()), ("m/a", ())]⟩ (by decide)).2.2.1⟩

/-! ## The empty-root guard -/

/-- C2: when the root folder has no sub-directory and no audio file and the pass
is not a full rescan, `Scan` returns `(0, nil)`; the only calls it makes are the
admin lookup and the listing of the root, so nothing is put, deleted, refreshed,
imported or collected, whatever the catalog holds. -/
theorem Scan_empty_root_aborts (env : Env) (s : TagScanner) (lastModifiedSince : Time)
    (children : List String) (stats : dirStats)
    (hload : env.loadDir (s.trace ++ [.withAdminUser]) s.rootFolder = .ok (children, stats))
    (hsub : children = []) (haudio : stats.AudioFilesCount = 0)
    (hfull : lastModifiedSince.IsZero = false) :
    ∃ s' : TagScanner, Scan env s lastModifiedSince = .val (s', 0, none) ∧
      s'.cnt = s.cnt ∧ s'.cueCache = s.cueCache ∧
      s'.trace = s.trace ++ [.withAdminUser, .loadDir s.rootFolder] ∧
      ∀ e ∈ s'.trace.drop s.trace.length, e.isWrite = false := by
  refine ⟨(s.log .withAdminUser).log (.loadDir s.rootFolder), ?_, rfl, rfl, ?_, ?_⟩
  · simp [Scan, isDirEmpty, TagScanner.log, hload, hsub, haudio, hfull]
  · simp [TagScanner.log]
  · simp [TagScanner.log, Event.isWrite]

/-- Witness for C2 -/
theorem Scan_empty_root_aborts_witness :
    ∃ s' : TagScanner, Scan emptyRootEnv freshScanner 5 = .val (s', 0, none) ∧
      s'.cnt = freshScanner.cnt ∧ s'.cueCache = freshScanner.cueCache ∧
      s'.trace = freshScanner.trace ++ [.withAdminUser, .loadDir freshScanner.rootFolder] ∧
      ∀ e ∈ s'.trace.drop freshScanner.trace.length, e.isWrite = false :=
  Scan_empty_root_aborts emptyRootEnv freshScanner 5 [] ⟨"music", 0, false, 0⟩ rfl rfl rfl rfl

/-! ## The orphan purge -/

/-- C4 (the code at the failing input): the catalog holds `a.mp3` and `b.mp3`,
the disk only `a.mp3`. The record of `b.mp3` is the only orphan, seeded under
its identity `id-b`, yet the purge calls `Delete` with the empty identity and
never with `id-b`. -/
theorem deleteOrphanSongs_deletes_empty_identity :
    ∃ p : DirPass, processChangedDirPass deletionEnv freshScanner false "music" = .val p ∧
      p.orphanTracks.keys = ["id-b"] ∧
      Event.delete "" ∈ p.s.trace ∧ Event.delete "id-b" ∉ p.s.trace := by
  refine ⟨_, rfl, ?_, ?_, ?_⟩ <;> decide

/-! ## The seeding of a folder pass -/

theorem seedTracks_get? (ct : List MediaFile) (cur : GoMap String (List MediaFile))
    (o : GoMap String MediaFile) (p : String) :
    (seedTracks ct (cur, o)).1.get? p =
      if ct.filter (fun t => decide (t.Path = p)) = [] then cur.get? p
      else some ((cur.get? p).getD [] ++ ct.filter (fun t => decide (t.Path = p))) := by
  induction ct generalizing cur o with
  | nil => simp [seedTracks]
  | cons t ct ih =>
    rw [seedTracks, ih]
    by_cases hp : t.Path = p
    · subst hp
      by_cases hf : ct.filter (fun x => decide (x.Path = t.Path)) = []
      · simp [hf, GoMap.get?_insert]
      · simp [hf, GoMap.get?_insert]
    · have hp2 : ¬ p = t.Path := fun x => hp x.symm
      simp [hp, hp2, GoMap.get?_insert]

theorem seedTracks_current (ct : List MediaFile) (p : String) :
    (seedTracks ct (GoMap.empty, GoMap.empty)).1.get? p =
      if ct.filter (fun t => decide (t.Path = p)) = [] then none
      else some (ct.filter (fun t => decide (t.Path = p))) := by
  rw [seedTracks_get?]
  simp [GoMap.get?, GoMap.empty]

theorem seedTracks_orphan_keys (ct : List MediaFile) (cur : GoMap String (List MediaFile))
    (o : GoMap String MediaFile) (k : String) :
    k ∈ (seedTracks ct (cur, o)).2.keys ↔ k ∈ o.keys ∨ ∃ t ∈ ct, t.ID = k := by
  induction ct generalizing cur o with
  | nil => simp [seedTracks]
  | cons t ct ih =>
    rw [seedTracks, ih, GoMap.mem_keys_insert]
    constructor
    · rintro ((h | h) | ⟨t', ht', h⟩)
      · exact Or.inr ⟨t, by simp, h.symm⟩
      · exact Or.inl h
      · exact Or.inr ⟨t', by simp [ht'], h⟩
    · rintro (h | ⟨t', ht', h⟩)
      · exact Or.inl (Or.inr h)
      · rcases List.mem_cons.1 ht' with rfl | ht''
        · exact Or.inl (Or.inl h.symm)
        · exact Or.inr ⟨t', ht'', h⟩

theorem seedTracks_orphan_entries (ct : List MediaFile) (cur : GoMap String (List MediaFile))
    (o : GoMap String MediaFile) (hnd : (ct.map (fun t => t.ID)).Nodup)
    (hdis : ∀ t ∈ ct, t.ID ∉ o.keys) :
    (seedTracks ct (cur, o)).2.entries = o.entries ++ ct.map (fun t => (t.ID, orphanOf t)) := by
  induction ct generalizing cur o with
  | nil => simp [seedTracks]
  | cons t ct ih =>
    rw [List.map_cons, List.nodup_cons] at hnd
    rw [seedTracks, ih _ _ hnd.2]
    · rw [GoMap.insert_entries_of_not_mem _ _ _ (hdis t (by simp))]
      simp
    · intro t' ht' hmem
      rw [GoMap.mem_keys_insert] at hmem
      rcases hmem with h | h
      · exact hnd.1 (by rw [← h]; exact List.mem_map_of_mem _ ht')
      · exact hdis t' (by simp [ht']) h

/-! ## Bulk purge of a deleted directory -/

theorem accumulate_all (mfs : List MediaFile) (s : TagScanner) :
    (mfs.foldl (fun st t => st.log (.accumulate t)) s).cnt = s.cnt ∧
    (mfs.foldl (fun st t => st.log (.accumulate t)) s).trace =
      s.trace ++ mfs.map Event.accumulate := by
  induction mfs generalizing s with
  | nil => simp
  | cons t mfs ih =>
    simp only [List.foldl_cons, List.map_cons]
    rw [(ih _).1, (ih _).2]
    simp [TagScanner.log]

/-- C10: `processDeletedDir` loads the records of the directory, removes them
with one `DeleteByPath`, adds the count it returns to `deleted` (the prior number
of records when the repository reports it), accumulates every loaded record and
flushes; it makes no stat and no single-record delete. When loading or the bulk
delete fails the error is returned and the counters are unchanged. -/
theorem processDeletedDir_spec (env : Env) (s : TagScanner) (dir : String) :
    (∀ mfs c, env.findAllByPath s.trace dir = .ok mfs →
        env.deleteByPath (s.trace ++ [.findAllByPath dir]) dir = .ok c →
        (processDeletedDir env s dir).1.cnt = s.cnt.addDeleted c ∧
        (processDeletedDir env s dir).1.cnt.deleted = s.cnt.deleted + c ∧
        (c = mfs.length →
          (processDeletedDir env s dir).1.cnt.deleted = s.cnt.deleted + mfs.length) ∧
        (processDeletedDir env s dir).1.trace =
          s.trace ++ [.findAllByPath dir, .deleteByPath dir] ++ mfs.map Event.accumulate
            ++ [.flush]) ∧
    (∀ err, env.findAllByPath s.trace dir = .error err →
        (processDeletedDir env s dir).2 = some err ∧
        (processDeletedDir env s dir).1.cnt = s.cnt ∧
        (processDeletedDir env s dir).1.trace = s.trace ++ [.findAllByPath dir]) ∧
    (∀ mfs err, env.findAllByPath s.trace dir = .ok mfs →
        env.deleteByPath (s.trace ++ [.findAllByPath dir]) dir = .error err →
        (processDeletedDir env s dir).2 = some err ∧
        (processDeletedDir env s dir).1.cnt = s.cnt ∧
        (processDeletedDir env s dir).1.trace =
          s.trace ++ [.findAllByPath dir, .deleteByPath dir]) := by
  refine ⟨?_, ?_, ?_⟩
  · intro mfs c hfind hdel
    have hacc := accumulate_all mfs
      { (s.log (.findAllByPath dir)).log (.deleteByPath dir) with
        cnt := s.cnt.addDeleted c }
    have hcnt : (processDeletedDir env s dir).1.cnt = s.cnt.addDeleted c := by
      simp only [processDeletedDir, hfind, TagScanner.log, hdel]
      exact hacc.1
    refine ⟨hcnt, ?_, ?_, ?_⟩
    · rw [hcnt]; rfl
    · intro hc
      rw [hcnt, ← hc]; rfl
    · simp only [processDeletedDir, hfind, TagScanner.log, hdel]
      simp only [TagScanner.log] at hacc
      rw [hacc.2]
      simp
  · intro err hfind
    simp [processDeletedDir, hfind, TagScanner.log]
  · intro mfs err hfind hdel
    simp [processDeletedDir, hfind, TagScanner.log, hdel]

/-- Witness for C10 -/
theorem processDeletedDir_spec_witness :
    (processDeletedDir deletedDirEnv freshScanner "music/gone").1.cnt.deleted =
      freshScanner.cnt.deleted + 2 ∧
    (processDeletedDir deletedDirEnv freshScanner "music/gone").1.trace =
      freshScanner.trace ++ [.findAllByPath "music/gone", .deleteByPath "music/gone"] ++
        [record "id-a" "music/gone/a.mp3" "al-a" "ar-a" 10,
         record "id-b" "music/gone/b.mp3" "al-b" "ar-b" 10].map Event.accumulate ++ [.flush] :=
  ⟨((processDeletedDir_spec deletedDirEnv freshScanner "music/gone").1 _ 2 rfl rfl).2.1,
   ((processDeletedDir_spec deletedDirEnv freshScanner "music/gone").1 _ 2 rfl rfl).2.2.2⟩

/-! ## Annotations are kept across re-extraction -/

theorem putTracks_trace {σ : Type} (env : Env) (cb : MediaFile → σ → MediaFile × σ)
    (l : List MediaFile) (s : TagScanner) (st : σ) (n : Int) :
    ∃ evs, (putTracks env cb l s st n).1.trace = s.trace ++ evs := by
  induction l generalizing s st n with
  | nil => exact ⟨[], by simp [putTracks]⟩
  | cons t l ih =>
    rw [putTracks]
    cases hput : env.put s.trace (cb t st).1 with
    | some err => exact ⟨[.put (cb t st).1], by simp [TagScanner.log]⟩
    | none =>
      obtain ⟨evs, h⟩ := ih (((s.log (.put (cb t st).1)).log (.accumulate (cb t st).1)))
        (cb t st).2 (n + 1)
      exact ⟨.put (cb t st).1 :: .accumulate (cb t st).1 :: evs, by
        simp only [h]; simp [TagScanner.log]⟩

theorem keepAnnotations_prior (ct : List MediaFile) (track : MediaFile) :
    (match (seedTracks ct (GoMap.empty, GoMap.empty)).1.get? track.Path with
      | some tracks => tracks.find? (fun dbTrack => decide (dbTrack.ID = track.ID))
      | none => none) =
    ct.find? (fun t => decide (t.Path = track.Path) && decide (t.ID = track.ID)) := by
  rw [seedTracks_current]
  by_cases hf : ct.filter (fun t => decide (t.Path = track.Path)) = []
  · rw [if_pos hf]
    symm
    rw [List.find?_eq_none]
    intro x hx
    rw [List.filter_eq_nil_iff] at hf
    have := hf x hx
    simp at this
    simp [this]
  · rw [if_neg hf]
    simp [List.find?_filter]

/-- C9: the callback of the loader. When the catalog held, before the pass, a
record with the path and the identity of the extracted track, the track that is
persisted is the extracted one with the `Annotations` and `Bookmarkable` of
that record (the first such record), every other field as extracted, and the
identity leaves the orphan set while the other identities stay; otherwise the
track is persisted as extracted and the orphan set is untouched. The record
handed to `Put` is the result of the callback. -/
theorem keepAnnotations_spec (env : Env) (ct : List MediaFile) (track : MediaFile)
    (orphanTracks : GoMap String MediaFile) (rest : List MediaFile) (s : TagScanner) (n : Int) :
    (∀ dbTrack,
        ct.find? (fun t => decide (t.Path = track.Path) && decide (t.ID = track.ID))
          = some dbTrack →
        (keepAnnotations (seedTracks ct (GoMap.empty, GoMap.empty)).1 track orphanTracks).1 =
          { track with Annotations := dbTrack.Annotations,
                       Bookmarkable := dbTrack.Bookmarkable } ∧
        (keepAnnotations (seedTracks ct (GoMap.empty, GoMap.empty)).1 track orphanTracks).2 =
          orphanTracks.erase track.ID ∧
        track.ID ∉
          (keepAnnotations (seedTracks ct (GoMap.empty, GoMap.empty)).1 track orphanTracks).2.keys ∧
        (∀ k, k ≠ track.ID →
          (k ∈ (keepAnnotations (seedTracks ct (GoMap.empty, GoMap.empty)).1 track
              orphanTracks).2.keys ↔ k ∈ orphanTracks.keys))) ∧
    (ct.find? (fun t => decide (t.Path = track.Path) && decide (t.ID = track.ID)) = none →
        keepAnnotations (seedTracks ct (GoMap.empty, GoMap.empty)).1 track orphanTracks =
          (track, orphanTracks)) ∧
    (∃ evs,
        (putTracks env (keepAnnotations (seedTracks ct (GoMap.empty, GoMap.empty)).1)
          (track :: rest) s orphanTracks n).1.trace =
        s.trace ++
          Event.put (keepAnnotations (seedTracks ct (GoMap.empty, GoMap.empty)).1 track
            orphanTracks).1 :: evs) := by
  have hprior := keepAnnotations_prior ct track
  refine ⟨?_, ?_, ?_⟩
  · intro dbTrack hdb
    rw [hdb] at hprior
    have hk : keepAnnotations (seedTracks ct (GoMap.empty, GoMap.empty)).1 track orphanTracks =
        ({ track with Annotations := dbTrack.Annotations,
                      Bookmarkable := dbTrack.Bookmarkable }, orphanTracks.erase track.ID) := by
      unfold keepAnnotations
      cases hg : (seedTracks ct (GoMap.empty, GoMap.empty)).1.get? track.Path with
      | none => rw [hg] at hprior; cases hprior
      | some tracks =>
        rw [hg] at hprior
        simp only at hprior
        simp only [hprior]
    rw [hk]
    refine ⟨rfl, rfl, ?_, ?_⟩
    · intro hmem
      exact ((GoMap.keys_erase _ _ _).1 hmem).1 rfl
    · intro k hk'
      rw [GoMap.keys_erase]
      exact ⟨fun h => h.2, fun h => ⟨hk', h⟩⟩
  · intro hnone
    rw [hnone] at hprior
    unfold keepAnnotations
    cases hg : (seedTracks ct (GoMap.empty, GoMap.empty)).1.get? track.Path with
    | none => rfl
    | some tracks =>
      rw [hg] at hprior
      simp only at hprior
      simp only [hprior]
  · rw [putTracks]
    cases hput : env.put s.trace
        (keepAnnotations (seedTracks ct (GoMap.empty, GoMap.empty)).1 track orphanTracks).1 with
    | some err => exact ⟨[], by simp [TagScanner.log]⟩
    | none =>
      obtain ⟨evs, h⟩ := putTracks_trace env
        (keepAnnotations (seedTracks ct (GoMap.empty, GoMap.empty)).1) rest
        ((s.log (.put (keepAnnotations (seedTracks ct (GoMap.empty, GoMap.empty)).1 track
          orphanTracks).1)).log (.accumulate (keepAnnotations
            (seedTracks ct (GoMap.empty, GoMap.empty)).1 track orphanTracks).1))
        (keepAnnotations (seedTracks ct (GoMap.empty, GoMap.empty)).1 track orphanTracks).2
        (n + 1)
      exact ⟨Event.accumulate (keepAnnotations (seedTracks ct (GoMap.empty, GoMap.empty)).1
        track orphanTracks).1 :: evs, by simp only [h]; simp [TagScanner.log]⟩

/-- Witness for C9 -/
theorem keepAnnotations_spec_witness :
    (keepAnnotations (seedTracks [annotatedRecord] (GoMap.empty, GoMap.empty)).1
        (record "id-a" "music/a.mp3" "al-x" "ar-x" 20)
        ⟨[("id-a", orphanOf annotatedRecord)]⟩).1 =
      { record "id-a" "music/a.mp3" "al-x" "ar-x" 20 with
        Annotations := annotatedRecord.Annotations,
        Bookmarkable := annotatedRecord.Bookmarkable } ∧
    (keepAnnotations (seedTracks [annotatedRecord] (GoMap.empty, GoMap.empty)).1
        (record "id-a" "music/a.mp3" "al-x" "ar-x" 20)
        ⟨[("id-a", orphanOf annotatedRecord)]⟩).2 =
      GoMap.erase ⟨[("id-a", orphanOf annotatedRecord)]⟩ "id-a" :=
  ⟨((keepAnnotations_spec baseEnv [annotatedRecord]
      (record "id-a" "music/a.mp3" "al-x" "ar-x" 20) ⟨[("id-a", orphanOf annotatedRecord)]⟩
      [] freshScanner 0).1 annotatedRecord (by decide)).1,
   ((keepAnnotations_spec baseEnv [annotatedRecord]
      (record "id-a" "music/a.mp3" "al-x" "ar-x" 20) ⟨[("id-a", orphanOf annotatedRecord)]⟩
      [] freshScanner 0).1 annotatedRecord (by decide)).2.1⟩

/-! ## Frame properties of the folder pass -/

theorem NoPut.same (s : TagScanner) : NoPut s s := ⟨[], by simp, by simp⟩

theorem NoPut.andThen {s s1 s2 : TagScanner} (h1 : NoPut s s1) (h2 : NoPut s1 s2) : NoPut s s2 := by
  obtain ⟨e1, ht1, hp1⟩ := h1
  obtain ⟨e2, ht2, hp2⟩ := h2
  refine ⟨e1 ++ e2, by rw [ht2, ht1, List.append_assoc], ?_⟩
  intro e he
  rcases List.mem_append.1 he with h | h
  · exact hp1 e h
  · exact hp2 e h

theorem NoPut.log (s : TagScanner) (e : Event) (he : e.isPut = false) : NoPut s (s.log e) :=
  ⟨[e], rfl, by simpa using he⟩

theorem NoPut.of_trace_eq {s s1 s2 : TagScanner} (h : NoPut s s1) (ht : s2.trace = s1.trace) :
    NoPut s s2 := by
  obtain ⟨e1, ht1, hp1⟩ := h
  exact ⟨e1, by rw [ht, ht1], hp1⟩

theorem removeFromOrphan_entries (tracks : List MediaFile) (o : GoMap String MediaFile) :
    (removeFromOrphan o tracks).entries =
      o.entries.filter (fun e => decide (e.1 ∉ tracks.map (fun t => t.ID))) := by
  induction tracks generalizing o with
  | nil => simp [removeFromOrphan]
  | cons t tracks ih =>
    have hstep : removeFromOrphan o (t :: tracks) = removeFromOrphan (o.erase t.ID) tracks := rfl
    rw [hstep, ih]
    simp only [GoMap.erase, List.filter_filter]
    apply List.filter_congr
    intro e _
    by_cases h1 : e.1 = t.ID <;> simp [h1]

theorem removeFromOrphan_keys (tracks : List MediaFile) (o : GoMap String MediaFile) (k : String) :
    k ∈ (removeFromOrphan o tracks).keys ↔ k ∈ o.keys ∧ k ∉ tracks.map (fun t => t.ID) := by
  simp only [GoMap.keys, removeFromOrphan_entries, List.mem_map, List.mem_filter]
  constructor
  · rintro ⟨e, ⟨he, hne⟩, rfl⟩
    exact ⟨⟨e, he, rfl⟩, by simpa using hne⟩
  · rintro ⟨⟨e, he, rfl⟩, hne⟩
    exact ⟨e, ⟨he, by simpa using hne⟩, rfl⟩

theorem addMediaForUpdate_frame (s : TagScanner) (l : List String) (p : String)
    (v : GoMap String Unit) :
    (addMediaForUpdate s l p v).1.trace = s.trace ∧
    (addMediaForUpdate s l p v).1.cnt.deleted = s.cnt.deleted ∧
    (addMediaForUpdate s l p v).1.cnt.updated = s.cnt.updated := by
  unfold addMediaForUpdate
  split <;> simp [counters.incAdded]

theorem handleMediaPath_frame (env : Env) (fullScan : Bool)
    (cur : GoMap String (List MediaFile)) (p : String) (cb : Time → MediaFile → Bool)
    (s : TagScanner) (c : DirCtx) (s1 : TagScanner) (c1 : DirCtx) (b : Bool)
    (h : handleMediaPath env fullScan cur p cb s c = .val (s1, c1, b)) :
    NoPut s s1 ∧ s1.cnt.deleted = s.cnt.deleted ∧ s1.cnt.updated = s.cnt.updated ∧
      (∀ k ∈ c1.orphanTracks.keys, k ∈ c.orphanTracks.keys) := by
  have hstat : NoPut s (s.log (.stat p)) := NoPut.log s _ rfl
  have hadd := addMediaForUpdate_frame (s.log (.stat p)) c.filesToUpdate p c.visitedPaths
  unfold handleMediaPath at h
  split at h
  · cases h
    exact ⟨hstat, rfl, rfl, fun k hk => hk⟩
  · split at h
    · cases h
      exact ⟨hstat.of_trace_eq hadd.1, hadd.2.1, hadd.2.2, fun k hk => hk⟩
    · split at h
      · cases h
        exact ⟨hstat.of_trace_eq hadd.1, hadd.2.1, hadd.2.2, fun k hk => hk⟩
      · split at h
        · cases h
        · rename_i t0 rest
          cases h
          split
          · refine ⟨?_, hadd.2.1, hadd.2.2, fun k hk => hk⟩
            exact (hstat.of_trace_eq hadd.1).andThen (NoPut.log _ _ rfl)
          · refine ⟨hstat.andThen (NoPut.log _ _ rfl), rfl, rfl, ?_⟩
            intro k hk
            exact ((removeFromOrphan_keys _ _ _).1 hk).1

theorem visitCueFiles_frame (env : Env) (fullScan : Bool)
    (cur : GoMap String (List MediaFile)) (filePath : String) (cueInfo : FileInfo)
    (cue : Cuesheet) (l : List CueFile) (s : TagScanner) (c : DirCtx) (s1 : TagScanner)
    (c1 : DirCtx)
    (h : visitCueFiles env fullScan cur filePath cueInfo cue l s c = .val (s1, c1)) :
    NoPut s s1 ∧ s1.cnt.deleted = s.cnt.deleted ∧ s1.cnt.updated = s.cnt.updated ∧
      (∀ k ∈ c1.orphanTracks.keys, k ∈ c.orphanTracks.keys) := by
  induction l generalizing s c with
  | nil =>
    simp only [visitCueFiles] at h
    cases h
    exact ⟨NoPut.same _, rfl, rfl, fun k hk => hk⟩
  | cons f l ih =>
    rw [visitCueFiles] at h
    split at h
    · cases h
    · rename_i s2 c2 hh
      have h1 := handleMediaPath_frame _ _ _ _ _ _ _ _ _ _ hh
      have h2 := ih _ _ h
      exact ⟨h1.1.andThen (h2.1.of_trace_eq rfl |>.of_trace_eq rfl), h2.2.1.trans h1.2.1,
        h2.2.2.1.trans h1.2.2.1, fun k hk => h1.2.2.2 k (h2.2.2.2 k hk)⟩
    · rename_i s2 c2 hh
      have h1 := handleMediaPath_frame _ _ _ _ _ _ _ _ _ _ hh
      have h2 := ih _ _ h
      exact ⟨h1.1.andThen h2.1, h2.2.1.trans h1.2.1, h2.2.2.1.trans h1.2.2.1,
        fun k hk => h1.2.2.2 k (h2.2.2.2 k hk)⟩

theorem visitEntry_frame (env : Env) (fullScan : Bool)
    (cur : GoMap String (List MediaFile)) (filePath : String)
    (s : TagScanner) (c : DirCtx) (s1 : TagScanner) (c1 : DirCtx)
    (h : visitEntry env fullScan cur filePath s c = .val (s1, c1)) :
    NoPut s s1 ∧ s1.cnt.deleted = s.cnt.deleted ∧ s1.cnt.updated = s.cnt.updated ∧
      (∀ k ∈ c1.orphanTracks.keys, k ∈ c.orphanTracks.keys) := by
  unfold visitEntry at h
  split at h
  · split at h
    · cases h
      exact ⟨NoPut.log _ _ rfl, rfl, rfl, fun k hk => hk⟩
    · dsimp only at h
      split at h
      · cases h
        exact ⟨(NoPut.log s (.entryInfo filePath) rfl).andThen
          (NoPut.log _ (.readFromFile filePath) rfl), rfl, rfl, fun k hk => hk⟩
      · have h2 := visitCueFiles_frame _ _ _ _ _ _ _ _ _ _ _ h
        exact ⟨((NoPut.log s (.entryInfo filePath) rfl).andThen
          (NoPut.log _ (.readFromFile filePath) rfl)).andThen h2.1, h2.2.1, h2.2.2.1, h2.2.2.2⟩
  · split at h
    · cases h
    · rename_i s2 c2 b hh
      cases h
      exact handleMediaPath_frame _ _ _ _ _ _ _ _ _ _ hh

theorem visitEntries_frame (env : Env) (fullScan : Bool)
    (cur : GoMap String (List MediaFile)) (l : List (String × DirEntry))
    (s : TagScanner) (c : DirCtx) (s1 : TagScanner) (c1 : DirCtx)
    (h : visitEntries env fullScan cur l s c = .val (s1, c1)) :
    NoPut s s1 ∧ s1.cnt.deleted = s.cnt.deleted ∧ s1.cnt.updated = s.cnt.updated ∧
      (∀ k ∈ c1.orphanTracks.keys, k ∈ c.orphanTracks.keys) := by
  induction l generalizing s c with
  | nil =>
    simp only [visitEntries] at h
    cases h
    exact ⟨NoPut.same _, rfl, rfl, fun k hk => hk⟩
  | cons kv l ih =>
    rw [visitEntries] at h
    split at h
    · cases h
    · rename_i s2 c2 hh
      have h1 := visitEntry_frame _ _ _ _ _ _ _ _ hh
      have h2 := ih _ _ h
      exact ⟨h1.1.andThen h2.1, h2.2.1.trans h1.2.1, h2.2.2.1.trans h1.2.2.1,
        fun k hk => h1.2.2.2 k (h2.2.2.2 k hk)⟩

theorem visitEntries_append (env : Env) (fullScan : Bool)
    (cur : GoMap String (List MediaFile)) (l1 l2 : List (String × DirEntry))
    (s : TagScanner) (c : DirCtx) :
    visitEntries env fullScan cur (l1 ++ l2) s c =
      match visitEntries env fullScan cur l1 s c with
      | .panic => .panic
      | .val (s1, c1) => visitEntries env fullScan cur l2 s1 c1 := by
  induction l1 generalizing s c with
  | nil => simp [visitEntries]
  | cons kv l1 ih =>
    simp only [List.cons_append, visitEntries]
    cases hv : visitEntry env fullScan cur kv.1 s c with
    | panic => rfl
    | val r => exact ih r.1 r.2

/-! ## Frame properties of the loader -/

theorem loadCueSheet_frame (env : Env) (s : TagScanner) (md : Tags) (s1 : TagScanner)
    (mfs : List MediaFile) (h : loadCueSheet env s md = .val (s1, mfs)) :
    NoPut s s1 ∧ s1.cnt = s.cnt := by
  unfold loadCueSheet at h
  dsimp only at h
  split at h
  · cases h
    exact ⟨NoPut.same _, rfl⟩
  · have hne : NoPut s (NewExtractor env s md).1 ∧ (NewExtractor env s md).1.cnt = s.cnt := by
      unfold NewExtractor
      split
      · exact ⟨NoPut.log _ _ rfl, rfl⟩
      · exact ⟨NoPut.log _ _ rfl, rfl⟩
    split at h
    · cases h
    · split at h
      · cases h
      · cases h
        exact hne

theorem loadTracksLoop_frame (env : Env) (mds : List Tags) (s : TagScanner)
    (acc : List MediaFile) (s1 : TagScanner) (mfs : List MediaFile)
    (h : loadTracksLoop env mds s acc = .val (s1, mfs)) :
    NoPut s s1 ∧ s1.cnt = s.cnt := by
  induction mds generalizing s acc with
  | nil =>
    simp only [loadTracksLoop] at h
    cases h
    exact ⟨NoPut.same _, rfl⟩
  | cons md mds ih =>
    rw [loadTracksLoop] at h
    split at h
    · cases h
    · rename_i s2 tracks hh
      have h1 := loadCueSheet_frame _ _ _ _ _ hh
      split at h
      · have h2 := ih _ _ h
        exact ⟨h1.1.andThen h2.1, h2.2.trans h1.2⟩
      · have h2 := ih _ _ h
        exact ⟨h1.1.andThen h2.1, h2.2.trans h1.2⟩

theorem loadTracks_frame (env : Env) (s : TagScanner) (paths : List String) (s1 : TagScanner)
    (r : Except GoError (List MediaFile)) (h : loadTracks env s paths = .val (s1, r)) :
    NoPut s s1 ∧ s1.cnt = s.cnt := by
  unfold loadTracks at h
  split at h
  · cases h
    exact ⟨NoPut.log _ _ rfl, rfl⟩
  · dsimp only at h
    split at h
    · cases h
    · rename_i s2 mfs hh
      cases h
      have h2 := loadTracksLoop_frame _ _ _ _ _ _ hh
      exact ⟨(NoPut.log s (.extract paths) rfl).andThen h2.1, h2.2⟩

theorem UpdateInv.of_noPut (cur : GoMap String (List MediaFile)) {s s1 : TagScanner}
    (o : GoMap String MediaFile) (h : NoPut s s1) (hc : s1.cnt = s.cnt) :
    UpdateInv cur s o s1 o := by
  obtain ⟨evs, ht, hp⟩ := h
  refine ⟨⟨evs, ht, ?_⟩, hc, fun k hk => hk⟩
  intro mf hmf
  have := hp _ hmf
  simp [Event.isPut] at this

theorem UpdateInv.chain {cur : GoMap String (List MediaFile)} {s s1 s2 : TagScanner}
    {o o1 o2 : GoMap String MediaFile} (h1 : UpdateInv cur s o s1 o1)
    (h2 : UpdateInv cur s1 o1 s2 o2) : UpdateInv cur s o s2 o2 := by
  obtain ⟨⟨e1, ht1, hp1⟩, hc1, hk1⟩ := h1
  obtain ⟨⟨e2, ht2, hp2⟩, hc2, hk2⟩ := h2
  refine ⟨⟨e1 ++ e2, by rw [ht2, ht1, List.append_assoc], ?_⟩, hc2.trans hc1,
    fun k hk => hk1 k (hk2 k hk)⟩
  intro mf hmf hm hmem
  rcases List.mem_append.1 hmf with h | h
  · exact hp1 mf h hm (hk2 _ hmem)
  · exact hp2 mf h hm hmem

theorem keepAnnotations_id (cur : GoMap String (List MediaFile)) (n : MediaFile)
    (o : GoMap String MediaFile) :
    (keepAnnotations cur n o).1.ID = n.ID ∧ (keepAnnotations cur n o).1.Path = n.Path := by
  unfold keepAnnotations
  split
  · split <;> exact ⟨rfl, rfl⟩
  · exact ⟨rfl, rfl⟩

theorem keepAnnotations_keys (cur : GoMap String (List MediaFile)) (n : MediaFile)
    (o : GoMap String MediaFile) :
    ∀ k ∈ (keepAnnotations cur n o).2.keys, k ∈ o.keys := by
  intro k hk
  unfold keepAnnotations at hk
  split at hk
  · split at hk
    · exact ((GoMap.keys_erase _ _ _).1 hk).2
    · exact hk
  · exact hk

theorem keepAnnotations_matched (cur : GoMap String (List MediaFile)) (n : MediaFile)
    (o : GoMap String MediaFile) (hm : Matches cur n) :
    n.ID ∉ (keepAnnotations cur n o).2.keys := by
  obtain ⟨tracks, hg, t, ht, hid⟩ := hm
  have hsome : (tracks.find? (fun dbTrack => decide (dbTrack.ID = n.ID))).isSome := by
    rw [List.find?_isSome]
    exact ⟨t, ht, by simp [hid]⟩
  obtain ⟨d, hd⟩ := Option.isSome_iff_exists.1 hsome
  unfold keepAnnotations
  simp only [hg, hd]
  intro hmem
  exact ((GoMap.keys_erase _ _ _).1 hmem).1 rfl

theorem putTracks_inv (env : Env) (cur : GoMap String (List MediaFile)) (l : List MediaFile)
    (s : TagScanner) (o : GoMap String MediaFile) (n : Int) :
    UpdateInv cur s o (putTracks env (keepAnnotations cur) l s o n).1
      (putTracks env (keepAnnotations cur) l s o n).2.1 := by
  induction l generalizing s o n with
  | nil =>
    simp only [putTracks]
    exact UpdateInv.of_noPut cur o (NoPut.same s) rfl
  | cons t l ih =>
    have hstep : UpdateInv cur s o
        ((s.log (.put (keepAnnotations cur t o).1)).log
          (.accumulate (keepAnnotations cur t o).1))
        (keepAnnotations cur t o).2 := by
      refine ⟨⟨[.put (keepAnnotations cur t o).1, .accumulate (keepAnnotations cur t o).1],
        by simp [TagScanner.log], ?_⟩, rfl, keepAnnotations_keys cur t o⟩
      intro mf hmf hm
      simp only [List.mem_cons, Event.put.injEq, List.mem_singleton, List.not_mem_nil,
        or_false] at hmf
      rcases hmf with h | h
      · subst h
        have hid := keepAnnotations_id cur t o
        have hm' : Matches cur t := by
          obtain ⟨tracks, hg, t', ht', hid'⟩ := hm
          exact ⟨tracks, by rw [← hid.2]; exact hg, t', ht', by rw [← hid.1]; exact hid'⟩
        rw [hid.1]
        exact keepAnnotations_matched cur t o hm'
      · cases h
    rw [putTracks]
    cases hput : env.put s.trace (keepAnnotations cur t o).1 with
    | some err =>
      obtain ⟨⟨evs, ht, hp⟩, hc, hk⟩ := hstep
      refine ⟨⟨[.put (keepAnnotations cur t o).1], by simp [TagScanner.log], ?_⟩, rfl, hk⟩
      intro mf hmf hm
      exact hp mf (by
        simp only [TagScanner.log, List.append_assoc, List.append_cancel_left_eq] at ht
        rw [← ht]
        simp only [List.mem_singleton] at hmf
        simp [hmf]) hm
    | none => exact hstep.chain (ih _ _ _)

theorem updateChunks_inv (env : Env) (cur : GoMap String (List MediaFile))
    (chunks : List (List String)) (s : TagScanner) (o : GoMap String MediaFile) (n : Int)
    (s1 : TagScanner) (o1 : GoMap String MediaFile) (n1 : Int) (err : Option GoError)
    (h : updateChunks env (keepAnnotations cur) chunks s o n = .val (s1, o1, n1, err)) :
    UpdateInv cur s o s1 o1 := by
  induction chunks generalizing s o n with
  | nil =>
    have h0 := UpdateInv.of_noPut cur o (NoPut.same s) rfl
    simp only [updateChunks] at h
    cases h
    exact h0
  | cons chunk chunks ih =>
    rw [updateChunks] at h
    split at h
    · cases h
    · rename_i s2 e hh
      have h1 := loadTracks_frame _ _ _ _ _ hh
      have h1' := UpdateInv.of_noPut cur o h1.1 h1.2
      cases h
      exact h1'
    · rename_i s2 newTracks hh
      have h1 := loadTracks_frame _ _ _ _ _ hh
      have h1' := UpdateInv.of_noPut cur o h1.1 h1.2
      have h2 := putTracks_inv env cur newTracks s2 o n
      split at h
      · rename_i s3 o3 e hp
        rw [hp] at h2
        have h3 := h1'.chain h2
        cases h
        exact h3
      · rename_i s3 o3 n3 hp
        rw [hp] at h2
        exact (h1'.chain h2).chain (ih _ _ _ h)

theorem deleteOrphanLoop_frame (env : Env) (l : List (String × MediaFile)) (s : TagScanner)
    (n : Int) :
    NoPut s (deleteOrphanLoop env l s n).1 ∧
    (deleteOrphanLoop env l s n).1.cnt.added = s.cnt.added ∧
    (deleteOrphanLoop env l s n).1.cnt.updated = s.cnt.updated ∧
    s.cnt.deleted ≤ (deleteOrphanLoop env l s n).1.cnt.deleted ∧
    (deleteOrphanLoop env l s n).1.cnt.deleted ≤ s.cnt.deleted + l.length ∧
    ((deleteOrphanLoop env l s n).2.2 = none →
      (deleteOrphanLoop env l s n).1.cnt.deleted = s.cnt.deleted + l.length) := by
  induction l generalizing s n with
  | nil =>
    refine ⟨NoPut.same s, rfl, rfl, le_refl _, ?_, fun _ => ?_⟩
    · show s.cnt.deleted ≤ s.cnt.deleted + ((0 : Nat) : Int)
      simp
    · show s.cnt.deleted = s.cnt.deleted + ((0 : Nat) : Int)
      simp
  | cons kv l ih =>
    have hlog : NoPut s ((s.log (.accumulate kv.2)).log (.delete kv.2.ID)) :=
      (NoPut.log s (.accumulate kv.2) rfl).andThen (NoPut.log _ (.delete kv.2.ID) rfl)
    rw [deleteOrphanLoop]
    cases hdel : env.delete (s.log (.accumulate kv.2)).trace kv.2.ID with
    | some err =>
      refine ⟨hlog, rfl, rfl, le_refl _, ?_, fun h => by cases h⟩
      show s.cnt.deleted ≤ s.cnt.deleted + ((kv :: l).length : Int)
      have : (0 : Int) ≤ ((kv :: l).length : Int) := Int.natCast_nonneg _
      omega
    | none =>
      show NoPut s (deleteOrphanLoop env l _ _).1 ∧ _
      have h := ih { (s.log (.accumulate kv.2)).log (.delete kv.2.ID) with
        cnt := ((s.log (.accumulate kv.2)).log (.delete kv.2.ID)).cnt.addDeleted 1 } (n + 1)
      obtain ⟨h1, h2, h3, h4, h5, h6⟩ := h
      refine ⟨hlog.andThen h1, h2, h3, ?_, ?_, ?_⟩
      · simp only [TagScanner.log, counters.addDeleted] at h4 ⊢
        omega
      · simp only [TagScanner.log, counters.addDeleted, List.length_cons] at h5 ⊢
        push_cast
        omega
      · intro hn
        have := h6 hn
        simp only [TagScanner.log, counters.addDeleted, List.length_cons] at this ⊢
        push_cast
        omega

theorem loadAllAudioFiles_state (env : Env) (s : TagScanner) (d c : String) :
    (loadAllAudioFiles env s d c).1 = s.log (.readDir d) := by
  unfold loadAllAudioFiles
  split <;> rfl

theorem matches_of_catalog (ct : List MediaFile) (mf t : MediaFile) (ht : t ∈ ct)
    (hp : t.Path = mf.Path) (hid : t.ID = mf.ID) :
    Matches (seedTracks ct (GoMap.empty, GoMap.empty)).1 mf := by
  have hmem : t ∈ ct.filter (fun x => decide (x.Path = mf.Path)) := by
    simp [List.mem_filter, ht, hp]
  refine ⟨ct.filter (fun x => decide (x.Path = mf.Path)), ?_, t, hmem, hid⟩
  rw [seedTracks_current, if_neg (List.ne_nil_of_mem hmem)]

theorem seedTracks_len_zero (ct : List MediaFile)
    (h : (seedTracks ct (GoMap.empty, GoMap.empty)).1.len = 0) : ct = [] := by
  cases ct with
  | nil => rfl
  | cons t ct =>
    exfalso
    have hg := seedTracks_current (t :: ct) t.Path
    have hne : (t :: ct).filter (fun x => decide (x.Path = t.Path)) ≠ [] := by simp
    rw [if_neg hne] at hg
    have := GoMap.len_pos_of_mem_keys _ _ (GoMap.mem_keys_of_get? _ _ _ hg)
    omega

/-! ## Update wins over delete -/

/-- C7 (amended): in a folder pass that returns, every track that the loader
put and whose path and identity are those of a catalog record of the folder is
no longer in the orphan set when the purge runs; `deleted` grows by at most the
size of that orphan set, and by exactly its size when the pass returns no
error. So a record that extraction reproduces is updated, not purged nor
counted; a record of a queued path that extraction does not reproduce stays an
orphan. -/
theorem processChangedDir_update_wins (env : Env) (s : TagScanner) (fullScan : Bool)
    (dir : String) (ct : List MediaFile) (P : DirPass)
    (hct : env.findAllByPath s.trace dir = .ok ct)
    (hP : processChangedDirPass env s fullScan dir = .val P) :
    (∃ evs, P.s.trace = s.trace ++ evs ∧
      ∀ mf, Event.put mf ∈ evs → ∀ t ∈ ct, t.Path = mf.Path → t.ID = mf.ID →
        t.ID ∉ P.orphanTracks.keys) ∧
    s.cnt.deleted ≤ P.s.cnt.deleted ∧
    P.s.cnt.deleted ≤ s.cnt.deleted + P.orphanTracks.len ∧
    (P.err = none → P.s.cnt.deleted = s.cnt.deleted + P.orphanTracks.len) := by
  have hnn : ∀ o : GoMap String MediaFile, (0 : Int) ≤ (o.len : Int) :=
    fun o => Int.natCast_nonneg _
  have hs1 : NoPut s (s.log (.findAllByPath dir)) := NoPut.log s _ rfl
  have hs2 : NoPut s ((s.log (.findAllByPath dir)).log (.readDir dir)) :=
    hs1.andThen (NoPut.log _ (.readDir dir) rfl)
  have hstate := loadAllAudioFiles_state env (s.log (.findAllByPath dir)) dir
    env.CUESheetSupport
  have hnoput : ∀ (s' : TagScanner) (o : GoMap String MediaFile), NoPut s s' →
      ∃ evs, s'.trace = s.trace ++ evs ∧
        ∀ mf, Event.put mf ∈ evs → ∀ t ∈ ct, t.Path = mf.Path → t.ID = mf.ID →
          t.ID ∉ o.keys := by
    rintro s' o ⟨evs, ht, hp⟩
    refine ⟨evs, ht, ?_⟩
    intro mf hmf
    have := hp _ hmf
    simp [Event.isPut] at this
  unfold processChangedDirPass at hP
  simp only [hct] at hP
  split at hP
  · rename_i s2 err hla
    have hs : s2 = (s.log (.findAllByPath dir)).log (.readDir dir) := by
      rw [← hstate, hla]
    subst hs
    cases hP
    refine ⟨hnoput _ _ hs2, le_refl _, ?_, fun h => by cases h⟩
    have := hnn (seedTracks ct (GoMap.empty, GoMap.empty)).2
    show s.cnt.deleted ≤ s.cnt.deleted + _
    omega
  · rename_i s2 files hla
    have hs : s2 = (s.log (.findAllByPath dir)).log (.readDir dir) := by
      rw [← hstate, hla]
    subst hs
    split at hP
    · rename_i hzero
      cases hP
      have hct0 : ct = [] := seedTracks_len_zero ct (by omega)
      subst hct0
      refine ⟨hnoput _ _ hs2, le_refl _, ?_, fun _ => ?_⟩
      · show s.cnt.deleted ≤ s.cnt.deleted + _
        simp [seedTracks, GoMap.len, GoMap.empty]
      · show s.cnt.deleted = s.cnt.deleted + _
        simp [seedTracks, GoMap.len, GoMap.empty]
    · split at hP
      · cases hP
      · rename_i s3 c hvis
        have hv := visitEntries_frame _ _ _ _ _ _ _ _ hvis
        have hs3 : NoPut s s3 := hs2.andThen hv.1
        have hd3 : s3.cnt.deleted = s.cnt.deleted := hv.2.1
        split at hP
        · cases hP
        · rename_i s4 orphans n4 err hupd
          cases hP
          have hinv : UpdateInv (seedTracks ct (GoMap.empty, GoMap.empty)).1 s3 c.orphanTracks
              s4 orphans := by
            split at hupd
            · exact updateChunks_inv _ _ _ _ _ _ _ _ _ _ hupd
            · cases hupd
          obtain ⟨⟨e2, ht2, hp2⟩, hc2, hk2⟩ := hinv
          obtain ⟨e1, ht1, hp1⟩ := hs3
          refine ⟨⟨e1 ++ e2, by rw [ht2, ht1, List.append_assoc], ?_⟩, ?_, ?_,
            fun h => by cases h⟩
          · intro mf hmf t ht hpath hid
            rcases List.mem_append.1 hmf with h | h
            · have := hp1 _ h
              simp [Event.isPut] at this
            · rw [hid]
              exact hp2 mf h (matches_of_catalog ct mf t ht hpath hid)
          · show s.cnt.deleted ≤ s4.cnt.deleted
            rw [hc2, hd3]
          · show s4.cnt.deleted ≤ s.cnt.deleted + _
            rw [hc2, hd3]
            have := hnn orphans
            omega
        · rename_i s4 orphans n4 hupd
          have hinv : UpdateInv (seedTracks ct (GoMap.empty, GoMap.empty)).1 s3 c.orphanTracks
              s4 orphans := by
            split at hupd
            · exact updateChunks_inv _ _ _ _ _ _ _ _ _ _ hupd
            · cases hupd
              exact UpdateInv.of_noPut _ _ (NoPut.same _) rfl
          obtain ⟨⟨e2, ht2, hp2⟩, hc2, hk2⟩ := hinv
          obtain ⟨e1, ht1, hp1⟩ := hs3
          have hputs : ∀ mf, Event.put mf ∈ e1 ++ e2 → ∀ t ∈ ct, t.Path = mf.Path →
              t.ID = mf.ID → t.ID ∉ orphans.keys := by
            intro mf hmf t ht hpath hid
            rcases List.mem_append.1 hmf with h | h
            · have := hp1 _ h
              simp [Event.isPut] at this
            · rw [hid]
              exact hp2 mf h (matches_of_catalog ct mf t ht hpath hid)
          have hd4 : s4.cnt.deleted = s.cnt.deleted := by rw [hc2, hd3]
          have hpurge := deleteOrphanLoop_frame env (env.order.range orphans.entries) s4 0
          have hlen : (env.order.range orphans.entries).length = orphans.len :=
            (env.order.perm orphans.entries).length_eq
          rw [hlen] at hpurge
          obtain ⟨⟨e3, ht3, hp3⟩, -, -, hge, hle, heq⟩ := hpurge
          have hext : ∀ (s5 : TagScanner) (e5 : List Event), s5.trace = s4.trace ++ e5 →
              (∀ e ∈ e5, e.isPut = false) →
              ∃ evs, s5.trace = s.trace ++ evs ∧
                ∀ mf, Event.put mf ∈ evs → ∀ t ∈ ct, t.Path = mf.Path → t.ID = mf.ID →
                  t.ID ∉ orphans.keys := by
            intro s5 e5 h5 hp5
            refine ⟨(e1 ++ e2) ++ e5, by rw [h5, ht2, ht1]; simp, ?_⟩
            intro mf hmf
            rcases List.mem_append.1 hmf with h | h
            · exact hputs mf h
            · have := hp5 _ h
              simp [Event.isPut] at this
          split at hP
          · rename_i s5 n5 err hpur
            cases hP
            split at hpur
            · rename_i hpos
              unfold deleteOrphanSongs at hpur
              rw [hpur] at ht3 hge hle
              simp only at ht3 hge hle
              exact ⟨hext s5 e3 ht3 hp3, by rw [← hd4]; exact hge, by rw [← hd4]; exact hle,
                fun h => by cases h⟩
            · cases hpur
          · rename_i s5 n5 hpur
            cases hP
            split at hpur
            · rename_i hpos
              unfold deleteOrphanSongs at hpur
              rw [hpur] at ht3 hge hle heq
              simp only at ht3 hge hle heq
              have hfin := hext (s5.log .flush) (e3 ++ [.flush])
                (by simp [TagScanner.log, ht3]) (by
                  intro e he
                  rcases List.mem_append.1 he with h | h
                  · exact hp3 e h
                  · simp only [List.mem_singleton] at h
                    subst h
                    rfl)
              exact ⟨hfin, by rw [← hd4]; exact hge, by rw [← hd4]; exact hle,
                fun _ => by rw [← hd4]; exact heq trivial⟩
            · rename_i hnpos
              cases hpur
              have hz : orphans.len = 0 := by omega
              have hfin := hext (s4.log .flush) [.flush] (by simp [TagScanner.log]) (by
                intro e he
                simp only [List.mem_singleton] at he
                subst he
                rfl)
              refine ⟨hfin, ?_, ?_, fun _ => ?_⟩
              · show s.cnt.deleted ≤ s4.cnt.deleted
                rw [hd4]
              · show s4.cnt.deleted ≤ s.cnt.deleted + _
                rw [hd4, hz]
                simp
              · show s4.cnt.deleted = s.cnt.deleted + _
                rw [hd4, hz]
                simp

/-- Witness for C7 (amended) -/
theorem processChangedDir_update_wins_witness :
    (∃ evs, (processChangedDirPass updatedEnv freshScanner false "music").pass.s.trace =
        freshScanner.trace ++ evs ∧
      ∀ mf, Event.put mf ∈ evs →
        ∀ t ∈ [record "music/a.mp3" "music/a.mp3" "al-a" "ar-a" 10],
          t.Path = mf.Path → t.ID = mf.ID →
          t.ID ∉ (processChangedDirPass updatedEnv freshScanner false "music").pass.orphanTracks.keys) ∧
    freshScanner.cnt.deleted ≤
      (processChangedDirPass updatedEnv freshScanner false "music").pass.s.cnt.deleted ∧
    (processChangedDirPass updatedEnv freshScanner false "music").pass.s.cnt.deleted ≤
      freshScanner.cnt.deleted +
        (processChangedDirPass updatedEnv freshScanner false "music").pass.orphanTracks.len ∧
    ((processChangedDirPass updatedEnv freshScanner false "music").pass.err = none →
      (processChangedDirPass updatedEnv freshScanner false "music").pass.s.cnt.deleted =
        freshScanner.cnt.deleted +
          (processChangedDirPass updatedEnv freshScanner false "music").pass.orphanTracks.len) :=
  processChangedDir_update_wins updatedEnv freshScanner false "music"
    [record "music/a.mp3" "music/a.mp3" "al-a" "ar-a" 10]
    (processChangedDirPass updatedEnv freshScanner false "music").pass rfl (by decide)

/-! ## Files that did not change -/

theorem NoPut.grows {s s1 : TagScanner} (h : NoPut s s1) : s.trace <+: s1.trace := by
  obtain ⟨evs, ht, _⟩ := h
  exact ⟨evs, ht.symm⟩

theorem UpdateInv.traceGrows {cur : GoMap String (List MediaFile)} {s s1 : TagScanner}
    {o o1 : GoMap String MediaFile} (h : UpdateInv cur s o s1 o1) : s.trace <+: s1.trace := by
  obtain ⟨⟨evs, ht, _⟩, _, _⟩ := h
  exact ⟨evs, ht.symm⟩

theorem visitEntry_unchanged (env : Env) (ct : List MediaFile) (p : String) (t0 : MediaFile)
    (rest : List MediaFile) (info : FileInfo) (s1 : TagScanner) (c1 : DirCtx)
    (hplain : env.IsCueSheetFile p = false)
    (hrec : ct.filter (fun t => decide (t.Path = p)) = t0 :: rest)
    (hstat : env.stat s1.trace p = .ok info)
    (hold : ¬ t0.UpdatedAt < info.ModTime) :
    visitEntry env false (seedTracks ct (GoMap.empty, GoMap.empty)).1 p s1 c1 =
      .val ((s1.log (.stat p)).log (.accumulate t0),
        { c1 with orphanTracks := removeFromOrphan c1.orphanTracks (t0 :: rest) }) := by
  have hget : (seedTracks ct (GoMap.empty, GoMap.empty)).1.get? p = some (t0 :: rest) := by
    rw [seedTracks_current, hrec]
    simp
  have hcb : plainTrackCallback info.ModTime t0 = false := by
    simp [plainTrackCallback, Time.After, hold]
  simp [visitEntry, hplain, handleMediaPath, hstat, hget, hcb]

theorem removeFromOrphan_not_mem (ct : List MediaFile) (p : String) (o : GoMap String MediaFile)
    (t : MediaFile) (ht : t ∈ ct) (hp : t.Path = p) :
    t.ID ∉ (removeFromOrphan o (ct.filter (fun t => decide (t.Path = p)))).keys := by
  intro hmem
  have := ((removeFromOrphan_keys _ _ _).1 hmem).2
  apply this
  exact List.mem_map_of_mem _ (by simp [List.mem_filter, ht, hp])

theorem handleMediaPath_queue (env : Env) (fullScan : Bool)
    (cur : GoMap String (List MediaFile)) (p : String) (cb : Time → MediaFile → Bool)
    (s : TagScanner) (c : DirCtx) (s1 : TagScanner) (c1 : DirCtx) (b : Bool)
    (h : handleMediaPath env fullScan cur p cb s c = .val (s1, c1, b)) :
    ∀ x ∈ c1.filesToUpdate, x ∈ c.filesToUpdate ∨ x = p := by
  have hadd : ∀ x ∈ (addMediaForUpdate (s.log (.stat p)) c.filesToUpdate p c.visitedPaths).2,
      x ∈ c.filesToUpdate ∨ x = p := by
    intro x hx
    unfold addMediaForUpdate at hx
    split at hx
    · simpa using hx
    · exact Or.inl hx
  unfold handleMediaPath at h
  split at h
  · cases h
    exact fun x hx => Or.inl hx
  · split at h
    · cases h
      exact hadd
    · split at h
      · cases h
        exact hadd
      · split at h
        · cases h
        · cases h
          split
          · exact hadd
          · exact fun x hx => Or.inl hx

theorem visitCueFiles_queue (env : Env) (fullScan : Bool)
    (cur : GoMap String (List MediaFile)) (filePath : String) (cueInfo : FileInfo)
    (cue : Cuesheet) (l : List CueFile) (s : TagScanner) (c : DirCtx) (s1 : TagScanner)
    (c1 : DirCtx)
    (h : visitCueFiles env fullScan cur filePath cueInfo cue l s c = .val (s1, c1)) :
    ∀ x ∈ c1.filesToUpdate, x ∈ c.filesToUpdate ∨
      ∃ f ∈ l, x = filepath.Join (filepath.Dir filePath) (filepath.Base f.FileName) := by
  induction l generalizing s c with
  | nil =>
    simp only [visitCueFiles] at h
    cases h
    exact fun x hx => Or.inl hx
  | cons f l ih =>
    rw [visitCueFiles] at h
    have hstep : ∀ (s2 s2' : TagScanner) (c2 : DirCtx) (b : Bool),
        handleMediaPath env fullScan cur
          (filepath.Join (filepath.Dir filePath) (filepath.Base f.FileName))
          (cueTrackCallback env cueInfo) s c = .val (s2, c2, b) →
        visitCueFiles env fullScan cur filePath cueInfo cue l s2' c2 = .val (s1, c1) →
        ∀ x ∈ c1.filesToUpdate, x ∈ c.filesToUpdate ∨
          ∃ f' ∈ f :: l, x = filepath.Join (filepath.Dir filePath) (filepath.Base f'.FileName) := by
      intro s2 s2' c2 b hh hrest x hx
      rcases ih _ _ hrest x hx with h1 | ⟨f', hf', h1⟩
      · rcases handleMediaPath_queue _ _ _ _ _ _ _ _ _ _ hh x h1 with h2 | h2
        · exact Or.inl h2
        · exact Or.inr ⟨f, by simp, h2⟩
      · exact Or.inr ⟨f', by simp [hf'], h1⟩
    split at h
    · cases h
    · rename_i s2 c2 hh
      exact hstep _ _ _ _ hh h
    · rename_i s2 c2 hh
      exact hstep _ _ _ _ hh h

theorem visitEntries_not_queued (env : Env) (fullScan : Bool)
    (cur : GoMap String (List MediaFile)) (p : String) (l : List (String × DirEntry))
    (hcue : ∀ kv ∈ l, env.IsCueSheetFile kv.1 = true → ∀ h cue,
      env.readFromFile h kv.1 = .ok cue →
      ∀ f ∈ cue.File, filepath.Join (filepath.Dir kv.1) (filepath.Base f.FileName) ≠ p)
    (hskip : ∀ s c s1 c1, visitEntry env fullScan cur p s c = .val (s1, c1) →
      c1.filesToUpdate = c.filesToUpdate)
    (s : TagScanner) (c : DirCtx) (s1 : TagScanner) (c1 : DirCtx)
    (h : visitEntries env fullScan cur l s c = .val (s1, c1))
    (hp : p ∉ c.filesToUpdate) : p ∉ c1.filesToUpdate := by
  induction l generalizing s c with
  | nil =>
    simp only [visitEntries] at h
    cases h
    exact hp
  | cons kv l ih =>
    rw [visitEntries] at h
    split at h
    · cases h
    · rename_i s2 c2 hh
      refine ih (fun kv' hkv' => hcue kv' (by simp [hkv'])) _ _ h ?_
      by_cases hk : kv.1 = p
      · rw [hk] at hh
        rw [hskip _ _ _ _ hh]
        exact hp
      · unfold visitEntry at hh
        split at hh
        · rename_i hiscue
          split at hh
          · cases hh
            exact hp
          · dsimp only at hh
            split at hh
            · cases hh
              exact hp
            · rename_i cue hread
              intro hmem
              rcases visitCueFiles_queue _ _ _ _ _ _ _ _ _ _ _ hh p hmem with h1 | ⟨f, hf, h1⟩
              · exact hp h1
              · exact hcue kv (by simp) hiscue _ cue hread f hf h1.symm
        · split at hh
          · cases hh
          · rename_i s3 c3 b hm
            cases hh
            intro hmem
            rcases handleMediaPath_queue _ _ _ _ _ _ _ _ _ _ hm p hmem with h1 | h1
            · exact hp h1
            · exact hk h1.symm

theorem loadAllAudioFiles_eq (env : Env) (s : TagScanner) (d c : String)
    (files : GoMap String DirEntry) (h : (loadAllAudioFiles env s d c).2 = .ok files) :
    loadAllAudioFiles env s d c = (s.log (.readDir d), .ok files) :=
  Prod.ext (loadAllAudioFiles_state env s d c) h

theorem processChangedDirPass_loop (env : Env) (s : TagScanner) (fullScan : Bool) (dir : String)
    (ct : List MediaFile) (files : GoMap String DirEntry) (P : DirPass)
    (hct : env.findAllByPath s.trace dir = .ok ct)
    (hfiles : (loadAllAudioFiles env (s.log (.findAllByPath dir)) dir
      env.CUESheetSupport).2 = .ok files)
    (hne : files.len + (seedTracks ct (GoMap.empty, GoMap.empty)).1.len ≠ 0)
    (hP : processChangedDirPass env s fullScan dir = .val P) :
    ∃ s3 c, visitEntries env fullScan (seedTracks ct (GoMap.empty, GoMap.empty)).1
        (env.order.range files.entries) ((s.log (.findAllByPath dir)).log (.readDir dir))
        ⟨[], (seedTracks ct (GoMap.empty, GoMap.empty)).2, GoMap.empty⟩ = .val (s3, c) ∧
      s3.trace <+: P.s.trace ∧ (∀ k ∈ P.orphanTracks.keys, k ∈ c.orphanTracks.keys) ∧
      P.filesToUpdate = c.filesToUpdate := by
  have hla := loadAllAudioFiles_eq _ _ _ _ _ hfiles
  unfold processChangedDirPass at hP
  simp only [hct, hla, hne, if_false] at hP
  split at hP
  · cases hP
  · rename_i s3 c hvis
    refine ⟨s3, c, hvis, ?_⟩
    split at hP
    · cases hP
    · rename_i s4 orphans n4 err hupd
      cases hP
      have hinv : UpdateInv (seedTracks ct (GoMap.empty, GoMap.empty)).1 s3 c.orphanTracks
          s4 orphans := by
        split at hupd
        · exact updateChunks_inv _ _ _ _ _ _ _ _ _ _ hupd
        · cases hupd
      exact ⟨hinv.traceGrows, hinv.2.2, rfl⟩
    · rename_i s4 orphans n4 hupd
      have hinv : UpdateInv (seedTracks ct (GoMap.empty, GoMap.empty)).1 s3 c.orphanTracks
          s4 orphans := by
        split at hupd
        · exact updateChunks_inv _ _ _ _ _ _ _ _ _ _ hupd
        · cases hupd
          exact UpdateInv.of_noPut _ _ (NoPut.same _) rfl
      have hpurge := (deleteOrphanLoop_frame env (env.order.range orphans.entries) s4 0).1
      split at hP
      · rename_i s5 n5 err hpur
        cases hP
        refine ⟨?_, hinv.2.2, rfl⟩
        split at hpur
        · unfold deleteOrphanSongs at hpur
          rw [hpur] at hpurge
          exact hinv.traceGrows.trans hpurge.grows
        · cases hpur
      · rename_i s5 n5 hpur
        cases hP
        refine ⟨?_, hinv.2.2, rfl⟩
        have hfl : s5.trace <+: (s5.log .flush).trace := ⟨[.flush], rfl⟩
        split at hpur
        · unfold deleteOrphanSongs at hpur
          rw [hpur] at hpurge
          exact (hinv.traceGrows.trans hpurge.grows).trans hfl
        · cases hpur
          exact hinv.traceGrows.trans hfl

/-- C6 (amended): in a non-full folder pass, let `p` be a listed plain media file
that can be stat'ed, with catalog records `t0 :: rest` at its path and a
modification time not after `t0.UpdatedAt`. Whenever the loop visits `p`, the
queue of files to extract and the counters stay as they are, `t0` is
accumulated, and every record at `p` leaves the orphan set. At the end of the
pass no record at `p` is in the orphan set handed to the purge and the
accumulation of `t0` is in the trace. The path `p` is not in the queue provided
that no cue sheet listed in the folder names `p` in a `FILE` entry. -/
theorem processChangedDir_unchanged_file (env : Env) (s : TagScanner) (dir : String)
    (ct : List MediaFile) (files : GoMap String DirEntry) (p : String) (t0 : MediaFile)
    (rest : List MediaFile) (P : DirPass)
    (hct : env.findAllByPath s.trace dir = .ok ct)
    (hfiles : (loadAllAudioFiles env (s.log (.findAllByPath dir)) dir
      env.CUESheetSupport).2 = .ok files)
    (hp : p ∈ files.keys)
    (hplain : env.IsCueSheetFile p = false)
    (hrec : ct.filter (fun t => decide (t.Path = p)) = t0 :: rest)
    (hstat : ∀ h, ∃ info, env.stat h p = .ok info ∧ ¬ t0.UpdatedAt < info.ModTime)
    (hP : processChangedDirPass env s false dir = .val P) :
    (∀ s1 c1, ∃ s2 c2,
        visitEntry env false (seedTracks ct (GoMap.empty, GoMap.empty)).1 p s1 c1
          = .val (s2, c2) ∧
        c2.filesToUpdate = c1.filesToUpdate ∧ s2.cnt = s1.cnt ∧
        s2.trace = s1.trace ++ [.stat p, .accumulate t0] ∧
        ∀ t ∈ ct, t.Path = p → t.ID ∉ c2.orphanTracks.keys) ∧
    (∀ t ∈ ct, t.Path = p → t.ID ∉ P.orphanTracks.keys) ∧
    (∃ evs, P.s.trace = s.trace ++ evs ∧ Event.accumulate t0 ∈ evs) ∧
    ((∀ q ∈ files.keys, env.IsCueSheetFile q = true → ∀ h cue,
        env.readFromFile h q = .ok cue →
        ∀ f ∈ cue.File, filepath.Join (filepath.Dir q) (filepath.Base f.FileName) ≠ p) →
      p ∉ P.filesToUpdate) := by
  have hvisit : ∀ s1 c1,
      visitEntry env false (seedTracks ct (GoMap.empty, GoMap.empty)).1 p s1 c1 =
        .val ((s1.log (.stat p)).log (.accumulate t0),
          { c1 with orphanTracks := removeFromOrphan c1.orphanTracks (t0 :: rest) }) := by
    intro s1 c1
    obtain ⟨info, hi, hold⟩ := hstat s1.trace
    exact visitEntry_unchanged env ct p t0 rest info s1 c1 hplain hrec hi hold
  have hgone : ∀ (c1 : DirCtx), ∀ t ∈ ct, t.Path = p →
      t.ID ∉ (removeFromOrphan c1.orphanTracks (t0 :: rest)).keys := by
    intro c1 t ht htp
    rw [← hrec]
    exact removeFromOrphan_not_mem ct p _ t ht htp
  have hne : files.len + (seedTracks ct (GoMap.empty, GoMap.empty)).1.len ≠ 0 := by
    have := GoMap.len_pos_of_mem_keys _ _ hp
    omega
  obtain ⟨s3, c, hvis, hpre, hkeys, hq⟩ :=
    processChangedDirPass_loop env s false dir ct files P hct hfiles hne hP
  -- the loop reaches `p`
  have hpr : p ∈ (env.order.range files.entries).map Prod.fst :=
    ((env.order.perm files.entries).map Prod.fst).mem_iff.2 hp
  obtain ⟨kv, hkv, hkp⟩ := List.mem_map.1 hpr
  obtain ⟨l1, l2, hsplit⟩ := List.append_of_mem hkv
  rw [hsplit, visitEntries_append] at hvis
  split at hvis
  · cases hvis
  · rename_i sa ca hpre1
    rw [visitEntries, hkp, hvisit] at hvis
    simp only at hvis
    have hf1 := visitEntries_frame _ _ _ _ _ _ _ _ hpre1
    have hf2 := visitEntries_frame _ _ _ _ _ _ _ _ hvis
    refine ⟨?_, ?_, ?_, ?_⟩
    · intro s1 c1
      exact ⟨_, _, hvisit s1 c1, rfl, rfl, by simp [TagScanner.log], hgone c1⟩
    · intro t ht htp hmem
      exact hgone ca t ht htp (hf2.2.2.2 _ (hkeys _ hmem))
    · obtain ⟨ea, hta⟩ := (NoPut.grows ((NoPut.log s (.findAllByPath dir) rfl).andThen
        ((NoPut.log _ (.readDir dir) rfl).andThen hf1.1)))
      obtain ⟨eb, htb⟩ := hf2.1.grows.trans hpre
      refine ⟨ea ++ [.stat p, .accumulate t0] ++ eb, ?_, by simp⟩
      rw [← htb]
      simp only [TagScanner.log]
      rw [← hta]
      simp [TagScanner.log]
    · intro hall
      rw [hq]
      have hallr : ∀ kv ∈ env.order.range files.entries, env.IsCueSheetFile kv.1 = true →
          ∀ h cue, env.readFromFile h kv.1 = .ok cue →
          ∀ f ∈ cue.File, filepath.Join (filepath.Dir kv.1) (filepath.Base f.FileName) ≠ p := by
        intro kv' hkv'
        apply hall
        exact ((env.order.perm files.entries).map Prod.fst).mem_iff.1
          (List.mem_map_of_mem _ hkv')
      have hskip : ∀ s c s1 c1,
          visitEntry env false (seedTracks ct (GoMap.empty, GoMap.empty)).1 p s c
            = .val (s1, c1) → c1.filesToUpdate = c.filesToUpdate := by
        intro s c s1 c1 h
        rw [hvisit] at h
        cases h
        rfl
      have hvis0 := processChangedDirPass_loop env s false dir ct files P hct hfiles hne hP
      obtain ⟨s3', c', hvis', -, -, hq'⟩ := hvis0
      rw [← hq, hq']
      exact visitEntries_not_queued env false _ p _ hallr hskip _ _ _ _ hvis' (by simp)

/-- Witness for C6 (amended): the unchanged file `a.mp3` of `deletionEnv`, in a
folder without cue sheets -/
theorem processChangedDir_unchanged_file_witness :
    (∀ s1 c1, ∃ s2 c2,
        visitEntry deletionEnv false
          (seedTracks [record "id-a" "music/a.mp3" "al-a" "ar-a" 10,
            record "id-b" "music/b.mp3" "al-b" "ar-b" 10] (GoMap.empty, GoMap.empty)).1
          "music/a.mp3" s1 c1 = .val (s2, c2) ∧
        c2.filesToUpdate = c1.filesToUpdate ∧ s2.cnt = s1.cnt ∧
        s2.trace = s1.trace ++
          [.stat "music/a.mp3", .accumulate (record "id-a" "music/a.mp3" "al-a" "ar-a" 10)] ∧
        ∀ t ∈ [record "id-a" "music/a.mp3" "al-a" "ar-a" 10,
            record "id-b" "music/b.mp3" "al-b" "ar-b" 10],
          t.Path = "music/a.mp3" → t.ID ∉ c2.orphanTracks.keys) ∧
    (∀ t ∈ [record "id-a" "music/a.mp3" "al-a" "ar-a" 10,
        record "id-b" "music/b.mp3" "al-b" "ar-b" 10],
      t.Path = "music/a.mp3" →
        t.ID ∉ (processChangedDirPass deletionEnv freshScanner false "music").pass.orphanTracks.keys) ∧
    (∃ evs, (processChangedDirPass deletionEnv freshScanner false "music").pass.s.trace =
        freshScanner.trace ++ evs ∧
      Event.accumulate (record "id-a" "music/a.mp3" "al-a" "ar-a" 10) ∈ evs) ∧
    ((∀ q ∈ GoMap.keys (⟨[("music/a.mp3", ⟨"a.mp3", false⟩)]⟩ : GoMap String DirEntry),
        deletionEnv.IsCueSheetFile q = true → ∀ h cue,
          deletionEnv.readFromFile h q = .ok cue →
          ∀ f ∈ cue.File,
            filepath.Join (filepath.Dir q) (filepath.Base f.FileName) ≠ "music/a.mp3") →
      "music/a.mp3" ∉
        (processChangedDirPass deletionEnv freshScanner false "music").pass.filesToUpdate) :=
  processChangedDir_unchanged_file deletionEnv freshScanner "music"
    [record "id-a" "music/a.mp3" "al-a" "ar-a" 10, record "id-b" "music/b.mp3" "al-b" "ar-b" 10]
    ⟨[("music/a.mp3", ⟨"a.mp3", false⟩)]⟩ "music/a.mp3"
    (record "id-a" "music/a.mp3" "al-a" "ar-a" 10) []
    (processChangedDirPass deletionEnv freshScanner false "music").pass
    rfl rfl (by decide) (by decide) (by decide)
    (fun _ => ⟨⟨10⟩, rfl, by decide⟩) (by decide)

/-- C6 (counterexample): under the setting `external` the listed media file
`a.flac` can be stat'ed, has a catalog record updated at 10 and was itself last
modified at 10, so it is unchanged. The cue sheet `a.cue` of the same folder
names it and was modified at 20: the visit made for the cue sheet queues
`a.flac` for extraction and counts it as added. -/
theorem unchanged_listed_file_queued_counterexample :
    ∃ P : DirPass, processChangedDirPass cueTouchedEnv freshScanner false "music" = .val P ∧
      (loadAllAudioFiles cueTouchedEnv (freshScanner.log (.findAllByPath "music")) "music"
        cueTouchedEnv.CUESheetSupport).2 =
          .ok ⟨[("music/a.flac", ⟨"a.flac", false⟩), ("music/a.cue", ⟨"a.cue", false⟩)]⟩ ∧
      cueTouchedEnv.IsCueSheetFile "music/a.flac" = false ∧
      (∀ h, cueTouchedEnv.stat h "music/a.flac" = .ok ⟨10⟩) ∧
      (∀ h, cueTouchedEnv.findAllByPath h "music" =
        .ok [record "music/a.flac" "music/a.flac" "al-a" "ar-a" 10]) ∧
      ¬ (record "music/a.flac" "music/a.flac" "al-a" "ar-a" 10).UpdatedAt < (10 : Time) ∧
      "music/a.flac" ∈ P.filesToUpdate ∧ P.filesToUpdate = ["music/a.flac"] ∧
      P.s.cnt.added = 1 := by
  refine ⟨_, rfl, rfl, ?_, fun _ => rfl, fun _ => rfl, ?_, ?_, ?_, ?_⟩ <;> decide

/-! ## Deletion of the files that left the folder -/

theorem deleteOrphanLoop_ok (env : Env) (hdel : ∀ h id, env.delete h id = none)
    (l : List (String × MediaFile)) (s : TagScanner) (n : Int) :
    (deleteOrphanLoop env l s n).2.2 = none ∧
    ∃ evs, (deleteOrphanLoop env l s n).1.trace = s.trace ++ evs ∧
      ∀ kv ∈ l, Event.accumulate kv.2 ∈ evs := by
  induction l generalizing s n with
  | nil => exact ⟨rfl, [], by simp [deleteOrphanLoop], by simp⟩
  | cons kv l ih =>
    rw [deleteOrphanLoop]
    simp only [hdel]
    obtain ⟨h1, evs, h2, h3⟩ := ih
      { (s.log (.accumulate kv.2)).log (.delete kv.2.ID) with
        cnt := ((s.log (.accumulate kv.2)).log (.delete kv.2.ID)).cnt.addDeleted 1 } (n + 1)
    refine ⟨h1, .accumulate kv.2 :: .delete kv.2.ID :: evs, ?_, ?_⟩
    · rw [h2]
      simp [TagScanner.log]
    · intro kv' hkv'
      rcases List.mem_cons.1 hkv' with h | h
      · subst h
        simp
      · simp [h3 kv' h]

theorem visitEntries_unchanged (env : Env) (ct : List MediaFile) (l : List (String × DirEntry))
    (hplain : ∀ kv ∈ l, env.IsCueSheetFile kv.1 = false)
    (hsub : ∀ kv ∈ l, ∃ t ∈ ct, t.Path = kv.1)
    (hstat : ∀ kv ∈ l, ∀ h, ∃ info, env.stat h kv.1 = .ok info ∧
      ∀ t ∈ ct, t.Path = kv.1 → ¬ t.UpdatedAt < info.ModTime)
    (s : TagScanner) (c : DirCtx) :
    ∃ s1 c1, visitEntries env false (seedTracks ct (GoMap.empty, GoMap.empty)).1 l s c
        = .val (s1, c1) ∧
      c1.filesToUpdate = c.filesToUpdate ∧ s1.cnt = s.cnt ∧ s.trace <+: s1.trace ∧
      c1.orphanTracks.entries = c.orphanTracks.entries.filter (fun e =>
        decide (e.1 ∉ (ct.filter (fun t => decide (t.Path ∈ l.map Prod.fst))).map
          (fun t => t.ID))) := by
  induction l generalizing s c with
  | nil =>
    refine ⟨s, c, rfl, rfl, rfl, List.prefix_refl _, ?_⟩
    simp
  | cons kv l ih =>
    obtain ⟨t, ht, htp⟩ := hsub kv (by simp)
    have hmem : t ∈ ct.filter (fun x => decide (x.Path = kv.1)) := by
      simp [List.mem_filter, ht, htp]
    obtain ⟨t0, rest, hrec⟩ := List.exists_cons_of_ne_nil (List.ne_nil_of_mem hmem)
    have ht0 : t0 ∈ ct ∧ t0.Path = kv.1 := by
      have : t0 ∈ ct.filter (fun x => decide (x.Path = kv.1)) := by rw [hrec]; simp
      simpa [List.mem_filter] using this
    obtain ⟨info, hi, hold⟩ := hstat kv (by simp) s.trace
    have hv := visitEntry_unchanged env ct kv.1 t0 rest info s c (hplain kv (by simp)) hrec hi
      (hold t0 ht0.1 ht0.2)
    obtain ⟨s1, c1, h1, h2, h3, h4, h5⟩ := ih
      (fun kv' h => hplain kv' (by simp [h])) (fun kv' h => hsub kv' (by simp [h]))
      (fun kv' h => hstat kv' (by simp [h]))
      ((s.log (.stat kv.1)).log (.accumulate t0))
      { c with orphanTracks := removeFromOrphan c.orphanTracks (t0 :: rest) }
    refine ⟨s1, c1, ?_, h2, h3, ?_, ?_⟩
    · rw [visitEntries, hv]
      exact h1
    · refine List.IsPrefix.trans ⟨[.stat kv.1, .accumulate t0], ?_⟩ h4
      simp [TagScanner.log]
    · rw [h5]
      simp only [removeFromOrphan_entries, ← hrec, List.filter_filter]
      apply List.filter_congr
      intro e _
      rw [Bool.eq_iff_iff]
      simp only [Bool.and_eq_true, decide_eq_true_eq, List.mem_map, List.mem_filter,
        List.map_cons, List.mem_cons]
      constructor
      · rintro ⟨h1, h2⟩ ⟨x, ⟨hx, hor⟩, hxe⟩
        rcases hor with h | h
        · exact h2 ⟨x, ⟨hx, h⟩, hxe⟩
        · exact h1 ⟨x, ⟨hx, h⟩, hxe⟩
      · intro h
        exact ⟨fun ⟨x, ⟨hx, hm⟩, hxe⟩ => h ⟨x, ⟨hx, Or.inr hm⟩, hxe⟩,
          fun ⟨x, ⟨hx, hm⟩, hxe⟩ => h ⟨x, ⟨hx, Or.inl hm⟩, hxe⟩⟩

theorem orphans_left (ct : List MediaFile) (keys : List String)
    (hids : (ct.map (fun t => t.ID)).Nodup) :
    (ct.map (fun t => (t.ID, orphanOf t))).filter (fun e =>
        decide (e.1 ∉ (ct.filter (fun t => decide (t.Path ∈ keys))).map (fun t => t.ID))) =
      (ct.filter (fun t => decide (t.Path ∉ keys))).map (fun t => (t.ID, orphanOf t)) := by
  rw [List.filter_map]
  congr 1
  apply List.filter_congr
  intro t ht
  rw [Bool.eq_iff_iff]
  simp only [Function.comp, decide_eq_true_eq, List.mem_map, List.mem_filter]
  constructor
  · intro h hk
    exact h ⟨t, ⟨ht, hk⟩, rfl⟩
  · rintro h ⟨x, ⟨hx, hk⟩, hxe⟩
    have := List.inj_on_of_nodup_map hids hx ht hxe
    subst this
    exact h hk

/-- C5: in a non-full folder pass over a folder whose listed files are plain
media files that all have a catalog record and are not newer than their
records, with a repository whose `Delete` never fails, the pass returns,
`deleted` grows by exactly the number of catalog records whose path is no longer
listed, `added` and `updated` are unchanged, nothing is queued for extraction,
and for each such record a value carrying its album and album-artist IDs is
accumulated before the final flush. The identities of the catalog records are
distinct. -/
theorem processChangedDir_deletion (env : Env) (s : TagScanner) (dir : String)
    (ct : List MediaFile) (files : GoMap String DirEntry)
    (hct : env.findAllByPath s.trace dir = .ok ct)
    (hids : (ct.map (fun t => t.ID)).Nodup)
    (hfiles : (loadAllAudioFiles env (s.log (.findAllByPath dir)) dir
      env.CUESheetSupport).2 = .ok files)
    (hplain : ∀ p ∈ files.keys, env.IsCueSheetFile p = false)
    (hsub : ∀ p ∈ files.keys, ∃ t ∈ ct, t.Path = p)
    (hstat : ∀ p ∈ files.keys, ∀ h, ∃ info, env.stat h p = .ok info ∧
      ∀ t ∈ ct, t.Path = p → ¬ t.UpdatedAt < info.ModTime)
    (hdel : ∀ h id, env.delete h id = none) :
    ∃ P : DirPass, processChangedDirPass env s false dir = .val P ∧
      P.s.cnt.deleted =
        s.cnt.deleted + ((ct.filter (fun t => decide (t.Path ∉ files.keys))).length : Int) ∧
      P.s.cnt.added = s.cnt.added ∧ P.s.cnt.updated = s.cnt.updated ∧
      P.filesToUpdate = [] ∧
      ∀ t ∈ ct, t.Path ∉ files.keys →
        ∃ mf evs, mf.AlbumID = t.AlbumID ∧ mf.AlbumArtistID = t.AlbumArtistID ∧
          P.s.trace = s.trace ++ evs ++ [.flush] ∧ Event.accumulate mf ∈ evs := by
  have hla := loadAllAudioFiles_eq _ _ _ _ _ hfiles
  have hkeys : ∀ kv ∈ env.order.range files.entries, kv.1 ∈ files.keys := fun kv hkv =>
    ((env.order.perm files.entries).map Prod.fst).mem_iff.1 (List.mem_map_of_mem _ hkv)
  have hkeq : ∀ t : MediaFile,
      t.Path ∈ (env.order.range files.entries).map Prod.fst ↔ t.Path ∈ files.keys :=
    fun t => ((env.order.perm files.entries).map Prod.fst).mem_iff
  by_cases hz : files.len + (seedTracks ct (GoMap.empty, GoMap.empty)).1.len = 0
  · have hct0 := seedTracks_len_zero ct (by omega)
    subst hct0
    refine ⟨⟨(s.log (.findAllByPath dir)).log (.readDir dir), none, [],
      (seedTracks [] (GoMap.empty, GoMap.empty)).2⟩, ?_, ?_, rfl, rfl, rfl, ?_⟩
    · unfold processChangedDirPass
      simp only [hct, hla, hz, if_true]
    · simp [TagScanner.log]
    · intro t ht
      cases ht
  · obtain ⟨s3, c3, hvis, hq, hcnt, hpre, hent⟩ := visitEntries_unchanged env ct
      (env.order.range files.entries) (fun kv h => hplain _ (hkeys kv h))
      (fun kv h => hsub _ (hkeys kv h)) (fun kv h => hstat _ (hkeys kv h))
      ((s.log (.findAllByPath dir)).log (.readDir dir))
      ⟨[], (seedTracks ct (GoMap.empty, GoMap.empty)).2, GoMap.empty⟩
    simp only at hq hcnt hent
    have hent2 : c3.orphanTracks.entries =
        (ct.filter (fun t => decide (t.Path ∉ files.keys))).map
          (fun t => (t.ID, orphanOf t)) := by
      rw [hent, seedTracks_orphan_entries ct _ _ hids (by simp [GoMap.empty, GoMap.keys])]
      simp only [GoMap.empty, List.nil_append]
      rw [orphans_left ct _ hids]
      congr 1
      apply List.filter_congr
      intro t _
      simp [hkeq t]
    have hlen : c3.orphanTracks.len =
        (ct.filter (fun t => decide (t.Path ∉ files.keys))).length := by
      simp [GoMap.len, hent2]
    obtain ⟨hok, evs, htr, hacc⟩ :=
      deleteOrphanLoop_ok env hdel (env.order.range c3.orphanTracks.entries) s3 0
    obtain ⟨-, hadd, hupd, -, -, hdl⟩ :=
      deleteOrphanLoop_frame env (env.order.range c3.orphanTracks.entries) s3 0
    have hrl : (env.order.range c3.orphanTracks.entries).length = c3.orphanTracks.len :=
      (env.order.perm c3.orphanTracks.entries).length_eq
    obtain ⟨e0, he0⟩ := hpre
    by_cases hpos : c3.orphanTracks.len > 0
    · rcases hr : deleteOrphanLoop env (env.order.range c3.orphanTracks.entries) s3 0 with
        ⟨s5, n5, e5⟩
      rw [hr] at hok htr hadd hupd hdl
      simp only at hok htr hadd hupd hdl
      subst hok
      refine ⟨⟨s5.log .flush, env.flush s5.trace, [], c3.orphanTracks⟩, ?_, ?_, ?_, ?_, rfl, ?_⟩
      · unfold processChangedDirPass
        simp only [hct, hla, hz, if_false, hvis, hq, List.length_nil, gt_iff_lt,
          lt_self_iff_false, hpos, if_true, deleteOrphanSongs, hr]
      · show s5.cnt.deleted = _
        rw [hdl rfl, hrl, hcnt, hlen]
        rfl
      · show s5.cnt.added = _
        rw [hadd, hcnt]
        rfl
      · show s5.cnt.updated = _
        rw [hupd, hcnt]
        rfl
      · intro t ht htk
        refine ⟨orphanOf t, [.findAllByPath dir, .readDir dir] ++ e0 ++ evs, rfl, rfl, ?_, ?_⟩
        · show (s5.trace ++ [Event.flush]) = _
          rw [htr, ← he0]
          simp [TagScanner.log]
        · apply List.mem_append_right
          have hmem : (t.ID, orphanOf t) ∈ env.order.range c3.orphanTracks.entries := by
            rw [(env.order.perm c3.orphanTracks.entries).mem_iff, hent2]
            exact List.mem_map_of_mem _ (by simp [List.mem_filter, ht, htk])
          exact hacc _ hmem
    · have hz2 : (ct.filter (fun t => decide (t.Path ∉ files.keys))).length = 0 := by omega
      refine ⟨⟨s3.log .flush, env.flush s3.trace, [], c3.orphanTracks⟩, ?_, ?_, ?_, ?_, rfl, ?_⟩
      · unfold processChangedDirPass
        simp only [hct, hla, hz, if_false, hvis, hq, List.length_nil, gt_iff_lt,
          lt_self_iff_false, hpos]
      · show s3.cnt.deleted = _
        rw [hcnt, hz2]
        simp [TagScanner.log]
      · show s3.cnt.added = _
        rw [hcnt]
        rfl
      · show s3.cnt.updated = _
        rw [hcnt]
        rfl
      · intro t ht htk
        exfalso
        have : t ∈ ct.filter (fun t => decide (t.Path ∉ files.keys)) := by
          simp [List.mem_filter, ht, htk]
        have := List.length_pos_of_mem this
        omega

/-- Witness for C5 -/
theorem processChangedDir_deletion_witness :
    ∃ P : DirPass, processChangedDirPass deletionEnv freshScanner false "music" = .val P ∧
      P.s.cnt.deleted = 1 ∧ P.s.cnt.added = 0 ∧ P.s.cnt.updated = 0 ∧
      ∃ mf evs, mf.AlbumID = "al-b" ∧ mf.AlbumArtistID = "ar-b" ∧
        P.s.trace = freshScanner.trace ++ evs ++ [.flush] ∧ Event.accumulate mf ∈ evs := by
  obtain ⟨P, h1, h2, h3, h4, -, h5⟩ := processChangedDir_deletion deletionEnv freshScanner "music"
    [record "id-a" "music/a.mp3" "al-a" "ar-a" 10, record "id-b" "music/b.mp3" "al-b" "ar-b" 10]
    ⟨[("music/a.mp3", ⟨"a.mp3", false⟩)]⟩ rfl (by decide) rfl (by decide) (by decide)
    (by
      intro p hp h
      simp only [GoMap.keys, List.map_cons, List.map_nil, List.mem_singleton] at hp
      subst hp
      exact ⟨⟨10⟩, rfl, by decide⟩)
    (fun _ _ => rfl)
  refine ⟨P, h1, ?_, ?_, ?_, ?_⟩
  · rw [h2]; decide
  · rw [h3]; rfl
  · rw [h4]; rfl
  · exact h5 (record "id-b" "music/b.mp3" "al-b" "ar-b" 10) (by decide) (by decide)

/-! ## Queueing for extraction -/

/-- C8 (the code at the failing input): a new folder holds `a.flac` and the cue
sheet `a.cue` that lists it. The path is visited twice, `visitedPaths` is never
written, so the path is handed to the extractor twice and `added` is
incremented twice. -/
theorem processChangedDir_queues_path_twice :
    ∃ p : DirPass, processChangedDirPass cuePairEnv freshScanner false "music" = .val p ∧
      p.filesToUpdate = ["music/a.flac", "music/a.flac"] ∧
      p.s.cnt.added = 2 ∧
      Event.extract ["music/a.flac", "music/a.flac"] ∈ p.s.trace := by
  refine ⟨_, rfl, ?_, ?_, ?_⟩ <;> decide

/-- C7 (counterexample): the catalog holds sub-tracks 0, 1 and 2 of `a.flac`;
the file is newer than its records, so its path is queued for extraction, and
its cue sheet now lists two tracks. Sub-tracks 0 and 1 are put again; the record
of sub-track 2, a record of the queued path, stays in the orphan set, the purge
runs for it and `deleted` counts it. -/
theorem update_wins_over_delete_counterexample :
    ∃ p : DirPass, processChangedDirPass cueShrinkEnv freshScanner false "music" = .val p ∧
      p.filesToUpdate = ["music/a.flac"] ∧
      p.orphanTracks.keys = ["music/a.flac#2"] ∧
      p.s.cnt.deleted = 1 ∧
      (p.s.trace.filter Event.isPut).length = 2 := by
  refine ⟨_, rfl, ?_, ?_, ?_, ?_⟩ <;> decide

/-! ## Cue sheet expansion -/

theorem addTagValue_get? (name k : String) (tags : ParsedTags) (values : List String) :
    (addTagValue name tags values).get? k =
      if k = name then
        (match values.find? (fun v => v != "") with
          | some v => some ((tags.get? name).getD [] ++ [v])
          | none => tags.get? name)
      else tags.get? k := by
  unfold addTagValue
  by_cases h : k = name
  · subst h
    split <;> simp [GoMap.get?_insert]
  · split <;> simp [GoMap.get?_insert, h]

theorem toDigitsCore_ne_nil (b fuel n : Nat) (ds : List Char) (h : ds ≠ [] ∨ 0 < fuel) :
    Nat.toDigitsCore b fuel n ds ≠ [] := by
  induction fuel generalizing n ds with
  | zero =>
    rcases h with h | h
    · simpa [Nat.toDigitsCore] using h
    · omega
  | succ fuel ih =>
    rw [Nat.toDigitsCore]
    split
    · simp
    · exact ih _ _ (Or.inl (by simp))

theorem toString_nat_ne_empty (n : Nat) : toString n ≠ "" := by
  intro h
  have h1 : (Nat.toDigits 10 n).asString = "" := h
  have h2 : Nat.toDigits 10 n = [] := by
    have := congrArg String.data h1
    simpa using this
  exact toDigitsCore_ne_nil 10 (n + 1) n [] (Or.inr (by omega)) h2

theorem GoMap.get?_ite {κ ν : Type} [DecidableEq κ] (c : Prop) [Decidable c] (a b : GoMap κ ν)
    (k : κ) : (if c then a else b).get? k = if c then a.get? k else b.get? k := by
  split <;> rfl

theorem extractTrackTags_sub_track (env : Env) (md : Tags) (cue : Cuesheet) (last : Bool)
    (file : CueFile) (i : Nat) (t : CueTrack) (tags0 : ParsedTags)
    (h : tags0.get? "sub_track" = none) :
    (extractTrackTags env md cue last file i t tags0).get? "sub_track" = some [toString i] := by
  have hne : (toString i != "") = true := by simpa using toString_nat_ne_empty i
  unfold extractTrackTags
  simp [GoMap.get?_ite, addTagValue_get?, GoMap.get?_insert, h, hne]

theorem extractTrackTags_offset (env : Env) (md : Tags) (cue : Cuesheet) (last : Bool)
    (file : CueFile) (i : Nat) (t : CueTrack) (tags0 : ParsedTags)
    (hfmt : ∀ d, env.formatSeconds d ≠ "") :
    (extractTrackTags env md cue last file i t tags0).get? "offset" =
      some ((tags0.get? "offset").getD [] ++ [makeDuration env t.StartOffset]) := by
  have hne : (makeDuration env t.StartOffset != "") = true := by
    simpa [makeDuration] using hfmt t.StartOffset
  unfold extractTrackTags
  simp [GoMap.get?_ite, addTagValue_get?, GoMap.get?_insert, hne]

theorem extractTrackTags_duration (env : Env) (md : Tags) (cue : Cuesheet) (last : Bool)
    (file : CueFile) (i : Nat) (t : CueTrack) (tags0 : ParsedTags)
    (hfmt : ∀ d, env.formatSeconds d ≠ "") :
    (extractTrackTags env md cue last file i t tags0).get? "duration" =
      some ((tags0.get? "duration").getD [] ++
        [makeDuration env (trackDuration env md file i t)]) := by
  have hne : (makeDuration env (trackDuration env md file i t) != "") = true := by
    simpa [makeDuration] using hfmt (trackDuration env md file i t)
  unfold trackDuration at hne ⊢
  unfold extractTrackTags
  simp only [GoMap.get?_ite, addTagValue_get?, GoMap.get?_insert]
  simp only [List.find?_cons, hne]
  simp

theorem toString_int_ne_empty (d : Int) : toString d ≠ "" := by
  cases d with
  | ofNat m => exact toString_nat_ne_empty m
  | negSucc m =>
    intro h
    have h1 : "-" ++ toString (m + 1) = "" := h
    have := congrArg String.length h1
    simp only [String.length_append] at this
    have h2 : "-".length = 1 := by decide
    rw [h2] at this
    have h3 : "".length = 0 := by decide
    rw [h3] at this
    omega

theorem trackDuration_spec (env : Env) (md : Tags) (file : CueFile) (i : Nat) (t : CueTrack) :
    0 ≤ trackDuration env md file i t ∧
    (∀ next, file.Tracks[i + 1]? = some next →
      trackDuration env md file i t = max (next.StartOffset - t.StartOffset) 0) ∧
    (i + 1 = file.Tracks.length →
      trackDuration env md file i t = max (env.mdFileDuration md - t.StartOffset) 0) := by
  refine ⟨?_, ?_, ?_⟩
  · unfold trackDuration
    dsimp only
    split <;> omega
  · intro next hnext
    have hlt : i + 1 < file.Tracks.length := by
      by_contra hge
      rw [List.getElem?_eq_none (by omega)] at hnext
      cases hnext
    unfold trackDuration
    simp only [hlt, if_true, hnext]
    split <;> omega
  · intro hlast
    have hnlt : ¬ i + 1 < file.Tracks.length := by omega
    unfold trackDuration
    simp only [hnlt, if_false]
    split <;> omega

theorem extractTracks_md (env : Env) (cue : Cuesheet) (last : Bool) (file : CueFile)
    (ts : List CueTrack) (i : Nat) (e : TagsExtractor) :
    (extractTracks env cue last file i ts e).md = e.md ∧
    (extractTracks env cue last file i ts e).fileInfo = e.fileInfo := by
  induction ts generalizing i e with
  | nil => exact ⟨rfl, rfl⟩
  | cons t ts ih =>
    rw [extractTracks]
    exact ih _ _

theorem extractTracks_keys (env : Env) (cue : Cuesheet) (last : Bool) (file : CueFile)
    (ts : List CueTrack) (i : Nat) (e : TagsExtractor)
    (hfresh : ∀ j, i ≤ j → j ∉ e.result.keys) :
    (extractTracks env cue last file i ts e).result.keys =
      e.result.keys ++ List.range' i ts.length := by
  induction ts generalizing i e with
  | nil => simp [extractTracks]
  | cons t ts ih =>
    rw [extractTracks]
    rw [ih]
    · have hk : (e.result.insert i (extractTrackTags env e.md cue last file i t
          ((e.result.get? i).getD GoMap.empty))).keys = e.result.keys ++ [i] := by
        simp [GoMap.keys, GoMap.insert_entries_of_not_mem _ _ _ (hfresh i (le_refl _))]
      rw [hk]
      simp [List.range'_succ]
    · intro j hj hmem
      rw [GoMap.mem_keys_insert] at hmem
      rcases hmem with h | h
      · omega
      · exact hfresh j (by omega) h

theorem extractTracks_get?_before (env : Env) (cue : Cuesheet) (last : Bool) (file : CueFile)
    (ts : List CueTrack) (i j : Nat) (e : TagsExtractor) (h : i < j) :
    (extractTracks env cue last file j ts e).result.get? i = e.result.get? i := by
  induction ts generalizing j e with
  | nil => rfl
  | cons t ts ih =>
    rw [extractTracks, ih _ _ (by omega)]
    simp only [GoMap.get?_insert]
    rw [if_neg (by omega)]

theorem extractTracks_get? (env : Env) (cue : Cuesheet) (last : Bool) (file : CueFile)
    (ts : List CueTrack) (i : Nat) (e : TagsExtractor)
    (hfresh : ∀ j, i ≤ j → j ∉ e.result.keys) (k : Nat) (t : CueTrack)
    (hk : ts[k]? = some t) :
    (extractTracks env cue last file i ts e).result.get? (i + k) =
      some (extractTrackTags env e.md cue last file (i + k) t GoMap.empty) := by
  induction ts generalizing i e k with
  | nil => simp at hk
  | cons t0 ts ih =>
    rw [extractTracks]
    have hnone : e.result.get? i = none := GoMap.get?_eq_none _ _ (hfresh i (le_refl _))
    have hfresh2 : ∀ j, i + 1 ≤ j → j ∉ (e.result.insert i (extractTrackTags env e.md cue last
        file i t0 ((e.result.get? i).getD GoMap.empty))).keys := by
      intro j hj hmem
      rw [GoMap.mem_keys_insert] at hmem
      rcases hmem with h | h
      · omega
      · exact hfresh j (by omega) h
    cases k with
    | zero =>
      simp only [List.getElem?_cons_zero, Option.some.injEq] at hk
      rw [extractTracks_get?_before _ _ _ _ _ _ _ _ (by omega)]
      simp [GoMap.get?_insert, hnone, hk]
    | succ k =>
      simp only [List.getElem?_cons_succ] at hk
      have := ih (i + 1) { e with result := e.result.insert i (extractTrackTags env e.md cue
        last file i t0 ((e.result.get? i).getD GoMap.empty)) } hfresh2 k hk
      rw [show i + (k + 1) = i + 1 + k by omega]
      exact this

theorem extractFiles_single (env : Env) (cue : Cuesheet) (last embedded : Bool)
    (file : CueFile) (e : TagsExtractor)
    (happlied : embedded = true ∨ file.FileName = filepath.Base e.md.filePath) :
    extractFiles env cue last embedded [file] (some e) =
      .val (some (extractTracks env cue last file 0 file.Tracks e)) := by
  have hgate : (!embedded && file.FileName != filepath.Base e.md.filePath) = false := by
    rcases happlied with h | h
    · simp [h]
    · simp [h]
  simp [extractFiles, hgate]

/-- C12 (amended): a cue sheet with a single `FILE` entry that `Extract` applies
(an embedded sheet, or an entry named like the media file) to a fresh extractor
gives exactly one tag bag per track of the entry, stored under the positions
`0 .. n-1`; the bag at position `i` has `sub_track` equal to `i`, and
`ForEachTrack` hands out as many tag sets as there are tracks. -/
theorem Extract_single_entry (env : Env) (md : Tags) (fileInfo : FileInfo) (cue : Cuesheet)
    (file : CueFile) (last embedded : Bool)
    (hfile : cue.File = [file])
    (happlied : embedded = true ∨ file.FileName = filepath.Base md.filePath) :
    ∃ e', Extract env (some (freshExtractor md fileInfo)) (some cue) last embedded
        = .val (some e') ∧
      e'.result.keys = List.range file.Tracks.length ∧
      e'.result.len = file.Tracks.length ∧
      (∀ i, i < file.Tracks.length → bagTag (some e') i "sub_track" = some [toString i]) ∧
      (∃ l, ForEachTrack env (some e') = .val l ∧ l.length = file.Tracks.length) := by
  have hfresh : ∀ j, 0 ≤ j → j ∉ (freshExtractor md fileInfo).result.keys := by
    intro j _
    simp [freshExtractor, GoMap.empty, GoMap.keys]
  have hkeys := extractTracks_keys env cue last file file.Tracks 0 (freshExtractor md fileInfo)
    hfresh
  have hkeys2 : (extractTracks env cue last file 0 file.Tracks
      (freshExtractor md fileInfo)).result.keys = List.range file.Tracks.length := by
    rw [hkeys, List.range_eq_range']
    simp [freshExtractor, GoMap.empty, GoMap.keys]
  have hlen : (extractTracks env cue last file 0 file.Tracks
      (freshExtractor md fileInfo)).result.len = file.Tracks.length := by
    have := congrArg List.length hkeys2
    simpa [GoMap.keys, GoMap.len] using this
  refine ⟨extractTracks env cue last file 0 file.Tracks (freshExtractor md fileInfo), ?_,
    hkeys2, hlen, ?_, ?_⟩
  · unfold Extract
    simp only [hfile]
    exact extractFiles_single env cue last embedded file _ happlied
  · intro i hi
    obtain ⟨t, ht⟩ : ∃ t, file.Tracks[i]? = some t := ⟨file.Tracks[i], by simp [hi]⟩
    have hg := extractTracks_get? env cue last file file.Tracks 0 (freshExtractor md fileInfo)
      hfresh i t ht
    rw [Nat.zero_add] at hg
    simp only [bagTag, hg]
    exact extractTrackTags_sub_track env _ cue last file i t GoMap.empty
      (by simp [GoMap.get?, GoMap.empty])
  · refine ⟨_, rfl, ?_⟩
    rw [List.length_map, (env.order.perm _).length_eq]
    exact hlen

/-- Witness for C12 (amended) -/
theorem Extract_single_entry_witness :
    ∃ e', Extract baseEnv (some (freshExtractor plainTags ⟨10⟩)) (some pairSheet) true true
        = .val (some e') ∧
      e'.result.keys = List.range 2 ∧
      e'.result.len = 2 ∧
      (∀ i, i < 2 → bagTag (some e') i "sub_track" = some [toString i]) ∧
      (∃ l, ForEachTrack baseEnv (some e') = .val l ∧ l.length = 2) :=
  Extract_single_entry baseEnv plainTags ⟨10⟩ pairSheet
    ⟨"a.flac", [⟨1, "One", "", 0, noRem⟩, ⟨2, "Two", "", 60000000000, noRem⟩]⟩ true true rfl
    (Or.inl rfl)

/-- C12 (counterexample): an embedded sheet with two `FILE` entries of one track
each lists two tracks; applied to a fresh extractor it leaves a single tag bag,
at position 0, that holds the `sub_track` and the title of both tracks. -/
theorem Extract_two_entries_counterexample :
    ∃ e', Extract baseEnv (some (freshExtractor plainTags ⟨10⟩)) (some twoFileSheet) true true
        = .val (some e') ∧
      (twoFileSheet.File.map (fun f => f.Tracks.length)).sum = 2 ∧
      e'.result.len = 1 ∧
      bagTag (some e') 0 "sub_track" = some ["0", "0"] ∧
      bagTag (some e') 0 "title" = some ["One", "Two"] := by
  refine ⟨_, rfl, ?_, ?_, ?_, ?_⟩ <;> decide

theorem fresh_keys (md : Tags) (fileInfo : FileInfo) :
    ∀ j, 0 ≤ j → j ∉ (freshExtractor md fileInfo).result.keys := by
  intro j _
  simp [freshExtractor, GoMap.empty, GoMap.keys]

theorem Extract_single_eq (env : Env) (md : Tags) (fileInfo : FileInfo) (cue : Cuesheet)
    (file : CueFile) (last embedded : Bool)
    (hfile : cue.File = [file])
    (happlied : embedded = true ∨ file.FileName = filepath.Base md.filePath) :
    Extract env (some (freshExtractor md fileInfo)) (some cue) last embedded =
      .val (some (extractTracks env cue last file 0 file.Tracks (freshExtractor md fileInfo))) := by
  unfold Extract
  simp only [hfile]
  exact extractFiles_single env cue last embedded file _ happlied

theorem extractTracks_fresh_bag (env : Env) (md : Tags) (fileInfo : FileInfo) (cue : Cuesheet)
    (last : Bool) (file : CueFile) (i : Nat) (t : CueTrack)
    (hfmt : ∀ d, env.formatSeconds d ≠ "")
    (hi : file.Tracks[i]? = some t) :
    bagTag (some (extractTracks env cue last file 0 file.Tracks (freshExtractor md fileInfo)))
        i "offset" = some [makeDuration env t.StartOffset] ∧
    bagTag (some (extractTracks env cue last file 0 file.Tracks (freshExtractor md fileInfo)))
        i "duration" = some [makeDuration env (trackDuration env md file i t)] := by
  have hg := extractTracks_get? env cue last file file.Tracks 0 (freshExtractor md fileInfo)
    (fresh_keys md fileInfo) i t hi
  rw [Nat.zero_add] at hg
  have hmd : (freshExtractor md fileInfo).md = md := rfl
  rw [hmd] at hg
  constructor
  · simp only [bagTag, hg]
    rw [extractTrackTags_offset env md cue last file i t GoMap.empty hfmt]
    simp [GoMap.get?, GoMap.empty]
  · simp only [bagTag, hg]
    rw [extractTrackTags_duration env md cue last file i t GoMap.empty hfmt]
    simp [GoMap.get?, GoMap.empty]

/-- C13: for a `FILE` entry and its track `t` at position `i`, the track loop of
`Extract` appends to the bag of position `i` the offset `start(t)` and the
duration `trackDuration`, whatever the bag held before; on a fresh extractor
these are the only values of the two tags. The duration is never negative, it is
`start(next) - start(t)` floored at zero when a next track exists and
`d - start(t)` floored at zero for the last track, `d` being the file duration. -/
theorem Extract_offset_duration (env : Env) (md : Tags) (fileInfo : FileInfo) (cue : Cuesheet)
    (last : Bool) (file : CueFile) (i : Nat) (t : CueTrack)
    (hfmt : ∀ d, env.formatSeconds d ≠ "")
    (hi : file.Tracks[i]? = some t) :
    (∀ tags0 : ParsedTags,
      (extractTrackTags env md cue last file i t tags0).get? "offset" =
        some ((tags0.get? "offset").getD [] ++ [makeDuration env t.StartOffset]) ∧
      (extractTrackTags env md cue last file i t tags0).get? "duration" =
        some ((tags0.get? "duration").getD [] ++
          [makeDuration env (trackDuration env md file i t)])) ∧
    bagTag (some (extractTracks env cue last file 0 file.Tracks (freshExtractor md fileInfo)))
        i "offset" = some [makeDuration env t.StartOffset] ∧
    bagTag (some (extractTracks env cue last file 0 file.Tracks (freshExtractor md fileInfo)))
        i "duration" = some [makeDuration env (trackDuration env md file i t)] ∧
    0 ≤ trackDuration env md file i t ∧
    (∀ next, file.Tracks[i + 1]? = some next →
      trackDuration env md file i t = max (next.StartOffset - t.StartOffset) 0) ∧
    (i + 1 = file.Tracks.length →
      trackDuration env md file i t = max (env.mdFileDuration md - t.StartOffset) 0) := by
  refine ⟨fun tags0 => ⟨extractTrackTags_offset env md cue last file i t tags0 hfmt,
    extractTrackTags_duration env md cue last file i t tags0 hfmt⟩,
    (extractTracks_fresh_bag env md fileInfo cue last file i t hfmt hi).1,
    (extractTracks_fresh_bag env md fileInfo cue last file i t hfmt hi).2,
    trackDuration_spec env md file i t⟩

/-- Witness for C13: the last track of `tripleSheet` on a file of duration 60 -/
theorem Extract_offset_duration_witness :
    (∀ d, shortFileEnv.formatSeconds d ≠ "") ∧
    bagTag (some (extractTracks shortFileEnv tripleSheet true
        ⟨"a.flac", [⟨1, "One", "", 0, noRem⟩, ⟨2, "Two", "", 20, noRem⟩,
          ⟨3, "Three", "", 40, noRem⟩]⟩ 0
        [⟨1, "One", "", 0, noRem⟩, ⟨2, "Two", "", 20, noRem⟩, ⟨3, "Three", "", 40, noRem⟩]
        (freshExtractor plainTags ⟨10⟩))) 2 "duration" = some ["20"] :=
  ⟨fun d => toString_int_ne_empty d,
   (Extract_offset_duration shortFileEnv plainTags ⟨10⟩ tripleSheet true
      ⟨"a.flac", [⟨1, "One", "", 0, noRem⟩, ⟨2, "Two", "", 20, noRem⟩,
        ⟨3, "Three", "", 40, noRem⟩]⟩ 2 ⟨3, "Three", "", 40, noRem⟩
      (fun d => toString_int_ne_empty d) rfl).2.2.1⟩

/-- C14 (amended): for a sheet whose single applied `FILE` entry has three
tracks, the three bags carry the start offsets of the sheet in sheet order and
the durations `trackDuration`; when the sheet's starts are non-negative,
non-decreasing and the last one is not after the file duration `d`, the three
durations sum to `d - start(t0)`, which is at most `d`. -/
theorem Extract_three_tracks (env : Env) (md : Tags) (fileInfo : FileInfo) (cue : Cuesheet)
    (last embedded : Bool) (name : String) (t0 t1 t2 : CueTrack)
    (hfmt : ∀ d, env.formatSeconds d ≠ "")
    (hfile : cue.File = [⟨name, [t0, t1, t2]⟩])
    (happlied : embedded = true ∨ name = filepath.Base md.filePath) :
    ∃ e', Extract env (some (freshExtractor md fileInfo)) (some cue) last embedded
        = .val (some e') ∧
      bagTag (some e') 0 "offset" = some [makeDuration env t0.StartOffset] ∧
      bagTag (some e') 1 "offset" = some [makeDuration env t1.StartOffset] ∧
      bagTag (some e') 2 "offset" = some [makeDuration env t2.StartOffset] ∧
      bagTag (some e') 0 "duration" =
        some [makeDuration env (trackDuration env md ⟨name, [t0, t1, t2]⟩ 0 t0)] ∧
      bagTag (some e') 1 "duration" =
        some [makeDuration env (trackDuration env md ⟨name, [t0, t1, t2]⟩ 1 t1)] ∧
      bagTag (some e') 2 "duration" =
        some [makeDuration env (trackDuration env md ⟨name, [t0, t1, t2]⟩ 2 t2)] ∧
      (0 ≤ t0.StartOffset → t0.StartOffset ≤ t1.StartOffset →
        t1.StartOffset ≤ t2.StartOffset → t2.StartOffset ≤ env.mdFileDuration md →
        trackDuration env md ⟨name, [t0, t1, t2]⟩ 0 t0 +
          trackDuration env md ⟨name, [t0, t1, t2]⟩ 1 t1 +
          trackDuration env md ⟨name, [t0, t1, t2]⟩ 2 t2
            = env.mdFileDuration md - t0.StartOffset ∧
        trackDuration env md ⟨name, [t0, t1, t2]⟩ 0 t0 +
          trackDuration env md ⟨name, [t0, t1, t2]⟩ 1 t1 +
          trackDuration env md ⟨name, [t0, t1, t2]⟩ 2 t2 ≤ env.mdFileDuration md) := by
  refine ⟨_, Extract_single_eq env md fileInfo cue ⟨name, [t0, t1, t2]⟩ last embedded hfile
    happlied, ?_, ?_, ?_, ?_, ?_, ?_, ?_⟩
  · exact (extractTracks_fresh_bag env md fileInfo cue last ⟨name, [t0, t1, t2]⟩ 0 t0 hfmt rfl).1
  · exact (extractTracks_fresh_bag env md fileInfo cue last ⟨name, [t0, t1, t2]⟩ 1 t1 hfmt rfl).1
  · exact (extractTracks_fresh_bag env md fileInfo cue last ⟨name, [t0, t1, t2]⟩ 2 t2 hfmt rfl).1
  · exact (extractTracks_fresh_bag env md fileInfo cue last ⟨name, [t0, t1, t2]⟩ 0 t0 hfmt rfl).2
  · exact (extractTracks_fresh_bag env md fileInfo cue last ⟨name, [t0, t1, t2]⟩ 1 t1 hfmt rfl).2
  · exact (extractTracks_fresh_bag env md fileInfo cue last ⟨name, [t0, t1, t2]⟩ 2 t2 hfmt rfl).2
  · intro h0 h01 h12 h2d
    have e0 : trackDuration env md ⟨name, [t0, t1, t2]⟩ 0 t0
        = t1.StartOffset - t0.StartOffset := by
      simp [trackDuration]; omega
    have e1 : trackDuration env md ⟨name, [t0, t1, t2]⟩ 1 t1
        = t2.StartOffset - t1.StartOffset := by
      simp [trackDuration]; omega
    have e2 : trackDuration env md ⟨name, [t0, t1, t2]⟩ 2 t2
        = env.mdFileDuration md - t2.StartOffset := by
      simp [trackDuration]; omega
    rw [e0, e1, e2]
    constructor <;> omega

/-- Witness for C14 (amended): `tripleSheet` on a file of duration 60 -/
theorem Extract_three_tracks_witness :
    ∃ e', Extract shortFileEnv (some (freshExtractor plainTags ⟨10⟩)) (some tripleSheet)
        true true = .val (some e') ∧
      bagTag (some e') 0 "offset" = some ["0"] ∧
      bagTag (some e') 1 "offset" = some ["20"] ∧
      bagTag (some e') 2 "offset" = some ["40"] ∧
      bagTag (some e') 0 "duration" = some ["20"] ∧
      bagTag (some e') 1 "duration" = some ["20"] ∧
      bagTag (some e') 2 "duration" = some ["20"] := by
  obtain ⟨e', h, a0, a1, a2, d0, d1, d2, _⟩ :=
    Extract_three_tracks shortFileEnv plainTags ⟨10⟩ tripleSheet true true "a.flac"
      ⟨1, "One", "", 0, noRem⟩ ⟨2, "Two", "", 20, noRem⟩ ⟨3, "Three", "", 40, noRem⟩
      (fun d => toString_int_ne_empty d) rfl (Or.inl rfl)
  exact ⟨e', h, a0, a1, a2, d0, d1, d2⟩

/-- C14 (counterexample): a sheet whose three tracks start at 0, 100 and 50,
applied to a file of duration 60. The offsets in `sub_track` order are 0, 100,
50, not increasing, and the durations are 100, 0 and 10, which sum to 110. -/
theorem Extract_skewed_sheet_counterexample :
    ∃ e', Extract shortFileEnv (some (freshExtractor plainTags ⟨10⟩)) (some skewSheet)
        true true = .val (some e') ∧
      shortFileEnv.mdFileDuration plainTags = 60 ∧
      bagTag (some e') 0 "sub_track" = some ["0"] ∧
      bagTag (some e') 1 "sub_track" = some ["1"] ∧
      bagTag (some e') 2 "sub_track" = some ["2"] ∧
      bagTag (some e') 0 "offset" = some ["0"] ∧
      bagTag (some e') 1 "offset" = some ["100"] ∧
      bagTag (some e') 2 "offset" = some ["50"] ∧
      bagTag (some e') 0 "duration" = some ["100"] ∧
      bagTag (some e') 1 "duration" = some ["0"] ∧
      bagTag (some e') 2 "duration" = some ["10"] := by
  refine ⟨_, rfl, ?_, ?_, ?_, ?_, ?_, ?_, ?_, ?_, ?_, ?_⟩ <;> decide

/-! ## Files that vanish between the listing and the stat -/

theorem visitEntry_vanished (env : Env) (fullScan : Bool) (cur : GoMap String (List MediaFile))
    (p : String) (s : TagScanner) (c : DirCtx) (err : GoError)
    (hplain : env.IsCueSheetFile p = false)
    (hstat : env.stat s.trace p = .error err) :
    visitEntry env fullScan cur p s c = .val (s.log (.stat p), c) := by
  simp [visitEntry, hplain, handleMediaPath, hstat]

theorem visitEntries_mixed (env : Env) (ct : List MediaFile) (gone : String → Bool)
    (l : List (String × DirEntry))
    (hplain : ∀ kv ∈ l, env.IsCueSheetFile kv.1 = false)
    (hgone : ∀ kv ∈ l, gone kv.1 = true → ∀ h, ∃ err, env.stat h kv.1 = .error err)
    (hsub : ∀ kv ∈ l, gone kv.1 = false → ∃ t ∈ ct, t.Path = kv.1)
    (hstat : ∀ kv ∈ l, gone kv.1 = false → ∀ h, ∃ info, env.stat h kv.1 = .ok info ∧
      ∀ t ∈ ct, t.Path = kv.1 → ¬ t.UpdatedAt < info.ModTime)
    (s : TagScanner) (c : DirCtx) :
    ∃ s1 c1, visitEntries env false (seedTracks ct (GoMap.empty, GoMap.empty)).1 l s c
        = .val (s1, c1) ∧
      c1.filesToUpdate = c.filesToUpdate ∧ s1.cnt = s.cnt ∧ s.trace <+: s1.trace ∧
      c1.orphanTracks.entries = c.orphanTracks.entries.filter (fun e =>
        decide (e.1 ∉ (ct.filter (fun t =>
          decide (t.Path ∈ (l.map Prod.fst).filter (fun p => !gone p)))).map
          (fun t => t.ID))) := by
  induction l generalizing s c with
  | nil =>
    refine ⟨s, c, rfl, rfl, rfl, List.prefix_refl _, ?_⟩
    simp
  | cons kv l ih =>
    cases hg : gone kv.1 with
    | true =>
      obtain ⟨err, herr⟩ := hgone kv (by simp) hg s.trace
      have hv := visitEntry_vanished env false (seedTracks ct (GoMap.empty, GoMap.empty)).1
        kv.1 s c err (hplain kv (by simp)) herr
      obtain ⟨s1, c1, h1, h2, h3, h4, h5⟩ := ih
        (fun kv' h => hplain kv' (by simp [h])) (fun kv' h => hgone kv' (by simp [h]))
        (fun kv' h => hsub kv' (by simp [h])) (fun kv' h => hstat kv' (by simp [h]))
        (s.log (.stat kv.1)) c
      refine ⟨s1, c1, ?_, h2, h3, ?_, ?_⟩
      · rw [visitEntries, hv]
        exact h1
      · exact List.IsPrefix.trans ⟨[.stat kv.1], rfl⟩ h4
      · rw [h5]
        have hf : List.filter (fun p => !gone p) (List.map Prod.fst (kv :: l)) =
            List.filter (fun p => !gone p) (List.map Prod.fst l) := by
          rw [List.map_cons, List.filter_cons]
          simp [hg]
        rw [hf]
    | false =>
      obtain ⟨t, ht, htp⟩ := hsub kv (by simp) hg
      have hmem : t ∈ ct.filter (fun x => decide (x.Path = kv.1)) := by
        simp [List.mem_filter, ht, htp]
      obtain ⟨t0, rest, hrec⟩ := List.exists_cons_of_ne_nil (List.ne_nil_of_mem hmem)
      have ht0 : t0 ∈ ct ∧ t0.Path = kv.1 := by
        have : t0 ∈ ct.filter (fun x => decide (x.Path = kv.1)) := by rw [hrec]; simp
        simpa [List.mem_filter] using this
      obtain ⟨info, hi, hold⟩ := hstat kv (by simp) hg s.trace
      have hv := visitEntry_unchanged env ct kv.1 t0 rest info s c (hplain kv (by simp)) hrec hi
        (hold t0 ht0.1 ht0.2)
      obtain ⟨s1, c1, h1, h2, h3, h4, h5⟩ := ih
        (fun kv' h => hplain kv' (by simp [h])) (fun kv' h => hgone kv' (by simp [h]))
        (fun kv' h => hsub kv' (by simp [h])) (fun kv' h => hstat kv' (by simp [h]))
        ((s.log (.stat kv.1)).log (.accumulate t0))
        { c with orphanTracks := removeFromOrphan c.orphanTracks (t0 :: rest) }
      refine ⟨s1, c1, ?_, h2, h3, ?_, ?_⟩
      · rw [visitEntries, hv]
        exact h1
      · refine List.IsPrefix.trans ⟨[.stat kv.1, .accumulate t0], ?_⟩ h4
        simp [TagScanner.log]
      · rw [h5]
        simp only [removeFromOrphan_entries, ← hrec, List.filter_filter]
        apply List.filter_congr
        intro e _
        rw [Bool.eq_iff_iff]
        simp only [Bool.and_eq_true, decide_eq_true_eq, List.mem_map, List.mem_filter,
          List.map_cons, List.filter_cons, hg, Bool.not_false, if_true, List.mem_cons]
        constructor
        · rintro ⟨h1, h2⟩ ⟨x, ⟨hx, hor⟩, hxe⟩
          rcases hor with h | h
          · exact h2 ⟨x, ⟨hx, h⟩, hxe⟩
          · exact h1 ⟨x, ⟨hx, h⟩, hxe⟩
        · intro h
          exact ⟨fun ⟨x, ⟨hx, hm⟩, hxe⟩ => h ⟨x, ⟨hx, Or.inr hm⟩, hxe⟩,
            fun ⟨x, ⟨hx, hm⟩, hxe⟩ => h ⟨x, ⟨hx, Or.inl hm⟩, hxe⟩⟩

theorem deleteOrphanLoop_events (env : Env) (hdel : ∀ h id, env.delete h id = none)
    (l : List (String × MediaFile)) (s : TagScanner) (n : Int) :
    ∃ evs, (deleteOrphanLoop env l s n).1.trace = s.trace ++ evs ∧
      ∀ kv ∈ l, Event.accumulate kv.2 ∈ evs ∧ Event.delete kv.2.ID ∈ evs := by
  induction l generalizing s n with
  | nil => exact ⟨[], by simp [deleteOrphanLoop], by simp⟩
  | cons kv l ih =>
    rw [deleteOrphanLoop]
    simp only [hdel]
    obtain ⟨evs, h2, h3⟩ := ih
      { (s.log (.accumulate kv.2)).log (.delete kv.2.ID) with
        cnt := ((s.log (.accumulate kv.2)).log (.delete kv.2.ID)).cnt.addDeleted 1 } (n + 1)
    refine ⟨.accumulate kv.2 :: .delete kv.2.ID :: evs, ?_, ?_⟩
    · rw [h2]
      simp [TagScanner.log]
    · intro kv' hkv'
      rcases List.mem_cons.1 hkv' with h | h
      · subst h
        simp
      · simp [h3 kv' h]

/-- C15 (amended): in a non-full folder pass over a folder of plain media files,
`gone` marks the listed files whose stat fails; the other listed files have a
catalog record and are not newer than it. `Delete` never fails and the catalog
identities are distinct. A file whose stat fails is skipped by the visit:
the queue, the counters and the orphan set stay as they are. The pass returns,
nothing is queued, `added` and `updated` are unchanged, and `deleted` grows by
the number of catalog records whose path is not listed or is listed with a
failing stat: for every record `t` at such a path the purge accumulates and
deletes the orphan value of `t` before the final flush. -/
theorem processChangedDir_vanished_file (env : Env) (s : TagScanner) (dir : String)
    (ct : List MediaFile) (files : GoMap String DirEntry) (gone : String → Bool)
    (hct : env.findAllByPath s.trace dir = .ok ct)
    (hids : (ct.map (fun t => t.ID)).Nodup)
    (hfiles : (loadAllAudioFiles env (s.log (.findAllByPath dir)) dir
      env.CUESheetSupport).2 = .ok files)
    (hplain : ∀ p ∈ files.keys, env.IsCueSheetFile p = false)
    (hgone : ∀ p ∈ files.keys, gone p = true → ∀ h, ∃ err, env.stat h p = .error err)
    (hsub : ∀ p ∈ files.keys, gone p = false → ∃ t ∈ ct, t.Path = p)
    (hstat : ∀ p ∈ files.keys, gone p = false → ∀ h, ∃ info, env.stat h p = .ok info ∧
      ∀ t ∈ ct, t.Path = p → ¬ t.UpdatedAt < info.ModTime)
    (hdel : ∀ h id, env.delete h id = none) :
    (∀ p ∈ files.keys, gone p = true → ∀ (s1 : TagScanner) (c : DirCtx),
      handleMediaPath env false (seedTracks ct (GoMap.empty, GoMap.empty)).1 p
        plainTrackCallback s1 c = .val (s1.log (.stat p), c, false)) ∧
    ∃ P : DirPass, processChangedDirPass env s false dir = .val P ∧
      P.filesToUpdate = [] ∧
      P.s.cnt.added = s.cnt.added ∧ P.s.cnt.updated = s.cnt.updated ∧
      P.s.cnt.deleted = s.cnt.deleted +
        ((ct.filter (fun t => decide (t.Path ∉ files.keys ∨ gone t.Path = true))).length : Int) ∧
      ∀ t ∈ ct, t.Path ∈ files.keys → gone t.Path = true →
        ∃ evs, P.s.trace = s.trace ++ evs ++ [.flush] ∧
          Event.accumulate (orphanOf t) ∈ evs ∧ Event.delete (orphanOf t).ID ∈ evs := by
  constructor
  · intro p hp hg s1 c
    obtain ⟨err, herr⟩ := hgone p hp hg s1.trace
    simp [handleMediaPath, herr]
  have hla := loadAllAudioFiles_eq _ _ _ _ _ hfiles
  have hkeys : ∀ kv ∈ env.order.range files.entries, kv.1 ∈ files.keys := fun kv hkv =>
    ((env.order.perm files.entries).map Prod.fst).mem_iff.1 (List.mem_map_of_mem _ hkv)
  have hkeq : ∀ t : MediaFile,
      t.Path ∈ ((env.order.range files.entries).map Prod.fst).filter (fun p => !gone p) ↔
        ¬ (t.Path ∉ files.keys ∨ gone t.Path = true) := by
    intro t
    rw [List.mem_filter, ((env.order.perm files.entries).map Prod.fst).mem_iff]
    show t.Path ∈ files.keys ∧ _ ↔ _
    cases gone t.Path <;> simp
  by_cases hz : files.len + (seedTracks ct (GoMap.empty, GoMap.empty)).1.len = 0
  · have hct0 := seedTracks_len_zero ct (by omega)
    subst hct0
    refine ⟨⟨(s.log (.findAllByPath dir)).log (.readDir dir), none, [],
      (seedTracks [] (GoMap.empty, GoMap.empty)).2⟩, ?_, rfl, rfl, rfl, ?_, ?_⟩
    · unfold processChangedDirPass
      simp only [hct, hla, hz, if_true]
    · simp [TagScanner.log]
    · intro t ht
      cases ht
  · obtain ⟨s3, c3, hvis, hq, hcnt, hpre, hent⟩ := visitEntries_mixed env ct gone
      (env.order.range files.entries) (fun kv h => hplain _ (hkeys kv h))
      (fun kv h => hgone _ (hkeys kv h))
      (fun kv h => hsub _ (hkeys kv h)) (fun kv h => hstat _ (hkeys kv h))
      ((s.log (.findAllByPath dir)).log (.readDir dir))
      ⟨[], (seedTracks ct (GoMap.empty, GoMap.empty)).2, GoMap.empty⟩
    simp only at hq hcnt hent
    have hent2 : c3.orphanTracks.entries =
        (ct.filter (fun t => decide (t.Path ∉ files.keys ∨ gone t.Path = true))).map
          (fun t => (t.ID, orphanOf t)) := by
      rw [hent, seedTracks_orphan_entries ct _ _ hids (by simp [GoMap.empty, GoMap.keys])]
      simp only [GoMap.empty, List.nil_append]
      rw [orphans_left ct _ hids]
      congr 1
      apply List.filter_congr
      intro t _
      rw [Bool.eq_iff_iff, decide_eq_true_eq, decide_eq_true_eq, hkeq t, not_not]
    have hlen : c3.orphanTracks.len =
        (ct.filter (fun t => decide (t.Path ∉ files.keys ∨ gone t.Path = true))).length := by
      simp [GoMap.len, hent2]
    obtain ⟨hok, -⟩ :=
      deleteOrphanLoop_ok env hdel (env.order.range c3.orphanTracks.entries) s3 0
    obtain ⟨evs, htr, hacc⟩ :=
      deleteOrphanLoop_events env hdel (env.order.range c3.orphanTracks.entries) s3 0
    obtain ⟨-, hadd, hupd, -, -, hdl⟩ :=
      deleteOrphanLoop_frame env (env.order.range c3.orphanTracks.entries) s3 0
    have hrl : (env.order.range c3.orphanTracks.entries).length = c3.orphanTracks.len :=
      (env.order.perm c3.orphanTracks.entries).length_eq
    obtain ⟨e0, he0⟩ := hpre
    by_cases hpos : c3.orphanTracks.len > 0
    · rcases hr : deleteOrphanLoop env (env.order.range c3.orphanTracks.entries) s3 0 with
        ⟨s5, n5, e5⟩
      rw [hr] at hok htr hadd hupd hdl
      simp only at hok htr hadd hupd hdl
      subst hok
      refine ⟨⟨s5.log .flush, env.flush s5.trace, [], c3.orphanTracks⟩, ?_, rfl, ?_, ?_, ?_, ?_⟩
      · unfold processChangedDirPass
        simp only [hct, hla, hz, if_false, hvis, hq, List.length_nil, gt_iff_lt,
          lt_self_iff_false, hpos, if_true, deleteOrphanSongs, hr]
      · show s5.cnt.added = _
        rw [hadd, hcnt]
        rfl
      · show s5.cnt.updated = _
        rw [hupd, hcnt]
        rfl
      · show s5.cnt.deleted = _
        rw [hdl rfl, hrl, hcnt, hlen]
        rfl
      · intro t ht htk hgt
        refine ⟨[.findAllByPath dir, .readDir dir] ++ e0 ++ evs, ?_, ?_, ?_⟩
        · show (s5.trace ++ [Event.flush]) = _
          rw [htr, ← he0]
          simp [TagScanner.log]
        · apply List.mem_append_right
          have hmem : (t.ID, orphanOf t) ∈ env.order.range c3.orphanTracks.entries := by
            rw [(env.order.perm c3.orphanTracks.entries).mem_iff, hent2]
            exact List.mem_map_of_mem _ (by simp [List.mem_filter, ht, hgt])
          exact (hacc _ hmem).1
        · apply List.mem_append_right
          have hmem : (t.ID, orphanOf t) ∈ env.order.range c3.orphanTracks.entries := by
            rw [(env.order.perm c3.orphanTracks.entries).mem_iff, hent2]
            exact List.mem_map_of_mem _ (by simp [List.mem_filter, ht, hgt])
          exact (hacc _ hmem).2
    · have hz2 : (ct.filter
          (fun t => decide (t.Path ∉ files.keys ∨ gone t.Path = true))).length = 0 := by omega
      refine ⟨⟨s3.log .flush, env.flush s3.trace, [], c3.orphanTracks⟩, ?_, rfl, ?_, ?_, ?_, ?_⟩
      · unfold processChangedDirPass
        simp only [hct, hla, hz, if_false, hvis, hq, List.length_nil, gt_iff_lt,
          lt_self_iff_false, hpos]
      · show s3.cnt.added = _
        rw [hcnt]
        rfl
      · show s3.cnt.updated = _
        rw [hcnt]
        rfl
      · show s3.cnt.deleted = _
        rw [hcnt, hz2]
        simp [TagScanner.log]
      · intro t ht htk hgt
        exfalso
        have : t ∈ ct.filter (fun t => decide (t.Path ∉ files.keys ∨ gone t.Path = true)) := by
          simp [List.mem_filter, ht, hgt]
        have := List.length_pos_of_mem this
        omega

/-- Witness for C15 (amended): `b.mp3` is listed and its stat fails -/
theorem processChangedDir_vanished_file_witness :
    ∃ P : DirPass, processChangedDirPass vanishedEnv freshScanner false "music" = .val P ∧
      P.filesToUpdate = [] ∧ P.s.cnt.added = 0 ∧ P.s.cnt.deleted = 1 ∧
      ∃ evs, P.s.trace = freshScanner.trace ++ evs ++ [.flush] ∧
        Event.accumulate (orphanOf (record "id-b" "music/b.mp3" "al-b" "ar-b" 10)) ∈ evs := by
  obtain ⟨P, h1, h2, h3, -, h4, h5⟩ := (processChangedDir_vanished_file vanishedEnv freshScanner
    "music"
    [record "id-a" "music/a.mp3" "al-a" "ar-a" 10, record "id-b" "music/b.mp3" "al-b" "ar-b" 10]
    ⟨[("music/a.mp3", ⟨"a.mp3", false⟩), ("music/b.mp3", ⟨"b.mp3", false⟩)]⟩
    (fun p => decide (p = "music/b.mp3")) rfl (by decide) rfl (by decide)
    (by
      intro p hp hg h
      have hpb : p = "music/b.mp3" := by simpa using hg
      subst hpb
      exact ⟨_, rfl⟩)
    (by
      intro p hp hg
      simp only [GoMap.keys, List.map_cons, List.map_nil, List.mem_cons, List.mem_singleton,
        List.not_mem_nil, or_false] at hp
      rcases hp with hp | hp
      · subst hp
        exact ⟨record "id-a" "music/a.mp3" "al-a" "ar-a" 10, by decide, rfl⟩
      · subst hp
        simp at hg)
    (by
      intro p hp hg h
      simp only [GoMap.keys, List.map_cons, List.map_nil, List.mem_cons, List.mem_singleton,
        List.not_mem_nil, or_false] at hp
      rcases hp with hp | hp
      · subst hp
        exact ⟨⟨10⟩, rfl, by decide⟩
      · subst hp
        simp at hg)
    (fun _ _ => rfl)).2
  obtain ⟨evs, h6, h7, -⟩ := h5 (record "id-b" "music/b.mp3" "al-b" "ar-b" 10) (by decide)
    (by decide) (by decide)
  refine ⟨P, h1, h2, ?_, ?_, evs, h6, h7⟩
  · rw [h3]; rfl
  · rw [h4]; decide

/-- C15 (counterexample): the catalog holds `a.mp3` and `b.mp3`, the folder
lists both, and the stat of `b.mp3` fails. The file is not queued and `added`
stays 0, but the record of `b.mp3` stays in the orphan set: the purge
accumulates it, calls `Delete`, and `deleted` becomes 1. -/
theorem vanished_file_purged_counterexample :
    ∃ P : DirPass, processChangedDirPass vanishedEnv freshScanner false "music" = .val P ∧
      vanishedEnv.stat [] "music/b.mp3" = noEntry ∧
      P.err = none ∧
      P.filesToUpdate = [] ∧
      P.s.cnt.added = 0 ∧
      P.orphanTracks.keys = ["id-b"] ∧
      P.s.cnt.deleted = 1 ∧
      P.s.trace = [.findAllByPath "music", .readDir "music", .stat "music/a.mp3",
        .accumulate (record "id-a" "music/a.mp3" "al-a" "ar-a" 10), .stat "music/b.mp3",
        .accumulate (orphanOf (record "id-b" "music/b.mp3" "al-b" "ar-b" 10)),
        .delete "", .flush] := by
  refine ⟨_, rfl, rfl, ?_, ?_, ?_, ?_, ?_, ?_⟩ <;> decide

/-! ## Failures inside the loader -/

theorem loaderStep_append (env : Env) (h : List Event) (e : Event) (a b : List Event)
    (ha : loaderStep env h e a = true) : loaderStep env h e (a ++ b) = true := by
  cases e <;> try exact ha
  cases a with
  | nil => simp [loaderStep] at ha
  | cons e2 a2 =>
    cases e2 <;> exact ha

theorem loaderLog_append (env : Env) (a b h : List Event) (ha : loaderLog env h a = true) :
    loaderLog env h (a ++ b) = loaderLog env (h ++ a) b := by
  induction a generalizing h with
  | nil => simp
  | cons e a ih =>
    rw [loaderLog, Bool.and_eq_true] at ha
    rw [List.cons_append, loaderLog, ih _ ha.2, loaderStep_append env h e a b ha.1,
      List.append_assoc, List.singleton_append, Bool.true_and]

theorem loaderLog_stats (env : Env) (evs h : List Event)
    (hs : ∀ e ∈ evs, ∃ p, e = Event.stat p) : loaderLog env h evs = true := by
  induction evs generalizing h with
  | nil => rfl
  | cons e evs ih =>
    obtain ⟨p, hp⟩ := hs e (by simp)
    subst hp
    rw [loaderLog, ih _ (fun e he => hs e (by simp [he]))]
    rfl

theorem putCount_stats (evs : List Event) (hs : ∀ e ∈ evs, ∃ p, e = Event.stat p) :
    putCount evs = 0 := by
  unfold putCount
  rw [List.length_eq_zero, List.filter_eq_nil_iff]
  intro e he
  obtain ⟨p, hp⟩ := hs e he
  subst hp
  simp [Event.isPut]

theorem putCount_append (a b : List Event) : putCount (a ++ b) = putCount a + putCount b := by
  simp [putCount]

theorem loadCueSheet_trace (env : Env) (s : TagScanner) (md : Tags) (s1 : TagScanner)
    (mfs : List MediaFile) (h : loadCueSheet env s md = .val (s1, mfs)) :
    ∃ evs, s1.trace = s.trace ++ evs ∧ ∀ e ∈ evs, ∃ p, e = Event.stat p := by
  unfold loadCueSheet at h
  dsimp only at h
  split at h
  · cases h
    exact ⟨[], by simp, by simp⟩
  · have hne : (NewExtractor env s md).1.trace = s.trace ++ [.stat md.filePath] := by
      unfold NewExtractor
      split <;> rfl
    split at h
    · cases h
    · split at h
      · cases h
      · cases h
        exact ⟨[.stat md.filePath], hne, by simp⟩

theorem loadTracksLoop_trace (env : Env) (mds : List Tags) (s : TagScanner)
    (acc : List MediaFile) (s1 : TagScanner) (mfs : List MediaFile)
    (h : loadTracksLoop env mds s acc = .val (s1, mfs)) :
    ∃ evs, s1.trace = s.trace ++ evs ∧ ∀ e ∈ evs, ∃ p, e = Event.stat p := by
  induction mds generalizing s acc with
  | nil =>
    simp only [loadTracksLoop] at h
    cases h
    exact ⟨[], by simp, by simp⟩
  | cons md mds ih =>
    rw [loadTracksLoop] at h
    split at h
    · cases h
    · rename_i s2 tracks hh
      obtain ⟨e1, ht1, hs1⟩ := loadCueSheet_trace _ _ _ _ _ hh
      have hstep : ∀ acc2, loadTracksLoop env mds s2 acc2 = .val (s1, mfs) →
          ∃ evs, s1.trace = s.trace ++ evs ∧ ∀ e ∈ evs, ∃ p, e = Event.stat p := by
        intro acc2 h2
        obtain ⟨e2, ht2, hs2⟩ := ih _ _ h2
        refine ⟨e1 ++ e2, by rw [ht2, ht1, List.append_assoc], ?_⟩
        intro e he
        rcases List.mem_append.1 he with h3 | h3
        · exact hs1 e h3
        · exact hs2 e h3
      split at h
      · exact hstep _ h
      · exact hstep _ h

theorem loadTracks_trace (env : Env) (s : TagScanner) (paths : List String) (s1 : TagScanner)
    (r : Except GoError (List MediaFile)) (h : loadTracks env s paths = .val (s1, r)) :
    match r with
    | .ok _ => ∃ evs, s1.trace = s.trace ++ evs ∧ loaderLog env s.trace evs = true ∧
        putCount evs = 0
    | .error err => s1.trace = s.trace ++ [.extract paths] ∧
        (Event.extract paths).failsWith env s.trace err = true := by
  unfold loadTracks at h
  split at h
  · rename_i err hex
    cases h
    exact ⟨rfl, by simp [Event.failsWith, hex]⟩
  · rename_i mds hex
    dsimp only at h
    split at h
    · cases h
    · rename_i s2 mfs hh
      cases h
      obtain ⟨evs, ht, hs⟩ := loadTracksLoop_trace _ _ _ _ _ _ hh
      refine ⟨.extract paths :: evs, ?_, ?_, ?_⟩
      · rw [ht]
        simp [TagScanner.log]
      · rw [loaderLog, loaderLog_stats env evs _ hs]
        simp [loaderStep, hex]
      · have := putCount_stats evs hs
        simpa [putCount, Event.isPut] using this

theorem putTracks_outcome {σ : Type} (env : Env) (cb : MediaFile → σ → MediaFile × σ)
    (l : List MediaFile) (s : TagScanner) (st : σ) (n : Int) :
    match (putTracks env cb l s st n).2.2 with
    | .ok n1 => ∃ evs, (putTracks env cb l s st n).1.trace = s.trace ++ evs ∧
        loaderLog env s.trace evs = true ∧ n1 = n + putCount evs
    | .error err => ∃ evs last, (putTracks env cb l s st n).1.trace = s.trace ++ evs ++ [last] ∧
        loaderLog env s.trace evs = true ∧ last.failsWith env (s.trace ++ evs) err = true := by
  induction l generalizing s st n with
  | nil =>
    simp only [putTracks]
    exact ⟨[], by simp, rfl, by simp [putCount]⟩
  | cons t l ih =>
    rw [putTracks]
    cases hput : env.put s.trace (cb t st).1 with
    | some err =>
      exact ⟨[], .put (cb t st).1, by simp [TagScanner.log], rfl,
        by simp [Event.failsWith, hput]⟩
    | none =>
      have h := ih ((s.log (.put (cb t st).1)).log (.accumulate (cb t st).1)) (cb t st).2 (n + 1)
      have hpre : loaderLog env s.trace [.put (cb t st).1, .accumulate (cb t st).1] = true := by
        simp [loaderLog, loaderStep, hput]
      have htr : ((s.log (.put (cb t st).1)).log (.accumulate (cb t st).1)).trace =
          s.trace ++ [.put (cb t st).1, .accumulate (cb t st).1] := by
        simp [TagScanner.log]
      dsimp only
      split
      · rename_i n1 heq
        rw [heq] at h
        obtain ⟨evs, h1, h2, h3⟩ := h
        refine ⟨[.put (cb t st).1, .accumulate (cb t st).1] ++ evs, ?_, ?_, ?_⟩
        · rw [h1, htr, List.append_assoc]
        · rw [loaderLog_append env _ _ _ hpre, ← htr]
          exact h2
        · rw [h3, putCount_append]
          simp [putCount, Event.isPut]
          ring
      · rename_i err heq
        rw [heq] at h
        obtain ⟨evs, last, h1, h2, h3⟩ := h
        refine ⟨[.put (cb t st).1, .accumulate (cb t st).1] ++ evs, last, ?_, ?_, ?_⟩
        · rw [h1, htr]
          simp
        · rw [loaderLog_append env _ _ _ hpre, ← htr]
          exact h2
        · rw [← List.append_assoc, ← htr]
          exact h3

theorem updateChunks_outcome {σ : Type} (env : Env) (cb : MediaFile → σ → MediaFile × σ)
    (chunks : List (List String)) (s : TagScanner) (st : σ) (n : Int)
    (s1 : TagScanner) (st1 : σ) (n1 : Int) (r : Option GoError)
    (h : updateChunks env cb chunks s st n = .val (s1, st1, n1, r)) :
    match r with
    | none => ∃ evs, s1.trace = s.trace ++ evs ∧ loaderLog env s.trace evs = true ∧
        n1 = n + putCount evs
    | some err => n1 = 0 ∧ ∃ evs last, s1.trace = s.trace ++ evs ++ [last] ∧
        loaderLog env s.trace evs = true ∧ last.failsWith env (s.trace ++ evs) err = true := by
  induction chunks generalizing s st n with
  | nil =>
    simp only [updateChunks] at h
    cases h
    exact ⟨[], by simp, rfl, by simp [putCount]⟩
  | cons chunk chunks ih =>
    rw [updateChunks] at h
    split at h
    · cases h
    · rename_i s2 e hh
      have h1 := loadTracks_trace _ _ _ _ _ hh
      cases h
      exact ⟨rfl, [], .extract chunk, by simpa using h1.1, rfl, by simpa using h1.2⟩
    · rename_i s2 newTracks hh
      obtain ⟨e1, ht1, hl1, hc1⟩ := loadTracks_trace _ _ _ _ _ hh
      have h2 := putTracks_outcome env cb newTracks s2 st n
      split at h
      · rename_i s3 st3 e hp
        rw [hp] at h2
        obtain ⟨e2, last, ht2, hl2, hf2⟩ := h2
        cases h
        refine ⟨rfl, e1 ++ e2, last, ?_, ?_, ?_⟩
        · rw [ht2, ht1]
          simp
        · rw [loaderLog_append env _ _ _ hl1, ← ht1]
          exact hl2
        · rw [← List.append_assoc, ← ht1]
          exact hf2
      · rename_i s3 st3 n3 hp
        rw [hp] at h2
        obtain ⟨e2, ht2, hl2, hn2⟩ := h2
        have h3 := ih _ _ _ h
        have hl12 : loaderLog env s.trace (e1 ++ e2) = true := by
          rw [loaderLog_append env _ _ _ hl1, ← ht1]
          exact hl2
        have ht12 : s3.trace = s.trace ++ (e1 ++ e2) := by
          show (s3, st3, (Except.ok n3 : Except GoError Int)).1.trace = _
          rw [ht2, ht1, List.append_assoc]
        cases r with
        | none =>
          obtain ⟨e3, ht3, hl3, hn3⟩ := h3
          refine ⟨e1 ++ e2 ++ e3, ?_, ?_, ?_⟩
          · rw [ht3, ht12, List.append_assoc]
          · rw [loaderLog_append env _ _ _ hl12, ← ht12]
            exact hl3
          · rw [hn3, hn2, putCount_append, putCount_append, hc1]
            push_cast
            ring
        | some err =>
          obtain ⟨hz, e3, last, ht3, hl3, hf3⟩ := h3
          refine ⟨hz, e1 ++ e2 ++ e3, last, ?_, ?_, ?_⟩
          · rw [ht3, ht12]
            simp
          · rw [loaderLog_append env _ _ _ hl12, ← ht12]
            exact hl3
          · rw [← List.append_assoc, ← ht12]
            exact hf3

/-- C16: a run of `addOrUpdateTracksInDB` that returns an error returns the
count 0 and the error of the call that failed, a `Put` or the extraction of a
batch; that call is the last one of the run, so no later record is put and no
later batch is extracted. Every call before it succeeded: each earlier `Put` is
directly followed by the accumulation of the record put, and no delete is
issued. A run that returns no error made only successful calls and returns the
number of records it put. -/
theorem addOrUpdateTracksInDB_outcome {σ : Type} (env : Env) (s : TagScanner)
    (filesToUpdate : List String) (cb : MediaFile → σ → MediaFile × σ) (st : σ)
    (s1 : TagScanner) (st1 : σ) (n1 : Int) :
    (∀ err, addOrUpdateTracksInDB env s filesToUpdate cb st = .val (s1, st1, n1, some err) →
      n1 = 0 ∧ ∃ evs last, s1.trace = s.trace ++ evs ++ [last] ∧
        loaderLog env s.trace evs = true ∧ last.failsWith env (s.trace ++ evs) err = true) ∧
    (addOrUpdateTracksInDB env s filesToUpdate cb st = .val (s1, st1, n1, none) →
      ∃ evs, s1.trace = s.trace ++ evs ∧ loaderLog env s.trace evs = true ∧
        n1 = putCount evs) := by
  constructor
  · intro err h
    exact updateChunks_outcome env cb _ s st 0 s1 st1 n1 (some err) h
  · intro h
    obtain ⟨evs, h1, h2, h3⟩ := updateChunks_outcome env cb _ s st 0 s1 st1 n1 none h
    exact ⟨evs, h1, h2, by simpa using h3⟩

/-- Witness for C16: the files `a.mp3` and `b.mp3` are loaded in one batch, the
record of `a.mp3` is put and accumulated, the `Put` of `b.mp3` fails. -/
theorem addOrUpdateTracksInDB_outcome_witness :
    ∃ s1, addOrUpdateTracksInDB putFailsEnv freshScanner ["music/a.mp3", "music/b.mp3"]
        (fun mf (u : Unit) => (mf, u)) () = .val (s1, (), 0, some "disk full") ∧
      ∃ evs last, s1.trace = freshScanner.trace ++ evs ++ [last] ∧
        loaderLog putFailsEnv freshScanner.trace evs = true ∧
        last.failsWith putFailsEnv (freshScanner.trace ++ evs) "disk full" = true ∧
        putCount evs = 1 := by
  have hrun : ∃ s1, addOrUpdateTracksInDB putFailsEnv freshScanner
      ["music/a.mp3", "music/b.mp3"] (fun mf (u : Unit) => (mf, u)) ()
        = .val (s1, (), 0, some "disk full") ∧ putCount s1.trace = 2 := ⟨_, rfl, by decide⟩
  obtain ⟨s1, h, hc⟩ := hrun
  obtain ⟨-, evs, last, h1, h2, h3⟩ :=
    (addOrUpdateTracksInDB_outcome putFailsEnv freshScanner ["music/a.mp3", "music/b.mp3"]
      (fun mf (u : Unit) => (mf, u)) () s1 () 0).1 "disk full" h
  refine ⟨s1, h, evs, last, h1, h2, h3, ?_⟩
  rw [h1, putCount_append, putCount_append] at hc
  have hlast : putCount [last] = 1 := by
    cases last <;> first | rfl | simp [Event.failsWith, putFailsEnv, updatedEnv] at h3
  have h0 : putCount freshScanner.trace = 0 := rfl
  omega

/-! ## Calls and counters along a pass -/

theorem removedCount_append (env : Env) (a b h : List Event) :
    removedCount env h (a ++ b) = removedCount env h a + removedCount env (h ++ a) b := by
  induction a generalizing h with
  | nil => simp [removedCount]
  | cons e a ih =>
    show removedBy env h e + removedCount env (h ++ [e]) (a ++ b) =
      removedBy env h e + removedCount env (h ++ [e]) a + removedCount env (h ++ e :: a) b
    rw [ih, List.append_assoc, List.singleton_append]
    ring

theorem removedCount_zero (env : Env) (evs h : List Event)
    (hq : ∀ e ∈ evs, e.isRemoval = false) : removedCount env h evs = 0 := by
  induction evs generalizing h with
  | nil => rfl
  | cons e evs ih =>
    have he := hq e (by simp)
    rw [removedCount, ih _ (fun e2 h2 => hq e2 (by simp [h2]))]
    cases e <;> simp_all [removedBy, Event.isRemoval]

theorem step_same (env : Env) (Q : Event → Bool) (s : TagScanner) : Step env Q s s :=
  ⟨[], by simp, by simp, rfl, by simp [removedCount]⟩

theorem step_then {env : Env} {Q : Event → Bool} {s s1 s2 : TagScanner}
    (h1 : Step env Q s s1) (h2 : Step env Q s1 s2) : Step env Q s s2 := by
  obtain ⟨e1, ht1, hq1, hu1, hd1⟩ := h1
  obtain ⟨e2, ht2, hq2, hu2, hd2⟩ := h2
  refine ⟨e1 ++ e2, by rw [ht2, ht1, List.append_assoc], ?_, hu2.trans hu1, ?_⟩
  · intro e he
    rcases List.mem_append.1 he with h | h
    · exact hq1 e h
    · exact hq2 e h
  · rw [removedCount_append, hd2, hd1, ht1]
    ring

theorem step_log (env : Env) (Q : Event → Bool) (s : TagScanner) (e : Event)
    (hq : Q e = true) (hr : e.isRemoval = false) : Step env Q s (s.log e) := by
  refine ⟨[e], rfl, by simpa using hq, rfl, ?_⟩
  rw [removedCount_zero env [e] s.trace (by simpa using hr)]
  simp [TagScanner.log]

theorem step_of_eq {env : Env} {Q : Event → Bool} {s s1 s2 : TagScanner}
    (h : Step env Q s s1) (ht : s2.trace = s1.trace) (hu : s2.cnt.updated = s1.cnt.updated)
    (hd : s2.cnt.deleted = s1.cnt.deleted) : Step env Q s s2 := by
  obtain ⟨e1, ht1, hq1, hu1, hd1⟩ := h
  exact ⟨e1, by rw [ht, ht1], hq1, hu.trans hu1, hd.trans hd1⟩

theorem step_mono {env : Env} {Q R : Event → Bool} {s s1 : TagScanner}
    (hQ : ∀ e, Q e = true → R e = true) (h : Step env Q s s1) : Step env R s s1 := by
  obtain ⟨e1, ht1, hq1, hu1, hd1⟩ := h
  exact ⟨e1, ht1, fun e he => hQ e (hq1 e he), hu1, hd1⟩

theorem addMediaForUpdate_added (s : TagScanner) (l : List String) (p : String)
    (v : GoMap String Unit) :
    (addMediaForUpdate s l p v).1.cnt.added + (l.length : Int) =
      s.cnt.added + ((addMediaForUpdate s l p v).2.length : Int) := by
  unfold addMediaForUpdate
  split
  · simp [counters.incAdded]
    ring
  · rfl

theorem handleMediaPath_step (env : Env) (fullScan : Bool)
    (cur : GoMap String (List MediaFile)) (p : String) (cb : Time → MediaFile → Bool)
    (s : TagScanner) (c : DirCtx) (s1 : TagScanner) (c1 : DirCtx) (b : Bool)
    (h : handleMediaPath env fullScan cur p cb s c = .val (s1, c1, b)) :
    Step env Event.inFolderLoop s s1 ∧
      s1.cnt.added + (c.filesToUpdate.length : Int) =
        s.cnt.added + (c1.filesToUpdate.length : Int) := by
  have hstat : Step env Event.inFolderLoop s (s.log (.stat p)) := step_log env _ s _ rfl rfl
  have hadd := addMediaForUpdate_frame (s.log (.stat p)) c.filesToUpdate p c.visitedPaths
  have hcnt := addMediaForUpdate_added (s.log (.stat p)) c.filesToUpdate p c.visitedPaths
  have hq : Step env Event.inFolderLoop s
      (addMediaForUpdate (s.log (.stat p)) c.filesToUpdate p c.visitedPaths).1 :=
    step_of_eq hstat hadd.1 hadd.2.2 hadd.2.1
  unfold handleMediaPath at h
  split at h
  · cases h
    exact ⟨hstat, rfl⟩
  · split at h
    · cases h
      exact ⟨hq, hcnt⟩
    · split at h
      · cases h
        exact ⟨hq, hcnt⟩
      · split at h
        · cases h
        · rename_i t0 rest
          cases h
          split
          · exact ⟨step_then hq (step_log env _ _ _ rfl rfl), hcnt⟩
          · exact ⟨step_then hstat (step_log env _ _ _ rfl rfl), rfl⟩

theorem visitCueFiles_step (env : Env) (fullScan : Bool)
    (cur : GoMap String (List MediaFile)) (filePath : String) (cueInfo : FileInfo)
    (cue : Cuesheet) (l : List CueFile) (s : TagScanner) (c : DirCtx) (s1 : TagScanner)
    (c1 : DirCtx)
    (h : visitCueFiles env fullScan cur filePath cueInfo cue l s c = .val (s1, c1)) :
    Step env Event.inFolderLoop s s1 ∧
      s1.cnt.added + (c.filesToUpdate.length : Int) =
        s.cnt.added + (c1.filesToUpdate.length : Int) := by
  induction l generalizing s c with
  | nil =>
    simp only [visitCueFiles] at h
    cases h
    exact ⟨step_same _ _ _, rfl⟩
  | cons f l ih =>
    rw [visitCueFiles] at h
    split at h
    · cases h
    · rename_i s2 c2 hh
      have h1 := handleMediaPath_step _ _ _ _ _ _ _ _ _ _ hh
      have h2 := ih _ _ h
      refine ⟨step_then (step_of_eq h1.1 rfl rfl rfl) h2.1, ?_⟩
      have h3 := h2.2
      have h4 := h1.2
      simp only at h3
      omega
    · rename_i s2 c2 hh
      have h1 := handleMediaPath_step _ _ _ _ _ _ _ _ _ _ hh
      have h2 := ih _ _ h
      refine ⟨step_then h1.1 h2.1, ?_⟩
      have h3 := h2.2
      have h4 := h1.2
      omega

theorem visitEntry_step (env : Env) (fullScan : Bool)
    (cur : GoMap String (List MediaFile)) (filePath : String)
    (s : TagScanner) (c : DirCtx) (s1 : TagScanner) (c1 : DirCtx)
    (h : visitEntry env fullScan cur filePath s c = .val (s1, c1)) :
    Step env Event.inFolderLoop s s1 ∧
      s1.cnt.added + (c.filesToUpdate.length : Int) =
        s.cnt.added + (c1.filesToUpdate.length : Int) := by
  unfold visitEntry at h
  split at h
  · split at h
    · cases h
      exact ⟨step_log env _ _ _ rfl rfl, rfl⟩
    · dsimp only at h
      split at h
      · cases h
        exact ⟨step_then (step_log env _ s (.entryInfo filePath) rfl rfl)
          (step_log env _ _ (.readFromFile filePath) rfl rfl), rfl⟩
      · have h2 := visitCueFiles_step _ _ _ _ _ _ _ _ _ _ _ h
        exact ⟨step_then (step_then (step_log env _ s (.entryInfo filePath) rfl rfl)
          (step_log env _ _ (.readFromFile filePath) rfl rfl)) h2.1, h2.2⟩
  · split at h
    · cases h
    · rename_i s2 c2 b hh
      cases h
      exact handleMediaPath_step _ _ _ _ _ _ _ _ _ _ hh

theorem visitEntries_step (env : Env) (fullScan : Bool)
    (cur : GoMap String (List MediaFile)) (l : List (String × DirEntry))
    (s : TagScanner) (c : DirCtx) (s1 : TagScanner) (c1 : DirCtx)
    (h : visitEntries env fullScan cur l s c = .val (s1, c1)) :
    Step env Event.inFolderLoop s s1 ∧
      s1.cnt.added + (c.filesToUpdate.length : Int) =
        s.cnt.added + (c1.filesToUpdate.length : Int) := by
  induction l generalizing s c with
  | nil =>
    simp only [visitEntries] at h
    cases h
    exact ⟨step_same _ _ _, rfl⟩
  | cons kv l ih =>
    rw [visitEntries] at h
    split at h
    · cases h
    · rename_i s2 c2 hh
      have h1 := visitEntry_step _ _ _ _ _ _ _ _ hh
      have h2 := ih _ _ h
      refine ⟨step_then h1.1 h2.1, ?_⟩
      have h3 := h2.2
      have h4 := h1.2
      omega

theorem loaderLog_kinds (env : Env) (evs h : List Event) (hl : loaderLog env h evs = true) :
    ∀ e ∈ evs, e.inFolderLoop = true ∧ e.isRemoval = false := by
  induction evs generalizing h with
  | nil => simp
  | cons e evs ih =>
    rw [loaderLog, Bool.and_eq_true] at hl
    intro e2 he2
    rcases List.mem_cons.1 he2 with h2 | h2
    · subst h2
      have h1 := hl.1
      cases e2 <;> first | exact ⟨rfl, rfl⟩ | simp [loaderStep] at h1
    · exact ih _ hl.2 e2 h2

theorem failsWith_kinds (env : Env) (h : List Event) (err : GoError) (e : Event)
    (hf : e.failsWith env h err = true) : e.inFolderLoop = true ∧ e.isRemoval = false := by
  cases e <;> first | exact ⟨rfl, rfl⟩ | simp [Event.failsWith] at hf

theorem updateChunks_step (env : Env) (cur : GoMap String (List MediaFile))
    (chunks : List (List String)) (s : TagScanner) (o : GoMap String MediaFile) (n : Int)
    (s1 : TagScanner) (o1 : GoMap String MediaFile) (n1 : Int) (err : Option GoError)
    (h : updateChunks env (keepAnnotations cur) chunks s o n = .val (s1, o1, n1, err)) :
    Step env Event.inFolderLoop s s1 ∧ s1.cnt = s.cnt := by
  have hinv := updateChunks_inv env cur chunks s o n s1 o1 n1 err h
  have hout := updateChunks_outcome env (keepAnnotations cur) chunks s o n s1 o1 n1 err h
  refine ⟨?_, hinv.2.1⟩
  cases err with
  | none =>
    obtain ⟨evs, ht, hl, -⟩ := hout
    have hk := loaderLog_kinds env evs s.trace hl
    refine ⟨evs, ht, fun e he => (hk e he).1, by rw [hinv.2.1], ?_⟩
    rw [removedCount_zero env evs s.trace (fun e he => (hk e he).2), hinv.2.1]
    simp
  | some e0 =>
    obtain ⟨-, evs, last, ht, hl, hf⟩ := hout
    have hk := loaderLog_kinds env evs s.trace hl
    have hk2 := failsWith_kinds env _ _ _ hf
    have hall : ∀ e ∈ evs ++ [last], e.inFolderLoop = true ∧ e.isRemoval = false := by
      intro e he
      rcases List.mem_append.1 he with h1 | h1
      · exact hk e h1
      · simp only [List.mem_singleton] at h1
        subst h1
        exact hk2
    refine ⟨evs ++ [last], by rw [ht, List.append_assoc], fun e he => (hall e he).1,
      by rw [hinv.2.1], ?_⟩
    rw [removedCount_zero env _ s.trace (fun e he => (hall e he).2), hinv.2.1]
    simp

theorem deleteOrphanLoop_step (env : Env) (l : List (String × MediaFile)) (s : TagScanner)
    (n : Int) : Step env Event.inFolderLoop s (deleteOrphanLoop env l s n).1 := by
  induction l generalizing s n with
  | nil => exact step_same _ _ _
  | cons kv l ih =>
    rw [deleteOrphanLoop]
    have hacc : Step env Event.inFolderLoop s (s.log (.accumulate kv.2)) :=
      step_log env _ s _ rfl rfl
    have htr : (s.log (.accumulate kv.2)).trace = s.trace ++ [.accumulate kv.2] := rfl
    cases hdel : env.delete (s.log (.accumulate kv.2)).trace kv.2.ID with
    | some err =>
      refine step_then hacc ⟨[.delete kv.2.ID], rfl, by simp [Event.inFolderLoop], rfl, ?_⟩
      rw [htr] at hdel
      simp [removedCount, removedBy, hdel, TagScanner.log]
    | none =>
      rw [htr] at hdel
      have hstep : Step env Event.inFolderLoop (s.log (.accumulate kv.2))
          { (s.log (.accumulate kv.2)).log (.delete kv.2.ID) with
            cnt := ((s.log (.accumulate kv.2)).log (.delete kv.2.ID)).cnt.addDeleted 1 } := by
        refine ⟨[.delete kv.2.ID], rfl, by simp [Event.inFolderLoop], rfl, ?_⟩
        simp [removedCount, removedBy, hdel, TagScanner.log, counters.addDeleted]
      exact step_then (step_then hacc hstep) (ih _ _)

theorem deleteOrphanLoop_added (env : Env) (l : List (String × MediaFile)) (s : TagScanner)
    (n : Int) : (deleteOrphanLoop env l s n).1.cnt.added = s.cnt.added :=
  (deleteOrphanLoop_frame env l s n).2.1

theorem processChangedDirPass_step (env : Env) (s : TagScanner) (fullScan : Bool)
    (dir : String) (P : DirPass) (hP : processChangedDirPass env s fullScan dir = .val P) :
    Step env Event.inFolderLoop s P.s ∧
      P.s.cnt.added = s.cnt.added + (P.filesToUpdate.length : Int) := by
  have h1 : Step env Event.inFolderLoop s (s.log (.findAllByPath dir)) :=
    step_log env _ s _ rfl rfl
  unfold processChangedDirPass at hP
  dsimp only at hP
  split at hP
  · cases hP
    exact ⟨h1, by simp [TagScanner.log]⟩
  · rename_i ct hct
    have h2 : Step env Event.inFolderLoop s
        (loadAllAudioFiles env (s.log (.findAllByPath dir)) dir env.CUESheetSupport).1 := by
      rw [loadAllAudioFiles_state]
      exact step_then h1 (step_log env _ _ _ rfl rfl)
    have h2c : (loadAllAudioFiles env (s.log (.findAllByPath dir)) dir
        env.CUESheetSupport).1.cnt = s.cnt := by
      rw [loadAllAudioFiles_state]
      rfl
    split at hP
    · rename_i s2 err hla
      cases hP
      rw [hla] at h2 h2c
      exact ⟨h2, by rw [h2c]; simp⟩
    · rename_i s2 files hla
      rw [hla] at h2 h2c
      simp only at h2 h2c
      split at hP
      · cases hP
        exact ⟨h2, by rw [h2c]; simp⟩
      · split at hP
        · cases hP
        · rename_i s3 c hvis
          obtain ⟨h3, h3a⟩ := visitEntries_step _ _ _ _ _ _ _ _ hvis
          simp only [List.length_nil, Nat.cast_zero, add_zero] at h3a
          rw [h2c] at h3a
          split at hP
          · cases hP
          · rename_i s4 orphans n4 err hupd
            cases hP
            have h4 : Step env Event.inFolderLoop s3 s4 ∧ s4.cnt = s3.cnt := by
              split at hupd
              · exact updateChunks_step _ _ _ _ _ _ _ _ _ _ hupd
              · cases hupd
            exact ⟨step_then (step_then h2 h3) h4.1, by rw [h4.2, h3a]⟩
          · rename_i s4 orphans n4 hupd
            have h4 : Step env Event.inFolderLoop s3 s4 ∧ s4.cnt = s3.cnt := by
              split at hupd
              · exact updateChunks_step _ _ _ _ _ _ _ _ _ _ hupd
              · cases hupd
                exact ⟨step_same _ _ _, rfl⟩
            have h5 := deleteOrphanLoop_step env (env.order.range orphans.entries) s4 0
            have h5a := deleteOrphanLoop_added env (env.order.range orphans.entries) s4 0
            split at hP
            · rename_i s5 n5 err hpur
              cases hP
              split at hpur
              · unfold deleteOrphanSongs at hpur
                rw [hpur] at h5 h5a
                exact ⟨step_then (step_then (step_then h2 h3) h4.1) h5,
                  by rw [h5a, h4.2, h3a]⟩
              · cases hpur
            · rename_i s5 n5 hpur
              cases hP
              split at hpur
              · unfold deleteOrphanSongs at hpur
                rw [hpur] at h5 h5a
                exact ⟨step_then (step_then (step_then (step_then h2 h3) h4.1) h5)
                  (step_log env _ _ _ rfl rfl), by
                    show s5.cnt.added = _
                    rw [h5a, h4.2, h3a]⟩
              · cases hpur
                exact ⟨step_then (step_then (step_then h2 h3) h4.1)
                  (step_log env _ _ _ rfl rfl), by
                    show s4.cnt.added = _
                    rw [h4.2, h3a]⟩

theorem scanFolders_step (env : Env) (t : Time) (fullScan : Bool)
    (allDBDirs : GoMap String Unit) (walk : List dirStats) (s : TagScanner) (fs : dirMap)
    (changed : List String) (s1 : TagScanner) (fs1 : dirMap) (changed1 : List String)
    (h : scanFolders env t fullScan allDBDirs walk s fs changed = .val (s1, fs1, changed1)) :
    Step env Event.inFolderLoop s s1 := by
  induction walk generalizing s fs changed with
  | nil =>
    simp only [scanFolders] at h
    cases h
    exact step_same _ _ _
  | cons f walk ih =>
    rw [scanFolders] at h
    have h1 : Step env Event.inFolderLoop s (s.log (.progress f.AudioFilesCount)) :=
      step_log env _ s _ rfl rfl
    split at h
    · split at h
      · cases h
      · rename_i s2 e hp
        unfold processChangedDir at hp
        split at hp
        · cases hp
        · rename_i P hP
          cases hp
          exact step_then (step_then h1 (processChangedDirPass_step _ _ _ _ _ hP).1) (ih _ _ _ h)
    · exact step_then h1 (ih _ _ _ h)

/-! ## The pass after its prologue -/

theorem Scan_eq (env : Env) (s : TagScanner) (t : Time) (r : List String × dirStats)
    (dirs : List String)
    (hload : env.loadDir (s.trace ++ [.withAdminUser]) s.rootFolder = .ok r)
    (hguard : (decide (r.1.length = 0) && decide (r.2.AudioFilesCount = 0) && !t.IsZero) = false)
    (hdb : env.findPathsRecursively (s.trace ++ [.withAdminUser, .loadDir s.rootFolder])
      s.rootFolder = .ok dirs) :
    Scan env s t =
      match scanFolders env t t.IsZero (dbDirTree dirs) (walkOf env s).1 (walkStart s)
          GoMap.empty [] with
      | .panic => .panic
      | .val (s5, allFSDirs, changedDirs) =>
        match (walkOf env s).2 with
        | some err => .val (s5, 0, some err)
        | none =>
          let deletedDirs := getDeletedDirs env.order allFSDirs (dbDirTree dirs)
          if deletedDirs.length + changedDirs.length = 0 then .val (s5, 0, none)
          else
            let s6 := processDeletedDirs env deletedDirs s5
            let s7 := { s6 with cnt := { s6.cnt with playlists := 0 } }
            let s8 :=
              if env.AutoImportPlaylists then
                importPlaylists env (env.adminUser s.trace) allFSDirs changedDirs s7
              else s7
            let s9 := s8.log (.gc s8.rootFolder)
            .val (s9, s9.cnt.total, env.gc s8.trace s8.rootFolder) := by
  have h1 : env.loadDir (s.log .withAdminUser).trace (s.log .withAdminUser).rootFolder
      = .ok r := hload
  have h2 : env.findPathsRecursively
      ((s.log .withAdminUser).log (.loadDir (s.log .withAdminUser).rootFolder)).trace
      ((s.log .withAdminUser).log (.loadDir (s.log .withAdminUser).rootFolder)).rootFolder
      = .ok dirs := by
    simpa [TagScanner.log] using hdb
  unfold Scan
  simp only [isDirEmpty, h1, hguard, getDBDirTree, h2, Bool.false_eq_true, if_false]
  rfl

theorem walkStart_trace (s : TagScanner) :
    (walkStart s).trace = s.trace ++ [.withAdminUser, .loadDir s.rootFolder,
      .findPathsRecursively s.rootFolder, .walkDirTree s.rootFolder] := by
  simp [walkStart, afterPrologue, TagScanner.log]

theorem afterPrologue_trace (s : TagScanner) :
    (afterPrologue s).trace = s.trace ++ [.withAdminUser, .loadDir s.rootFolder,
      .findPathsRecursively s.rootFolder] := by
  simp [afterPrologue, TagScanner.log]

/-! ## Walker errors -/

theorem walker_error_returns (env : Env) (s : TagScanner) (t : Time)
    (r : List String × dirStats) (dirs : List String) (err : GoError)
    (hload : env.loadDir (s.trace ++ [.withAdminUser]) s.rootFolder = .ok r)
    (hguard : (decide (r.1.length = 0) && decide (r.2.AudioFilesCount = 0) && !t.IsZero) = false)
    (hdb : env.findPathsRecursively (s.trace ++ [.withAdminUser, .loadDir s.rootFolder])
      s.rootFolder = .ok dirs)
    (hwalk : (walkOf env s).2 = some err)
    (hrun : Scan env s t ≠ .panic) :
    ∃ s5 fs changed, scanFolders env t t.IsZero (dbDirTree dirs) (walkOf env s).1 (walkStart s)
        GoMap.empty [] = .val (s5, fs, changed) ∧
      Scan env s t = .val (s5, 0, some err) := by
  rw [Scan_eq env s t r dirs hload hguard hdb] at hrun ⊢
  cases hloop : scanFolders env t t.IsZero (dbDirTree dirs) (walkOf env s).1 (walkStart s)
      GoMap.empty [] with
  | panic =>
    rw [hloop] at hrun
    exact absurd rfl hrun
  | val res =>
    obtain ⟨s5, fs, changed⟩ := res
    refine ⟨s5, fs, changed, rfl, ?_⟩
    simp only [hwalk]

/-- C17: when the prologue of `Scan` succeeds and the walker reports an error,
a pass whose folder passes do not panic returns that error with the count 0.
All it did after starting the walker is to report progress and to run the
folder pass of the changed folders it received: among the calls of the whole
pass there is no `DeleteByPath`, no playlist import and no garbage collection,
so no directory is purged for being absent from the incomplete walk. -/
theorem Scan_walker_error (env : Env) (s : TagScanner) (t : Time)
    (r : List String × dirStats) (dirs : List String) (err : GoError)
    (hload : env.loadDir (s.trace ++ [.withAdminUser]) s.rootFolder = .ok r)
    (hguard : (decide (r.1.length = 0) && decide (r.2.AudioFilesCount = 0) && !t.IsZero) = false)
    (hdb : env.findPathsRecursively (s.trace ++ [.withAdminUser, .loadDir s.rootFolder])
      s.rootFolder = .ok dirs)
    (hwalk : (walkOf env s).2 = some err)
    (hrun : Scan env s t ≠ .panic) :
    ∃ s1 evs, Scan env s t = .val (s1, 0, some err) ∧
      s1.trace = s.trace ++ evs ∧
      (∀ d, Event.deleteByPath d ∉ evs) ∧ (∀ d, Event.processPlaylists d ∉ evs) ∧
      (∀ d, Event.gc d ∉ evs) ∧
      ∃ evs1, evs = [.withAdminUser, .loadDir s.rootFolder, .findPathsRecursively s.rootFolder,
          .walkDirTree s.rootFolder] ++ evs1 ∧ ∀ e ∈ evs1, e.inFolderLoop = true := by
  obtain ⟨s5, fs, changed, hloop, hscan⟩ :=
    walker_error_returns env s t r dirs err hload hguard hdb hwalk hrun
  obtain ⟨evs1, ht, hq, -, -⟩ := scanFolders_step _ _ _ _ _ _ _ _ _ _ _ hloop
  have hno : ∀ e ∈ [Event.withAdminUser, .loadDir s.rootFolder,
      .findPathsRecursively s.rootFolder, .walkDirTree s.rootFolder] ++ evs1,
      (∀ d, e ≠ Event.deleteByPath d) ∧ (∀ d, e ≠ Event.processPlaylists d) ∧
        (∀ d, e ≠ Event.gc d) := by
    intro e he
    rcases List.mem_append.1 he with h1 | h1
    · simp only [List.mem_cons, List.mem_singleton, List.not_mem_nil, or_false] at h1
      rcases h1 with h1 | h1 | h1 | h1 <;> subst h1 <;> simp
    · have := hq e h1
      cases e <;> simp_all [Event.inFolderLoop]
  refine ⟨s5, _, hscan, ?_, ?_, ?_, ?_, evs1, rfl, hq⟩
  · rw [ht, walkStart_trace, List.append_assoc]
  · exact fun d hd => (hno _ hd).1 d rfl
  · exact fun d hd => (hno _ hd).2.1 d rfl
  · exact fun d hd => (hno _ hd).2.2 d rfl

/-- Witness for C17: the walker delivers `music` and then fails -/
theorem Scan_walker_error_witness :
    ∃ s1 evs, Scan walkFailsEnv freshScanner 5 = .val (s1, 0, some "walk failed") ∧
      s1.trace = freshScanner.trace ++ evs ∧
      (∀ d, Event.deleteByPath d ∉ evs) ∧ (∀ d, Event.processPlaylists d ∉ evs) ∧
      (∀ d, Event.gc d ∉ evs) := by
  obtain ⟨s1, evs, h1, h2, h3, h4, h5, -⟩ :=
    Scan_walker_error walkFailsEnv freshScanner 5 ([], ⟨"music", 20, false, 1⟩) ["music"]
      "walk failed" rfl (by decide) rfl rfl (by
        have h0 : ∃ x, Scan walkFailsEnv freshScanner 5 = .val x := ⟨_, rfl⟩
        obtain ⟨x, hx⟩ := h0
        rw [hx]
        exact fun h => Ret.noConfusion h)
  exact ⟨s1, evs, h1, h2, h3, h4, h5⟩

/-- C18 (amended): when `Scan` returns an error, either the count is 0 and the
error is that of the listing of the root, of the load of the catalog folders or
of the walker, or the count is `added + updated + deleted` of the counters at
the return and the error is that of the garbage collection, the last call of
the pass. An error of a folder pass or of the purge of a deleted directory is
never returned. -/
theorem Scan_error_count (env : Env) (s : TagScanner) (t : Time) (s1 : TagScanner) (n : Int)
    (err : GoError) (h : Scan env s t = .val (s1, n, some err)) :
    (n = 0 ∧
      (env.loadDir (s.trace ++ [.withAdminUser]) s.rootFolder = .error err ∨
       env.findPathsRecursively (s.trace ++ [.withAdminUser, .loadDir s.rootFolder])
         s.rootFolder = .error err ∨
       (walkOf env s).2 = some err)) ∨
    (n = s1.cnt.total ∧
      ∃ tr, s1.trace = tr ++ [.gc s1.rootFolder] ∧ env.gc tr s1.rootFolder = some err) := by
  cases hload : env.loadDir (s.trace ++ [.withAdminUser]) s.rootFolder with
  | error e0 =>
    have h1 : env.loadDir (s.log .withAdminUser).trace (s.log .withAdminUser).rootFolder
        = .error e0 := hload
    unfold Scan at h
    simp only [isDirEmpty, h1] at h
    cases h
    exact Or.inl ⟨rfl, Or.inl rfl⟩
  | ok r =>
    cases hguard : (decide (r.1.length = 0) && decide (r.2.AudioFilesCount = 0) && !t.IsZero) with
    | true =>
      have h1 : env.loadDir (s.log .withAdminUser).trace (s.log .withAdminUser).rootFolder
          = .ok r := hload
      unfold Scan at h
      simp only [isDirEmpty, h1, hguard, if_true] at h
      cases h
    | false =>
      cases hdb : env.findPathsRecursively (s.trace ++ [.withAdminUser, .loadDir s.rootFolder])
          s.rootFolder with
      | error e0 =>
        have h1 : env.loadDir (s.log .withAdminUser).trace (s.log .withAdminUser).rootFolder
            = .ok r := hload
        have h2 : env.findPathsRecursively
            ((s.log .withAdminUser).log (.loadDir (s.log .withAdminUser).rootFolder)).trace
            ((s.log .withAdminUser).log (.loadDir (s.log .withAdminUser).rootFolder)).rootFolder
            = .error e0 := by
          simpa [TagScanner.log] using hdb
        unfold Scan at h
        simp only [isDirEmpty, h1, hguard, getDBDirTree, h2, Bool.false_eq_true, if_false] at h
        cases h
        exact Or.inl ⟨rfl, Or.inr (Or.inl rfl)⟩
      | ok dirs =>
        rw [Scan_eq env s t r dirs hload hguard hdb] at h
        split at h
        · cases h
        · rename_i s5 fs changed hloop
          split at h
          · rename_i e0 hw
            cases h
            exact Or.inl ⟨rfl, Or.inr (Or.inr hw)⟩
          · dsimp only at h
            split at h
            · cases h
            · simp only [Ret.val.injEq, Prod.mk.injEq] at h
              obtain ⟨h1, h2, h3⟩ := h
              subst h1
              subst h2
              exact Or.inr ⟨rfl, _, rfl, h3⟩

/-- Witness for C18 (amended): the walker fails after one changed folder -/
theorem Scan_error_count_witness :
    ∃ s1, Scan walkFailsEnv freshScanner 5 = .val (s1, 0, some "walk failed") ∧
      (((0 : Int) = 0 ∧
        (walkFailsEnv.loadDir (freshScanner.trace ++ [.withAdminUser]) freshScanner.rootFolder
            = .error "walk failed" ∨
         walkFailsEnv.findPathsRecursively
            (freshScanner.trace ++ [.withAdminUser, .loadDir freshScanner.rootFolder])
            freshScanner.rootFolder = .error "walk failed" ∨
         (walkOf walkFailsEnv freshScanner).2 = some "walk failed")) ∨
       ((0 : Int) = s1.cnt.total ∧
        ∃ tr, s1.trace = tr ++ [.gc s1.rootFolder] ∧
          walkFailsEnv.gc tr s1.rootFolder = some "walk failed")) := by
  have hrun : ∃ s1, Scan walkFailsEnv freshScanner 5 = .val (s1, 0, some "walk failed") :=
    ⟨_, rfl⟩
  obtain ⟨s1, h⟩ := hrun
  exact ⟨s1, h, Scan_error_count walkFailsEnv freshScanner 5 s1 0 "walk failed" h⟩

/-- C18 (counterexample): the walker delivers the changed folder `music` and
then fails. The folder pass has queued `a.mp3` and put its record, so the
counters hold `added = 1` when `Scan` ends with the walker error, but the count
it returns is 0. -/
theorem walker_count_dropped_counterexample :
    ∃ s1, Scan walkFailsEnv freshScanner 5 = .val (s1, 0, some "walk failed") ∧
      s1.cnt.added = 1 ∧ s1.cnt.total = 1 ∧ putCount s1.trace = 1 := by
  refine ⟨_, rfl, ?_, ?_, ?_⟩ <;> decide

/-! ## Counters and commits -/

theorem processDeletedDir_step (env : Env) (s : TagScanner) (dir : String) :
    Step env Event.anyCall s (processDeletedDir env s dir).1 := by
  have h1 : Step env Event.anyCall s (s.log (.findAllByPath dir)) := step_log env _ s _ rfl rfl
  have htr : (s.log (.findAllByPath dir)).trace = s.trace ++ [.findAllByPath dir] := rfl
  unfold processDeletedDir
  dsimp only
  split
  · exact h1
  · rename_i mfs hfind
    cases hdel : env.deleteByPath (s.log (.findAllByPath dir)).trace dir with
    | error err =>
      rw [htr] at hdel
      refine step_then h1 ⟨[.deleteByPath dir], rfl, by simp [Event.anyCall], rfl, ?_⟩
      simp [removedCount, removedBy, hdel, TagScanner.log]
    | ok c =>
      rw [htr] at hdel
      have h2 : Step env Event.anyCall (s.log (.findAllByPath dir))
          { (s.log (.findAllByPath dir)).log (.deleteByPath dir) with
            cnt := ((s.log (.findAllByPath dir)).log (.deleteByPath dir)).cnt.addDeleted c } := by
        refine ⟨[.deleteByPath dir], rfl, by simp [Event.anyCall], rfl, ?_⟩
        simp [removedCount, removedBy, hdel, TagScanner.log, counters.addDeleted]
      have hacc := accumulate_all mfs
        { (s.log (.findAllByPath dir)).log (.deleteByPath dir) with
          cnt := ((s.log (.findAllByPath dir)).log (.deleteByPath dir)).cnt.addDeleted c }
      have h3 : Step env Event.anyCall
          { (s.log (.findAllByPath dir)).log (.deleteByPath dir) with
            cnt := ((s.log (.findAllByPath dir)).log (.deleteByPath dir)).cnt.addDeleted c }
          (mfs.foldl (fun st t => st.log (.accumulate t))
            { (s.log (.findAllByPath dir)).log (.deleteByPath dir) with
              cnt := ((s.log (.findAllByPath dir)).log (.deleteByPath dir)).cnt.addDeleted c }) := by
        refine ⟨mfs.map Event.accumulate, hacc.2, fun _ _ => rfl, by rw [hacc.1], ?_⟩
        rw [removedCount_zero env _ _ (by
          intro e he
          obtain ⟨t, -, rfl⟩ := List.mem_map.1 he
          rfl), hacc.1]
        simp
      exact step_then (step_then (step_then h1 h2) h3) (step_log env _ _ _ rfl rfl)

theorem processDeletedDirs_step (env : Env) (dirs : List String) (s : TagScanner) :
    Step env Event.anyCall s (processDeletedDirs env dirs s) ∧
      (processDeletedDirs env dirs s).cnt.added = s.cnt.added := by
  induction dirs generalizing s with
  | nil => exact ⟨step_same _ _ _, rfl⟩
  | cons d dirs ih =>
    rw [processDeletedDirs]
    refine ⟨step_then (processDeletedDir_step env s d) (ih _).1, ?_⟩
    rw [(ih _).2]
    unfold processDeletedDir
    dsimp only
    split
    · rfl
    · split
      · rfl
      · rw [show ∀ x : TagScanner, (x.log .flush).cnt = x.cnt from fun _ => rfl,
          (accumulate_all _ _).1]
        rfl

theorem importPlaylists_step (env : Env) (isAdmin : Bool) (fs : dirMap) (dirs : List String)
    (s : TagScanner) :
    Step env Event.anyCall s (importPlaylists env isAdmin fs dirs s) ∧
      (importPlaylists env isAdmin fs dirs s).cnt.added = s.cnt.added := by
  induction dirs generalizing s with
  | nil => exact ⟨step_same _ _ _, rfl⟩
  | cons d dirs ih =>
    rw [importPlaylists]
    dsimp only
    split
    · split
      · exact ih s
      · have h1 : Step env Event.anyCall s
            { s.log (.processPlaylists d) with
              cnt := { (s.log (.processPlaylists d)).cnt with
                playlists := env.processPlaylists s.trace d } } :=
          step_of_eq (step_log env _ s (.processPlaylists d) rfl rfl) rfl rfl rfl
        exact ⟨step_then h1 (ih _).1, (ih _).2⟩
    · exact ih s

theorem Scan_step (env : Env) (s : TagScanner) (t : Time) (r : List String × dirStats)
    (dirs : List String) (s1 : TagScanner) (n : Int) (e : Option GoError)
    (hload : env.loadDir (s.trace ++ [.withAdminUser]) s.rootFolder = .ok r)
    (hguard : (decide (r.1.length = 0) && decide (r.2.AudioFilesCount = 0) && !t.IsZero) = false)
    (hdb : env.findPathsRecursively (s.trace ++ [.withAdminUser, .loadDir s.rootFolder])
      s.rootFolder = .ok dirs)
    (h : Scan env s t = .val (s1, n, e)) :
    Step env Event.anyCall (walkStart s) s1 := by
  rw [Scan_eq env s t r dirs hload hguard hdb] at h
  split at h
  · cases h
  · rename_i s5 fs changed hloop
    have h5 : Step env Event.anyCall (walkStart s) s5 :=
      step_mono (fun _ _ => rfl) (scanFolders_step _ _ _ _ _ _ _ _ _ _ _ hloop)
    split at h
    · cases h
      exact h5
    · dsimp only at h
      split at h
      · cases h
        exact h5
      · simp only [Ret.val.injEq, Prod.mk.injEq] at h
        obtain ⟨h1, -, -⟩ := h
        subst h1
        have h6 := (processDeletedDirs_step env
          (getDeletedDirs env.order fs (dbDirTree dirs)) s5).1
        have h7 : Step env Event.anyCall s5
            { processDeletedDirs env (getDeletedDirs env.order fs (dbDirTree dirs)) s5 with
              cnt := { (processDeletedDirs env
                (getDeletedDirs env.order fs (dbDirTree dirs)) s5).cnt with playlists := 0 } } :=
          step_of_eq h6 rfl rfl rfl
        refine step_then (step_then h5 (step_then h7 ?_)) (step_log env _ _ _ rfl rfl)
        split
        · exact (importPlaylists_step env _ fs changed _).1
        · exact step_same _ _ _

/-- The counters along a pass: a folder pass adds to `added` the number of paths
it queued for extraction, whether or not their records were then put, and never
changes `updated`; a pass of `Scan` that gets past its prologue returns with
`updated = 0`, and with `deleted` raised once per `Delete` that returned no
error and by the count of each successful `DeleteByPath`. -/
theorem counters_follow_calls (env : Env) (s : TagScanner) :
    (∀ fullScan dir P, processChangedDirPass env s fullScan dir = .val P →
      P.s.cnt.added = s.cnt.added + (P.filesToUpdate.length : Int) ∧
      P.s.cnt.updated = s.cnt.updated ∧
      ∃ evs, P.s.trace = s.trace ++ evs ∧
        P.s.cnt.deleted = s.cnt.deleted + removedCount env s.trace evs) ∧
    (∀ t r dirs s1 n e,
      env.loadDir (s.trace ++ [.withAdminUser]) s.rootFolder = .ok r →
      (decide (r.1.length = 0) && decide (r.2.AudioFilesCount = 0) && !t.IsZero) = false →
      env.findPathsRecursively (s.trace ++ [.withAdminUser, .loadDir s.rootFolder])
        s.rootFolder = .ok dirs →
      Scan env s t = .val (s1, n, e) →
      s1.cnt.updated = 0 ∧
      ∃ evs, s1.trace = (walkStart s).trace ++ evs ∧
        s1.cnt.deleted = removedCount env (walkStart s).trace evs) := by
  constructor
  · intro fullScan dir P hP
    obtain ⟨⟨evs, ht, -, hu, hd⟩, ha⟩ := processChangedDirPass_step env s fullScan dir P hP
    exact ⟨ha, hu, evs, ht, hd⟩
  · intro t r dirs s1 n e hload hguard hdb h
    obtain ⟨evs, ht, -, hu, hd⟩ := Scan_step env s t r dirs s1 n e hload hguard hdb h
    refine ⟨hu, evs, ht, ?_⟩
    rw [hd]
    show (0 : Int) + _ = _
    simp

/-- C19 (code at the failing input): the catalog holds the records of `a.mp3`
and `b.mp3`, identified by their paths; on disk `a.mp3` is newer than its record
and `b.mp3` is gone; no call fails. The pass puts one record, under the identity
`music/a.mp3` that the catalog already holds, and its only removal call is a
`Delete` of the empty identity, which is the identity of neither record. It
returns 2 with `added = 1`, `updated = 0` and `deleted = 1`: the update is
counted as an addition, and a deletion is counted although the record of
`b.mp3` was not removed. -/
theorem Scan_counts_update_as_added :
    ∃ s1, Scan staleCatalogEnv freshScanner 5 = .val (s1, 2, none) ∧
      (∀ h dir, staleCatalogEnv.findAllByPath h dir =
        .ok [record "music/a.mp3" "music/a.mp3" "al-a" "ar-a" 10,
             record "music/b.mp3" "music/b.mp3" "al-b" "ar-b" 10]) ∧
      (∀ h id, staleCatalogEnv.delete h id = none) ∧
      s1.trace.filter Event.isPut =
        [.put { MediaFile.zero with ID := "music/a.mp3", Path := "music/a.mp3" }] ∧
      s1.trace.filter Event.isRemoval = [.delete ""] ∧
      s1.cnt.added = 1 ∧ s1.cnt.updated = 0 ∧ s1.cnt.deleted = 1 := by
  refine ⟨_, rfl, fun _ _ => rfl, fun _ _ => rfl, ?_, ?_, ?_, ?_, ?_⟩ <;> decide

/-! ## Flushing the refresh accumulator -/

theorem pendingRefresh_flush (tr : List Event) : pendingRefresh (tr ++ [.flush]) = [] := by
  simp [pendingRefresh, List.foldl_append]

/-- C20 (amended): a folder pass that returns without error either found
nothing to do, having only loaded the records and listed the folder, or made
`flush` its last call, which leaves the accumulator empty. The purge of a
deleted directory that returns without error made `flush` its last call. -/
theorem directory_pass_flushes (env : Env) (s : TagScanner) (dir : String) :
    (∀ fullScan P, processChangedDirPass env s fullScan dir = .val P → P.err = none →
      P.s.trace = s.trace ++ [.findAllByPath dir, .readDir dir] ∨
      ((∃ tr, P.s.trace = tr ++ [.flush]) ∧ pendingRefresh P.s.trace = [])) ∧
    ((processDeletedDir env s dir).2 = none →
      (∃ tr, (processDeletedDir env s dir).1.trace = tr ++ [.flush]) ∧
      pendingRefresh (processDeletedDir env s dir).1.trace = []) := by
  constructor
  · intro fullScan P hP herr
    unfold processChangedDirPass at hP
    dsimp only at hP
    split at hP
    · cases hP
      cases herr
    · split at hP
      · cases hP
        cases herr
      · rename_i s2 files hla
        have hs2 := loadAllAudioFiles_state env (s.log (.findAllByPath dir)) dir
          env.CUESheetSupport
        rw [hla] at hs2
        simp only at hs2
        split at hP
        · cases hP
          left
          rw [hs2]
          simp [TagScanner.log]
        · split at hP
          · cases hP
          · split at hP
            · cases hP
            · cases hP
              cases herr
            · split at hP
              · cases hP
                cases herr
              · cases hP
                right
                exact ⟨⟨_, rfl⟩, pendingRefresh_flush _⟩
  · intro herr
    unfold processDeletedDir at herr ⊢
    dsimp only at herr ⊢
    split at herr
    · cases herr
    · split at herr
      · cases herr
      · rename_i c hdel
        simp only [hdel]
        exact ⟨⟨_, rfl⟩, pendingRefresh_flush _⟩

/-- Witness for C20 (amended): the pass over the folder of `deletionEnv` -/
theorem directory_pass_flushes_witness :
    ∃ P, processChangedDirPass deletionEnv freshScanner false "music" = .val P ∧
      P.err = none ∧
      (P.s.trace = freshScanner.trace ++ [.findAllByPath "music", .readDir "music"] ∨
        ((∃ tr, P.s.trace = tr ++ [.flush]) ∧ pendingRefresh P.s.trace = [])) := by
  have hrun : ∃ P, processChangedDirPass deletionEnv freshScanner false "music" = .val P ∧
      P.err = none := ⟨_, rfl, rfl⟩
  obtain ⟨P, h, he⟩ := hrun
  exact ⟨P, h, he, (directory_pass_flushes deletionEnv freshScanner "music").1 false P h he⟩

/-- C20 (counterexample): the folder `music` holds the changed file `a.mp3` and
the new file `b.mp3`; the `Put` of `b.mp3` fails, so the folder pass ends with an
error after it accumulated the records of `a.mp3`. `Scan` goes on to the garbage
collection and returns `(2, nil)`: the pass made no `flush` call at all and two
accumulated records are still pending. -/
theorem Scan_returns_unflushed_counterexample :
    ∃ s1, Scan partialFailEnv freshScanner 5 = .val (s1, 2, none) ∧
      Event.flush ∉ s1.trace ∧
      (pendingRefresh s1.trace).length = 2 ∧
      (pendingRefresh s1.trace).map (fun mf => mf.Path) = ["music/a.mp3", "music/a.mp3"] := by
  refine ⟨_, rfl, ?_, ?_, ?_⟩ <;> decide

/-! ## A second pass over an unchanged library -/

theorem scanFolders_idle (env : Env) (t : Time) (fullScan : Bool) (db : GoMap String Unit)
    (walk : List dirStats) (hidle : ∀ f ∈ walk, folderHasChanged f db t = false)
    (s : TagScanner) (fs : dirMap) (changed : List String) :
    ∃ s1 fs1, scanFolders env t fullScan db walk s fs changed = .val (s1, fs1, changed) ∧
      s1.cnt = s.cnt ∧
      s1.trace = s.trace ++ walk.map (fun f => Event.progress f.AudioFilesCount) ∧
      ∀ k, k ∈ fs1.keys ↔ k ∈ fs.keys ∨ ∃ f ∈ walk, f.Path = k := by
  induction walk generalizing s fs with
  | nil => exact ⟨s, fs, rfl, rfl, by simp, by simp⟩
  | cons f walk ih =>
    obtain ⟨s1, fs1, h1, h2, h3, h4⟩ := ih (fun g hg => hidle g (by simp [hg]))
      (s.log (.progress f.AudioFilesCount)) (fs.insert f.Path f)
    refine ⟨s1, fs1, ?_, h2, ?_, ?_⟩
    · rw [scanFolders]
      simp only [hidle f (by simp), Bool.false_eq_true, if_false]
      exact h1
    · rw [h3]
      simp [TagScanner.log]
    · intro k
      rw [h4 k, GoMap.mem_keys_insert]
      constructor
      · rintro ((h | h) | ⟨g, hg, hk⟩)
        · exact Or.inr ⟨f, by simp, h.symm⟩
        · exact Or.inl h
        · exact Or.inr ⟨g, by simp [hg], hk⟩
      · rintro (h | ⟨g, hg, hk⟩)
        · exact Or.inl (Or.inr h)
        · rcases List.mem_cons.1 hg with h | h
          · subst h
            exact Or.inl (Or.inl hk.symm)
          · exact Or.inr ⟨g, h, hk⟩

theorem getDeletedDirs_nil (o : MapOrder) (fs : dirMap) (db : GoMap String Unit)
    (h : ∀ k ∈ db.keys, k ∈ fs.keys) : getDeletedDirs o fs db = [] := by
  have hf : (o.range db.keys).filter (fun d => !fs.contains d) = [] := by
    rw [List.filter_eq_nil_iff]
    intro d hd
    have hd2 : d ∈ db.keys := (o.perm db.keys).mem_iff.1 hd
    simp [(GoMap.contains_iff fs d).2 (h d hd2)]
  unfold getDeletedDirs
  simp only [hf]
  rfl

/-- A pass of `Scan` whose prologue succeeds and whose walker ends without
error, over folders of which none is changed and a catalog whose folders are
all walked: it returns `(0, nil)` with all counters at zero and, after the
prologue, only reports progress. -/
theorem Scan_unchanged (env : Env) (s : TagScanner) (t : Time) (r : List String × dirStats)
    (dirs : List String)
    (hload : env.loadDir (s.trace ++ [.withAdminUser]) s.rootFolder = .ok r)
    (hguard : (decide (r.1.length = 0) && decide (r.2.AudioFilesCount = 0) && !t.IsZero) = false)
    (hdb : env.findPathsRecursively (s.trace ++ [.withAdminUser, .loadDir s.rootFolder])
      s.rootFolder = .ok dirs)
    (hwalk : (walkOf env s).2 = none)
    (hidle : ∀ f ∈ (walkOf env s).1, folderHasChanged f (dbDirTree dirs) t = false)
    (hkept : ∀ d ∈ (dbDirTree dirs).keys, ∃ f ∈ (walkOf env s).1, f.Path = d) :
    ∃ s1, Scan env s t = .val (s1, 0, none) ∧
      s1.cnt = ⟨0, 0, 0, 0⟩ ∧
      s1.trace = s.trace ++ [.withAdminUser, .loadDir s.rootFolder,
          .findPathsRecursively s.rootFolder, .walkDirTree s.rootFolder] ++
        (walkOf env s).1.map (fun f => Event.progress f.AudioFilesCount) ∧
      ∀ e ∈ s1.trace.drop s.trace.length, e.isWrite = false := by
  obtain ⟨s1, fs1, h1, h2, h3, h4⟩ := scanFolders_idle env t t.IsZero (dbDirTree dirs)
    (walkOf env s).1 hidle (walkStart s) GoMap.empty []
  have hdel : getDeletedDirs env.order fs1 (dbDirTree dirs) = [] :=
    getDeletedDirs_nil _ _ _ (fun k hk => (h4 k).2 (Or.inr (hkept k hk)))
  have htr : s1.trace = s.trace ++ [.withAdminUser, .loadDir s.rootFolder,
      .findPathsRecursively s.rootFolder, .walkDirTree s.rootFolder] ++
        (walkOf env s).1.map (fun f => Event.progress f.AudioFilesCount) := by
    rw [h3, walkStart_trace]
  refine ⟨s1, ?_, h2, htr, ?_⟩
  · rw [Scan_eq env s t r dirs hload hguard hdb, h1]
    simp only [hwalk, hdel, List.length_nil, add_zero, if_true]
  · rw [htr, List.append_assoc, List.drop_left]
    intro e he
    rcases List.mem_append.1 he with h | h
    · simp only [List.mem_cons, List.mem_singleton, List.not_mem_nil, or_false] at h
      rcases h with h | h | h | h <;> subst h <;> rfl
    · obtain ⟨f, -, rfl⟩ := List.mem_map.1 h
      rfl

/-- C11 (counterexample): the folder `music` holds one audio file that the
extractor leaves out, so the first pass puts nothing and the catalog stays
empty. The first pass removes nothing either, so the same catalog answers the
second pass, run with a later `lastModifiedSince` over the same disk: the folder
is still unknown to the catalog and has an audio file, hence it is changed
again, `added` becomes 1, the pass returns 1, and it flushes and collects. -/
theorem Scan_twice_counterexample :
    ∃ s1 s2, Scan unreadableEnv freshScanner 5 = .val (s1, 1, none) ∧
      putCount s1.trace = 0 ∧ (∀ e ∈ s1.trace, e.isRemoval = false) ∧
      Scan unreadableEnv s1 100 = .val (s2, 1, none) ∧
      s2.cnt.added = 1 ∧
      s2.trace.drop s1.trace.length =
        [.withAdminUser, .loadDir "music", .findPathsRecursively "music", .walkDirTree "music",
         .progress 1, .findAllByPath "music", .readDir "music", .stat "music/a.mp3",
         .extract ["music/a.mp3"], .flush, .gc "music"] := by
  refine ⟨_, _, rfl, ?_, ?_, rfl, ?_, ?_⟩ <;> decide

/-! ## Full rescan -/

theorem scanFolders_full (env : Env) (db : GoMap String Unit) (walk : List dirStats)
    (hwalk : ∀ f ∈ walk, 0 < f.ModTime) (fullScan : Bool) (s : TagScanner) (fs : dirMap)
    (changed : List String) (s1 : TagScanner) (fs1 : dirMap) (changed1 : List String)
    (h : scanFolders env 0 fullScan db walk s fs changed = .val (s1, fs1, changed1)) :
    changed1 = changed ++ walk.map (fun f => f.Path) := by
  induction walk generalizing s fs changed with
  | nil =>
    rw [scanFolders] at h
    cases h
    simp
  | cons f walk ih =>
    have hf : folderHasChanged f db 0 = true := by
      have := hwalk f (by simp)
      unfold folderHasChanged Time.After
      simp [this]
    rw [scanFolders] at h
    simp only [hf, if_true] at h
    split at h
    · cases h
    · rw [ih (fun g hg => hwalk g (by simp [hg])) _ _ _ h]
      simp

/-- C24: a folder summary of the walker carries the modification time read from
the file system, which is after the zero time. For every such summary `F` and
every catalog directory set `D`, `folderHasChanged F D` at the zero time is
true, whatever `D` holds and however many audio files `F` counts. On a full
rescan the walker loop therefore treats every folder it receives as changed:
when it returns, the walked folders have been added, in order, to the changed
directories. -/
theorem folderHasChanged_zero_time (D : GoMap String Unit) :
    Time.IsZero 0 = true ∧
    (∀ F : dirStats, 0 < F.ModTime → folderHasChanged F D 0 = true) ∧
    (∀ (env : Env) (walk : List dirStats), (∀ f ∈ walk, 0 < f.ModTime) →
      ∀ s fs changed s1 fs1 changed1,
        scanFolders env 0 (Time.IsZero 0) D walk s fs changed = .val (s1, fs1, changed1) →
        changed1 = changed ++ walk.map (fun f => f.Path)) := by
  refine ⟨rfl, ?_, ?_⟩
  · intro F hF
    unfold folderHasChanged Time.After
    simp [hF]
  · intro env walk hwalk s fs changed s1 fs1 changed1 h
    exact scanFolders_full env D walk hwalk _ s fs changed s1 fs1 changed1 h

/-- Witness for C24: a catalogued folder without audio files, modified at time
20, is changed at the zero time -/
theorem folderHasChanged_zero_time_witness :
    (0 : Time) < (⟨"music", 20, false, 0⟩ : dirStats).ModTime ∧
    folderHasChanged ⟨"music", 20, false, 0⟩ ⟨[("music", ())]⟩ 0 = true :=
  ⟨by decide, (folderHasChanged_zero_time ⟨[("music", ())]⟩).2.1 ⟨"music", 20, false, 0⟩
    (by decide)⟩

/-! ## Listing the files of a folder -/

theorem loadAllAudioFilesLoop_cons (env : Env) (dir cs : String) (f : DirEntry)
    (files : List DirEntry) (m : GoMap String DirEntry) :
    loadAllAudioFilesLoop env dir cs (f :: files) m =
      loadAllAudioFilesLoop env dir cs files
        (if keptEntry env dir cs f then m.insert (filepath.Join dir f.Name) f else m) := by
  rw [loadAllAudioFilesLoop]
  unfold keptEntry
  cases hd : f.IsDir
  · cases hh : strings.HasPrefix f.Name "."
    · cases hc : env.IsCueSheetFile (filepath.Join dir f.Name)
      · cases ha : env.IsAudioFile (filepath.Join dir f.Name) <;> simp [hc, ha]
      · cases he : strings.Contains (strings.ToLower cs) env.CUEExternal <;> simp [hc, he]
    · simp
  · simp

theorem loadAllAudioFilesLoop_keys (env : Env) (dir cs : String) (files : List DirEntry)
    (m : GoMap String DirEntry) (p : String) :
    p ∈ (loadAllAudioFilesLoop env dir cs files m).keys ↔
      p ∈ m.keys ∨ ∃ f ∈ files, keptEntry env dir cs f = true ∧ filepath.Join dir f.Name = p := by
  induction files generalizing m with
  | nil => simp [loadAllAudioFilesLoop]
  | cons f files ih =>
    rw [loadAllAudioFilesLoop_cons, ih]
    cases hk : keptEntry env dir cs f
    · simp [hk]
    · simp only [if_true, GoMap.mem_keys_insert, List.mem_cons, exists_eq_or_imp, hk, true_and]
      constructor
      · rintro ((h | h) | h)
        · exact Or.inr (Or.inl h.symm)
        · exact Or.inl h
        · exact Or.inr (Or.inr h)
      · rintro (h | h | h)
        · exact Or.inl (Or.inr h)
        · exact Or.inl (Or.inl h.symm)
        · exact Or.inr h

theorem loadAllAudioFilesLoop_get? (env : Env) (dir cs : String) (files : List DirEntry)
    (m : GoMap String DirEntry) (p : String) (f : DirEntry)
    (h : (loadAllAudioFilesLoop env dir cs files m).get? p = some f) :
    m.get? p = some f ∨
      (f ∈ files ∧ keptEntry env dir cs f = true ∧ filepath.Join dir f.Name = p) := by
  induction files generalizing m with
  | nil => exact Or.inl h
  | cons g files ih =>
    rw [loadAllAudioFilesLoop_cons] at h
    rcases ih _ h with h1 | ⟨h1, h2, h3⟩
    · cases hk : keptEntry env dir cs g
      · simp only [hk, Bool.false_eq_true, if_false] at h1
        exact Or.inl h1
      · simp only [hk, if_true, GoMap.get?_insert] at h1
        by_cases hp : p = filepath.Join dir g.Name
        · rw [if_pos hp] at h1
          cases h1
          exact Or.inr ⟨by simp, hk, hp.symm⟩
        · rw [if_neg hp] at h1
          exact Or.inl h1
    · exact Or.inr ⟨by simp [h1], h2, h3⟩

/-- C23 (amended): when the directory can be read, `loadAllAudioFiles` returns
the map whose keys are exactly the joined paths of the entries that are not
directories, not hidden, and either cue sheets under a setting that names the
external mode or, when not cue sheets, audio files; every value is such an
entry. When no path is both a cue sheet and an audio file, these are the
entries the specification lists. The map is empty exactly when no entry is
kept, so a folder without audio files still gives its cue sheets under an
external setting. A directory that cannot be read gives the error. -/
theorem loadAllAudioFiles_spec (env : Env) (s : TagScanner) (dir cs : String) :
    (∀ files, env.readDir s.trace dir = .ok files →
      ∃ m, loadAllAudioFiles env s dir cs = (s.log (.readDir dir), .ok m) ∧
        (∀ p, p ∈ m.keys ↔
          ∃ f ∈ files, keptEntry env dir cs f = true ∧ filepath.Join dir f.Name = p) ∧
        (∀ p f, m.get? p = some f →
          f ∈ files ∧ keptEntry env dir cs f = true ∧ filepath.Join dir f.Name = p) ∧
        (m.len = 0 ↔ ∀ f ∈ files, keptEntry env dir cs f = false) ∧
        ((∀ q, env.IsCueSheetFile q = true → env.IsAudioFile q = false) →
          ∀ f, keptEntry env dir cs f = listedEntry env dir cs f) ∧
        (strings.Contains (strings.ToLower cs) env.CUEExternal = false →
          ∀ p ∈ m.keys, env.IsCueSheetFile p = false ∧ env.IsAudioFile p = true)) ∧
    (∀ err, env.readDir s.trace dir = .error err →
      loadAllAudioFiles env s dir cs = (s.log (.readDir dir), .error err)) := by
  constructor
  · intro files hread
    refine ⟨loadAllAudioFilesLoop env dir cs files GoMap.empty, ?_, ?_, ?_, ?_, ?_, ?_⟩
    · simp [loadAllAudioFiles, hread]
    · intro p
      rw [loadAllAudioFilesLoop_keys]
      simp [GoMap.empty, GoMap.keys]
    · intro p f h
      rcases loadAllAudioFilesLoop_get? env dir cs files GoMap.empty p f h with h1 | h1
      · simp [GoMap.empty, GoMap.get?] at h1
      · exact h1
    · have hk := loadAllAudioFilesLoop_keys env dir cs files GoMap.empty
      constructor
      · intro hz f hf
        cases hkf : keptEntry env dir cs f
        · rfl
        · have hmem := (hk (filepath.Join dir f.Name)).2 (Or.inr ⟨f, hf, hkf, rfl⟩)
          have := GoMap.len_pos_of_mem_keys _ _ hmem
          omega
      · intro hnone
        cases hes : (loadAllAudioFilesLoop env dir cs files GoMap.empty).entries with
        | nil => simp [GoMap.len, hes]
        | cons e es =>
          exfalso
          have hmem : e.1 ∈ (loadAllAudioFilesLoop env dir cs files GoMap.empty).keys := by
            simp [GoMap.keys, hes]
          rcases (hk e.1).1 hmem with h1 | ⟨f, hf, hkf, -⟩
          · simp [GoMap.empty, GoMap.keys] at h1
          · rw [hnone f hf] at hkf
            cases hkf
    · intro hdisj f
      unfold keptEntry listedEntry
      cases hc : env.IsCueSheetFile (filepath.Join dir f.Name)
      · simp
      · simp [hdisj _ hc]
    · intro hext p hp
      rw [loadAllAudioFilesLoop_keys] at hp
      rcases hp with h1 | ⟨f, -, hkf, rfl⟩
      · simp [GoMap.empty, GoMap.keys] at h1
      · unfold keptEntry at hkf
        cases hc : env.IsCueSheetFile (filepath.Join dir f.Name)
        · simp only [hc, Bool.false_eq_true, if_false, Bool.and_eq_true] at hkf
          exact ⟨rfl, hkf.2⟩
        · simp [hc, hext] at hkf
  · intro err hread
    simp [loadAllAudioFiles, hread]

/-- Witness for C23 (amended): the folder of `cuePairEnv`, external setting -/
theorem loadAllAudioFiles_spec_witness :
    ∃ m, loadAllAudioFiles cuePairEnv freshScanner "music" "external" =
        (freshScanner.log (.readDir "music"), .ok m) ∧
      (m.len = 0 ↔ ∀ f ∈ [(⟨"a.flac", false⟩ : DirEntry), ⟨"a.cue", false⟩],
        keptEntry cuePairEnv "music" "external" f = false) := by
  obtain ⟨m, h1, -, -, h2, -, -⟩ :=
    (loadAllAudioFiles_spec cuePairEnv freshScanner "music" "external").1
      [⟨"a.flac", false⟩, ⟨"a.cue", false⟩] rfl
  exact ⟨m, h1, h2⟩

/-- C23 (counterexample): a folder that holds a cue sheet and a text file, no
audio file, listed under the external setting: the map is not empty, it holds
the cue sheet. -/
theorem loadAllAudioFiles_cue_only_counterexample :
    ∃ m, loadAllAudioFiles cueOnlyEnv freshScanner "music" "external" =
        (freshScanner.log (.readDir "music"), .ok m) ∧
      cueOnlyEnv.IsAudioFile "music/album.cue" = false ∧
      cueOnlyEnv.IsAudioFile "music/notes.txt" = false ∧
      m.keys = ["music/album.cue"] := by
  refine ⟨_, rfl, ?_, ?_, ?_⟩ <;> decide

/-! ## Durations of a well-ordered sheet -/

theorem trackDurations_suffix (env : Env) (md : Tags) (file : CueFile)
    (hsorted : ∀ i a b, file.Tracks[i]? = some a → file.Tracks[i + 1]? = some b →
      a.StartOffset ≤ b.StartOffset)
    (hlast : ∀ t, file.Tracks.getLast? = some t → t.StartOffset ≤ env.mdFileDuration md)
    (suf pre : List CueTrack) (hsplit : file.Tracks = pre ++ suf) (t0 : CueTrack)
    (hhead : suf.head? = some t0) :
    ((suf.enumFrom pre.length).map (fun it => trackDuration env md file it.1 it.2)).sum =
      env.mdFileDuration md - t0.StartOffset := by
  induction suf generalizing pre t0 with
  | nil => cases hhead
  | cons t suf ih =>
    simp only [List.head?_cons, Option.some.injEq] at hhead
    subst hhead
    have hk : file.Tracks[pre.length]? = some t := by
      rw [hsplit, List.getElem?_append_right (le_refl _)]
      simp
    rw [List.enumFrom_cons, List.map_cons, List.sum_cons]
    cases suf with
    | nil =>
      have hl : file.Tracks.getLast? = some t := by
        rw [hsplit]
        simp
      have hle := hlast t hl
      have hlen : pre.length + 1 = file.Tracks.length := by
        rw [hsplit]
        simp
      have := (trackDuration_spec env md file pre.length t).2.2 hlen
      simp only [List.enumFrom_nil, List.map_nil, List.sum_nil, add_zero]
      rw [this]
      omega
    | cons t2 r =>
      have hk2 : file.Tracks[pre.length + 1]? = some t2 := by
        rw [hsplit, List.getElem?_append_right (by omega)]
        simp
      have hle := hsorted pre.length t t2 hk hk2
      have h1 := (trackDuration_spec env md file pre.length t).2.1 t2 hk2
      have h2 := ih (pre ++ [t]) (by rw [hsplit]; simp) t2 rfl
      simp only [List.length_append, List.length_singleton] at h2
      rw [h2, h1]
      omega

theorem trackDuration_exact (env : Env) (md : Tags) (file : CueFile)
    (hsorted : ∀ i a b, file.Tracks[i]? = some a → file.Tracks[i + 1]? = some b →
      a.StartOffset ≤ b.StartOffset)
    (hlast : ∀ t, file.Tracks.getLast? = some t → t.StartOffset ≤ env.mdFileDuration md)
    (i : Nat) (t : CueTrack) (hi : file.Tracks[i]? = some t) :
    trackDuration env md file i t =
      match file.Tracks[i + 1]? with
      | some next => next.StartOffset - t.StartOffset
      | none => env.mdFileDuration md - t.StartOffset := by
  cases hn : file.Tracks[i + 1]? with
  | some next =>
    have hle := hsorted i t next hi hn
    rw [(trackDuration_spec env md file i t).2.1 next hn]
    exact max_eq_left (by omega)
  | none =>
    have hlt : i < file.Tracks.length := by
      by_contra hge
      rw [List.getElem?_eq_none (by omega)] at hi
      cases hi
    have hge : file.Tracks.length ≤ i + 1 := by
      by_contra hlt2
      rw [List.getElem?_eq_getElem (by omega)] at hn
      cases hn
    have hlen : i + 1 = file.Tracks.length := by omega
    have hl : file.Tracks.getLast? = some t := by
      rw [List.getLast?_eq_getElem?, ← hi]
      congr 1
      omega
    have hle := hlast t hl
    rw [(trackDuration_spec env md file i t).2.2 hlen]
    exact max_eq_left (by omega)

/-- C30: for a `FILE` entry with a first track `t0`, whose start offsets are
non-decreasing from each track to the next and whose last start offset is not
after the file duration `d`, the duration `Extract` computes for each track is
the exact difference, without flooring: up to the next start, or up to `d` for
the last track. It is the value the track loop stores in the `duration` tag. The
durations of the entry sum to `d - start(t0)`, hence to at most `d` when that
start is not negative. -/
theorem Extract_durations_sum (env : Env) (md : Tags) (fileInfo : FileInfo) (cue : Cuesheet)
    (last : Bool) (file : CueFile) (t0 : CueTrack)
    (hfmt : ∀ d, env.formatSeconds d ≠ "")
    (hfirst : file.Tracks.head? = some t0)
    (hsorted : ∀ i a b, file.Tracks[i]? = some a → file.Tracks[i + 1]? = some b →
      a.StartOffset ≤ b.StartOffset)
    (hlast : ∀ t, file.Tracks.getLast? = some t → t.StartOffset ≤ env.mdFileDuration md) :
    (∀ i t, file.Tracks[i]? = some t →
      trackDuration env md file i t =
        (match file.Tracks[i + 1]? with
         | some next => next.StartOffset - t.StartOffset
         | none => env.mdFileDuration md - t.StartOffset) ∧
      bagTag (some (extractTracks env cue last file 0 file.Tracks (freshExtractor md fileInfo)))
        i "duration" = some [makeDuration env (trackDuration env md file i t)]) ∧
    (trackDurations env md file).sum = env.mdFileDuration md - t0.StartOffset ∧
    (0 ≤ t0.StartOffset → (trackDurations env md file).sum ≤ env.mdFileDuration md) := by
  have hsum : (trackDurations env md file).sum = env.mdFileDuration md - t0.StartOffset := by
    have := trackDurations_suffix env md file hsorted hlast file.Tracks [] rfl t0 hfirst
    simpa [trackDurations, List.enum] using this
  refine ⟨fun i t hi => ⟨trackDuration_exact env md file hsorted hlast i t hi,
    (extractTracks_fresh_bag env md fileInfo cue last file i t hfmt hi).2⟩, hsum, ?_⟩
  intro h0
  rw [hsum]
  omega

/-- Witness for C30: the three tracks of `tripleSheet` on a file of duration 60 -/
theorem Extract_durations_sum_witness :
    (trackDurations shortFileEnv plainTags
      ⟨"a.flac", [⟨1, "One", "", 0, noRem⟩, ⟨2, "Two", "", 20, noRem⟩,
        ⟨3, "Three", "", 40, noRem⟩]⟩).sum = 60 - 0 ∧
    trackDurations shortFileEnv plainTags
      ⟨"a.flac", [⟨1, "One", "", 0, noRem⟩, ⟨2, "Two", "", 20, noRem⟩,
        ⟨3, "Three", "", 40, noRem⟩]⟩ = [20, 20, 20] :=
  ⟨(Extract_durations_sum shortFileEnv plainTags ⟨10⟩ tripleSheet true
      ⟨"a.flac", [⟨1, "One", "", 0, noRem⟩, ⟨2, "Two", "", 20, noRem⟩,
        ⟨3, "Three", "", 40, noRem⟩]⟩ ⟨1, "One", "", 0, noRem⟩
      (fun d => toString_int_ne_empty d) rfl
      (by
        intro i a b ha hb
        match i, ha, hb with
        | 0, ha, hb => cases ha; cases hb; decide
        | 1, ha, hb => cases ha; cases hb; decide
        | 2, ha, hb => cases hb
        | (n + 3), ha, hb => cases ha)
      (by
        intro t ht
        cases ht
        decide)).2.1, by decide⟩

/-! ## The comparison made for a media file listed by a cue sheet -/

/-- C26 (amended): in a non-full pass, let the cue branch visit a media path
that can be stat'ed and has the catalog records `t0 :: rest`. The visit queues
the path exactly when the cue file was modified after `t0.UpdatedAt`, or the
setting is not the external mode and the media file was modified after
`t0.UpdatedAt`. Under the external setting the cue file's time alone decides;
under every other setting either of the two times does. -/
theorem cue_visit_queues (env : Env) (cur : GoMap String (List MediaFile)) (p : String)
    (cueInfo info : FileInfo) (t0 : MediaFile) (rest : List MediaFile)
    (s : TagScanner) (c : DirCtx)
    (hstat : env.stat s.trace p = .ok info)
    (hrec : cur.get? p = some (t0 :: rest))
    (hvis : c.visitedPaths.contains p = false) :
    ∃ s1 c1, handleMediaPath env false cur p (cueTrackCallback env cueInfo) s c
        = .val (s1, c1, true) ∧
      (cueQueues env cueInfo info t0 → c1.filesToUpdate = c.filesToUpdate ++ [p] ∧
        c1.orphanTracks = c.orphanTracks ∧ s1.cnt.added = s.cnt.added + 1) ∧
      (¬ cueQueues env cueInfo info t0 → c1.filesToUpdate = c.filesToUpdate ∧
        c1.orphanTracks = removeFromOrphan c.orphanTracks (t0 :: rest) ∧
        s1.cnt.added = s.cnt.added) ∧
      (env.CUESheetSupport = env.CUEExternal →
        (cueQueues env cueInfo info t0 ↔ t0.UpdatedAt < cueInfo.ModTime)) ∧
      (env.CUESheetSupport ≠ env.CUEExternal →
        (cueQueues env cueInfo info t0 ↔
          t0.UpdatedAt < cueInfo.ModTime ∨ t0.UpdatedAt < info.ModTime)) := by
  have hcb : cueTrackCallback env cueInfo info.ModTime t0 = true ↔
      cueQueues env cueInfo info t0 := by
    unfold cueTrackCallback cueQueues Time.After
    simp
  by_cases hq : cueQueues env cueInfo info t0
  · have hcb1 : cueTrackCallback env cueInfo info.ModTime t0 = true := hcb.2 hq
    refine ⟨(addMediaForUpdate (s.log (.stat p)) c.filesToUpdate p c.visitedPaths).1.log
        (.accumulate t0),
      { c with filesToUpdate :=
          (addMediaForUpdate (s.log (.stat p)) c.filesToUpdate p c.visitedPaths).2 },
      ?_, ?_, ?_, ?_, ?_⟩
    · simp only [handleMediaPath, hstat, hrec, Bool.false_eq_true, if_false, hcb1, if_true]
    · intro _
      simp [addMediaForUpdate, hvis, counters.incAdded, TagScanner.log]
    · intro hn
      exact absurd hq hn
    · intro hext
      unfold cueQueues
      simp [hext]
    · intro hext
      unfold cueQueues
      simp [hext]
  · have hcb0 : cueTrackCallback env cueInfo info.ModTime t0 = false := by
      cases h : cueTrackCallback env cueInfo info.ModTime t0
      · rfl
      · exact absurd (hcb.1 h) hq
    refine ⟨(s.log (.stat p)).log (.accumulate t0),
      { c with orphanTracks := removeFromOrphan c.orphanTracks (t0 :: rest) },
      ?_, ?_, ?_, ?_, ?_⟩
    · simp only [handleMediaPath, hstat, hrec, Bool.false_eq_true, if_false, hcb0]
    · intro h
      exact absurd h hq
    · intro _
      exact ⟨rfl, rfl, rfl⟩
    · intro hext
      unfold cueQueues
      simp [hext]
    · intro hext
      unfold cueQueues
      simp [hext]

/-- Witness for C26 (amended): the cue sheet is newer than the record, the media
file is not -/
theorem cue_visit_queues_witness :
    ∃ s1 c1, handleMediaPath cueNewerEnv false
        ⟨[("music/a.flac", [record "music/a.flac" "music/a.flac" "al-a" "ar-a" 10])]⟩
        "music/a.flac" (cueTrackCallback cueNewerEnv ⟨20⟩) freshScanner
        ⟨[], GoMap.empty, GoMap.empty⟩ = .val (s1, c1, true) ∧
      c1.filesToUpdate = ["music/a.flac"] := by
  obtain ⟨s1, c1, h1, h2, -⟩ := cue_visit_queues cueNewerEnv
    ⟨[("music/a.flac", [record "music/a.flac" "music/a.flac" "al-a" "ar-a" 10])]⟩
    "music/a.flac" ⟨20⟩ ⟨5⟩ (record "music/a.flac" "music/a.flac" "al-a" "ar-a" 10) []
    freshScanner ⟨[], GoMap.empty, GoMap.empty⟩ rfl rfl rfl
  exact ⟨s1, c1, h1, (h2 (by decide)).1⟩

/-- C26 (counterexample): under the setting `embedded,external` the media file
`a.flac` was modified at 5, before its record was updated at 10, and the cue
sheet that lists it was modified at 20. The plain visit of `a.flac` queues
nothing; the visit through the cue sheet queues the path, on the cue file's
time. -/
theorem cue_time_queues_counterexample :
    ∃ P : DirPass, processChangedDirPass cueNewerEnv freshScanner false "music" = .val P ∧
      cueNewerEnv.CUESheetSupport ≠ cueNewerEnv.CUEExternal ∧
      cueNewerEnv.stat [] "music/a.flac" = .ok ⟨5⟩ ∧
      P.filesToUpdate = ["music/a.flac"] ∧ P.s.cnt.added = 1 := by
  refine ⟨_, rfl, ?_, rfl, ?_, ?_⟩ <;> decide

/-! ## Playlist import -/

theorem importPlaylists_trace (env : Env) (isAdmin : Bool) (fs : dirMap) (dirs : List String)
    (s : TagScanner) :
    (importPlaylists env isAdmin fs dirs s).trace =
      s.trace ++ (if isAdmin then (playlistDirs fs dirs).map Event.processPlaylists else []) := by
  induction dirs generalizing s with
  | nil => cases isAdmin <;> simp [importPlaylists, playlistDirs]
  | cons d dirs ih =>
    rw [importPlaylists]
    dsimp only
    cases hflag : (match fs.get? d with
      | some info => info.HasPlaylist
      | none => false)
    · simp only [Bool.false_eq_true, if_false]
      rw [ih]
      simp [playlistDirs, List.filter_cons, hflag]
    · simp only [if_true]
      cases isAdmin
      · simp only [Bool.not_false, if_true]
        rw [ih]
        simp
      · simp only [Bool.not_true, Bool.false_eq_true, if_false]
        rw [ih]
        simp [playlistDirs, List.filter_cons, hflag, TagScanner.log]

/-- C21 (the code at the failing input): two changed folders have playlists,
the playlist import is enabled and the pass runs as an administrator. The
importer is called once for each folder and reports 2 and 3 playlists; the
counter is assigned, not added to, so the pass ends with `playlists = 3`. -/
theorem Scan_playlists_overwritten :
    ∃ s1, Scan playlistsEnv freshScanner 5 = .val (s1, 0, none) ∧
      playlistsEnv.AutoImportPlaylists = true ∧ playlistsEnv.adminUser [] = true ∧
      s1.trace.filter (fun e => decide (e = .processPlaylists "music/a") ||
          decide (e = .processPlaylists "music/b")) =
        [.processPlaylists "music/a", .processPlaylists "music/b"] ∧
      playlistsEnv.processPlaylists [] "music/a" = 2 ∧
      playlistsEnv.processPlaylists [] "music/b" = 3 ∧
      s1.cnt.playlists = 3 := by
  refine ⟨_, rfl, rfl, rfl, ?_, ?_, ?_, ?_⟩ <;> decide

/-! ## The cue cache across passes -/

theorem cacheKept_same (s : TagScanner) : CacheKept s s := fun _ hk => hk

theorem cacheKept_then {s s1 s2 : TagScanner} (h1 : CacheKept s s1) (h2 : CacheKept s1 s2) :
    CacheKept s s2 := fun k hk => h2 k (h1 k hk)

theorem cacheKept_of_eq {s s1 : TagScanner} (h : s1.cueCache = s.cueCache) : CacheKept s s1 := by
  intro k hk
  rw [h]
  exact hk

theorem cacheKept_log (s : TagScanner) (e : Event) : CacheKept s (s.log e) :=
  fun _ hk => hk

theorem addMediaForUpdate_cache (s : TagScanner) (l : List String) (p : String)
    (v : GoMap String Unit) : (addMediaForUpdate s l p v).1.cueCache = s.cueCache := by
  unfold addMediaForUpdate
  split <;> rfl

theorem handleMediaPath_cache (env : Env) (fullScan : Bool)
    (cur : GoMap String (List MediaFile)) (p : String) (cb : Time → MediaFile → Bool)
    (s : TagScanner) (c : DirCtx) (s1 : TagScanner) (c1 : DirCtx) (b : Bool)
    (h : handleMediaPath env fullScan cur p cb s c = .val (s1, c1, b)) :
    s1.cueCache = s.cueCache := by
  have hadd := addMediaForUpdate_cache (s.log (.stat p)) c.filesToUpdate p c.visitedPaths
  unfold handleMediaPath at h
  split at h
  · cases h
    rfl
  · split at h
    · cases h
      exact hadd
    · split at h
      · cases h
        exact hadd
      · split at h
        · cases h
        · cases h
          split
          · exact hadd
          · rfl

theorem visitCueFiles_cache (env : Env) (fullScan : Bool)
    (cur : GoMap String (List MediaFile)) (filePath : String) (cueInfo : FileInfo)
    (cue : Cuesheet) (l : List CueFile) (s : TagScanner) (c : DirCtx) (s1 : TagScanner)
    (c1 : DirCtx)
    (h : visitCueFiles env fullScan cur filePath cueInfo cue l s c = .val (s1, c1)) :
    CacheKept s s1 := by
  induction l generalizing s c with
  | nil =>
    simp only [visitCueFiles] at h
    cases h
    exact cacheKept_same _
  | cons f l ih =>
    rw [visitCueFiles] at h
    split at h
    · cases h
    · rename_i s2 c2 hh
      have h1 := handleMediaPath_cache _ _ _ _ _ _ _ _ _ _ hh
      have h2 := ih _ _ h
      intro k hk
      apply h2
      show k ∈ (s2.cueCache.insert filePath cue).keys
      rw [GoMap.mem_keys_insert, h1]
      exact Or.inr hk
    · rename_i s2 c2 hh
      have h1 := handleMediaPath_cache _ _ _ _ _ _ _ _ _ _ hh
      exact cacheKept_then (cacheKept_of_eq h1) (ih _ _ h)

theorem visitEntry_cache (env : Env) (fullScan : Bool)
    (cur : GoMap String (List MediaFile)) (filePath : String)
    (s : TagScanner) (c : DirCtx) (s1 : TagScanner) (c1 : DirCtx)
    (h : visitEntry env fullScan cur filePath s c = .val (s1, c1)) : CacheKept s s1 := by
  unfold visitEntry at h
  split at h
  · split at h
    · cases h
      exact cacheKept_log _ _
    · dsimp only at h
      split at h
      · cases h
        exact cacheKept_then (cacheKept_log s _) (cacheKept_log _ _)
      · have h2 := visitCueFiles_cache _ _ _ _ _ _ _ _ _ _ _ h
        exact cacheKept_then (cacheKept_then (cacheKept_log s _) (cacheKept_log _ _)) h2
  · split at h
    · cases h
    · rename_i s2 c2 b hh
      cases h
      exact cacheKept_of_eq (handleMediaPath_cache _ _ _ _ _ _ _ _ _ _ hh)

theorem visitEntries_cache (env : Env) (fullScan : Bool)
    (cur : GoMap String (List MediaFile)) (l : List (String × DirEntry))
    (s : TagScanner) (c : DirCtx) (s1 : TagScanner) (c1 : DirCtx)
    (h : visitEntries env fullScan cur l s c = .val (s1, c1)) : CacheKept s s1 := by
  induction l generalizing s c with
  | nil =>
    simp only [visitEntries] at h
    cases h
    exact cacheKept_same _
  | cons kv l ih =>
    rw [visitEntries] at h
    split at h
    · cases h
    · rename_i s2 c2 hh
      exact cacheKept_then (visitEntry_cache _ _ _ _ _ _ _ _ hh) (ih _ _ h)

theorem loadCueSheet_cache (env : Env) (s : TagScanner) (md : Tags) (s1 : TagScanner)
    (mfs : List MediaFile) (h : loadCueSheet env s md = .val (s1, mfs)) :
    s1.cueCache = s.cueCache := by
  unfold loadCueSheet at h
  dsimp only at h
  split at h
  · cases h
    rfl
  · have hne : (NewExtractor env s md).1.cueCache = s.cueCache := by
      unfold NewExtractor
      split <;> rfl
    split at h
    · cases h
    · split at h
      · cases h
      · cases h
        exact hne

theorem loadTracksLoop_cache (env : Env) (mds : List Tags) (s : TagScanner)
    (acc : List MediaFile) (s1 : TagScanner) (mfs : List MediaFile)
    (h : loadTracksLoop env mds s acc = .val (s1, mfs)) : s1.cueCache = s.cueCache := by
  induction mds generalizing s acc with
  | nil =>
    simp only [loadTracksLoop] at h
    cases h
    rfl
  | cons md mds ih =>
    rw [loadTracksLoop] at h
    split at h
    · cases h
    · rename_i s2 tracks hh
      have h1 := loadCueSheet_cache _ _ _ _ _ hh
      split at h
      · exact (ih _ _ h).trans h1
      · exact (ih _ _ h).trans h1

theorem loadTracks_cache (env : Env) (s : TagScanner) (paths : List String) (s1 : TagScanner)
    (r : Except GoError (List MediaFile)) (h : loadTracks env s paths = .val (s1, r)) :
    s1.cueCache = s.cueCache := by
  unfold loadTracks at h
  split at h
  · cases h
    rfl
  · dsimp only at h
    split at h
    · cases h
    · rename_i s2 mfs hh
      cases h
      have h2 := loadTracksLoop_cache _ _ _ _ _ _ hh
      exact h2

theorem putTracks_cache {σ : Type} (env : Env) (cb : MediaFile → σ → MediaFile × σ)
    (l : List MediaFile) (s : TagScanner) (st : σ) (n : Int) :
    (putTracks env cb l s st n).1.cueCache = s.cueCache := by
  induction l generalizing s st n with
  | nil => rfl
  | cons t l ih =>
    rw [putTracks]
    split
    · rfl
    · rw [ih]
      rfl

theorem updateChunks_cache {σ : Type} (env : Env) (cb : MediaFile → σ → MediaFile × σ)
    (chunks : List (List String)) (s : TagScanner) (st : σ) (n : Int)
    (s1 : TagScanner) (st1 : σ) (n1 : Int) (r : Option GoError)
    (h : updateChunks env cb chunks s st n = .val (s1, st1, n1, r)) :
    s1.cueCache = s.cueCache := by
  induction chunks generalizing s st n with
  | nil =>
    simp only [updateChunks] at h
    cases h
    rfl
  | cons chunk chunks ih =>
    rw [updateChunks] at h
    split at h
    · cases h
    · rename_i s2 e hh
      cases h
      exact loadTracks_cache _ _ _ _ _ hh
    · rename_i s2 newTracks hh
      have h1 := loadTracks_cache _ _ _ _ _ hh
      have h2 := putTracks_cache env cb newTracks s2 st n
      split at h
      · rename_i s3 st3 e hp
        rw [hp] at h2
        cases h
        exact h2.trans h1
      · rename_i s3 st3 n3 hp
        rw [hp] at h2
        exact ((ih _ _ _ h).trans h2).trans h1

theorem deleteOrphanLoop_cache (env : Env) (l : List (String × MediaFile)) (s : TagScanner)
    (n : Int) : (deleteOrphanLoop env l s n).1.cueCache = s.cueCache := by
  induction l generalizing s n with
  | nil => rfl
  | cons kv l ih =>
    rw [deleteOrphanLoop]
    split
    · rfl
    · rw [ih]
      rfl

theorem processChangedDirPass_cache (env : Env) (s : TagScanner) (fullScan : Bool)
    (dir : String) (P : DirPass) (hP : processChangedDirPass env s fullScan dir = .val P) :
    CacheKept s P.s := by
  unfold processChangedDirPass at hP
  dsimp only at hP
  split at hP
  · cases hP
    exact cacheKept_of_eq rfl
  · have h2c : (loadAllAudioFiles env (s.log (.findAllByPath dir)) dir
        env.CUESheetSupport).1.cueCache = s.cueCache := by
      rw [loadAllAudioFiles_state]
      rfl
    split at hP
    · rename_i s2 err hla
      cases hP
      rw [hla] at h2c
      exact cacheKept_of_eq h2c
    · rename_i s2 files hla
      rw [hla] at h2c
      simp only at h2c
      split at hP
      · cases hP
        exact cacheKept_of_eq h2c
      · split at hP
        · cases hP
        · rename_i s3 c hvis
          have h3 := cacheKept_then (cacheKept_of_eq h2c) (visitEntries_cache _ _ _ _ _ _ _ _ hvis)
          split at hP
          · cases hP
          · rename_i s4 orphans n4 err hupd
            cases hP
            have h4 : s4.cueCache = s3.cueCache := by
              split at hupd
              · exact updateChunks_cache _ _ _ _ _ _ _ _ _ _ hupd
              · cases hupd
            exact cacheKept_then h3 (cacheKept_of_eq h4)
          · rename_i s4 orphans n4 hupd
            have h4 : s4.cueCache = s3.cueCache := by
              split at hupd
              · exact updateChunks_cache _ _ _ _ _ _ _ _ _ _ hupd
              · cases hupd
                rfl
            have h5 := deleteOrphanLoop_cache env (env.order.range orphans.entries) s4 0
            split at hP
            · rename_i s5 n5 err hpur
              cases hP
              split at hpur
              · unfold deleteOrphanSongs at hpur
                rw [hpur] at h5
                exact cacheKept_then h3 (cacheKept_of_eq (h5.trans h4))
              · cases hpur
            · rename_i s5 n5 hpur
              cases hP
              split at hpur
              · unfold deleteOrphanSongs at hpur
                rw [hpur] at h5
                exact cacheKept_then h3 (cacheKept_of_eq (h5.trans h4))
              · cases hpur
                exact cacheKept_then h3 (cacheKept_of_eq h4)

theorem scanFolders_cache (env : Env) (t : Time) (fullScan : Bool)
    (allDBDirs : GoMap String Unit) (walk : List dirStats) (s : TagScanner) (fs : dirMap)
    (changed : List String) (s1 : TagScanner) (fs1 : dirMap) (changed1 : List String)
    (h : scanFolders env t fullScan allDBDirs walk s fs changed = .val (s1, fs1, changed1)) :
    CacheKept s s1 := by
  induction walk generalizing s fs changed with
  | nil =>
    simp only [scanFolders] at h
    cases h
    exact cacheKept_same _
  | cons f walk ih =>
    rw [scanFolders] at h
    split at h
    · split at h
      · cases h
      · rename_i s2 e hp
        unfold processChangedDir at hp
        split at hp
        · cases hp
        · rename_i P hP
          cases hp
          have h2 := processChangedDirPass_cache _ _ _ _ _ hP
          have h3 := ih _ _ _ h
          exact cacheKept_then (cacheKept_then (cacheKept_log s _) h2) h3
    · have h3 := ih _ _ _ h
      exact cacheKept_then (cacheKept_log s _) h3

theorem processDeletedDir_cache (env : Env) (s : TagScanner) (dir : String) :
    (processDeletedDir env s dir).1.cueCache = s.cueCache := by
  have hfold : ∀ (mfs : List MediaFile) (x : TagScanner),
      (mfs.foldl (fun st t => st.log (.accumulate t)) x).cueCache = x.cueCache := by
    intro mfs
    induction mfs with
    | nil => intro x; rfl
    | cons t mfs ih => intro x; simp only [List.foldl_cons]; rw [ih]; rfl
  unfold processDeletedDir
  dsimp only
  split
  · rfl
  · split
    · rfl
    · rw [show ∀ x : TagScanner, (x.log .flush).cueCache = x.cueCache from fun _ => rfl, hfold]
      rfl

theorem processDeletedDirs_cache (env : Env) (dirs : List String) (s : TagScanner) :
    (processDeletedDirs env dirs s).cueCache = s.cueCache := by
  induction dirs generalizing s with
  | nil => rfl
  | cons d dirs ih =>
    rw [processDeletedDirs, ih, processDeletedDir_cache]

theorem importPlaylists_cache (env : Env) (isAdmin : Bool) (fs : dirMap) (dirs : List String)
    (s : TagScanner) : (importPlaylists env isAdmin fs dirs s).cueCache = s.cueCache := by
  induction dirs generalizing s with
  | nil => rfl
  | cons d dirs ih =>
    rw [importPlaylists]
    dsimp only
    split
    · split
      · exact ih s
      · rw [ih]
        rfl
    · exact ih s

theorem Scan_cache (env : Env) (s : TagScanner) (t : Time) (s1 : TagScanner) (n : Int)
    (e : Option GoError) (h : Scan env s t = .val (s1, n, e)) : CacheKept s s1 := by
  cases hload : env.loadDir (s.trace ++ [.withAdminUser]) s.rootFolder with
  | error e0 =>
    have h1 : env.loadDir (s.log .withAdminUser).trace (s.log .withAdminUser).rootFolder
        = .error e0 := hload
    unfold Scan at h
    simp only [isDirEmpty, h1] at h
    cases h
    exact cacheKept_of_eq rfl
  | ok r =>
    have h1 : env.loadDir (s.log .withAdminUser).trace (s.log .withAdminUser).rootFolder
        = .ok r := hload
    cases hguard : (decide (r.1.length = 0) && decide (r.2.AudioFilesCount = 0) && !t.IsZero) with
    | true =>
      unfold Scan at h
      simp only [isDirEmpty, h1, hguard, if_true] at h
      cases h
      exact cacheKept_of_eq rfl
    | false =>
      cases hdb : env.findPathsRecursively (s.trace ++ [.withAdminUser, .loadDir s.rootFolder])
          s.rootFolder with
      | error e0 =>
        have h2 : env.findPathsRecursively
            ((s.log .withAdminUser).log (.loadDir (s.log .withAdminUser).rootFolder)).trace
            ((s.log .withAdminUser).log (.loadDir (s.log .withAdminUser).rootFolder)).rootFolder
            = .error e0 := by
          simpa [TagScanner.log] using hdb
        unfold Scan at h
        simp only [isDirEmpty, h1, hguard, getDBDirTree, h2, Bool.false_eq_true, if_false] at h
        cases h
        exact cacheKept_of_eq rfl
      | ok dirs =>
        rw [Scan_eq env s t r dirs hload hguard hdb] at h
        split at h
        · cases h
        · rename_i s5 fs changed hloop
          have h5 : CacheKept s s5 :=
            cacheKept_then (cacheKept_of_eq (show (walkStart s).cueCache = s.cueCache from rfl))
              (scanFolders_cache _ _ _ _ _ _ _ _ _ _ _ hloop)
          split at h
          · cases h
            exact h5
          · dsimp only at h
            split at h
            · cases h
              exact h5
            · simp only [Ret.val.injEq, Prod.mk.injEq] at h
              obtain ⟨h6, -, -⟩ := h
              subst h6
              refine cacheKept_then h5 (cacheKept_of_eq ?_)
              show (ite _ _ _ : TagScanner).cueCache = _
              split
              · rw [importPlaylists_cache]
                exact processDeletedDirs_cache _ _ _
              · exact processDeletedDirs_cache _ _ _

/-- C22 (amended): `NewTagScanner` creates the scanner with an empty cue cache,
and `Scan` never clears it: every cue sheet cached when a pass starts is still
cached, under the same path, when the pass returns. The cache that a pass sees
holds the sheets of all earlier passes of the same scanner. -/
theorem Scan_keeps_cue_cache (env : Env) (s : TagScanner) (t : Time) (root : String) :
    (NewTagScanner root).cueCache = GoMap.empty ∧
    ∀ s1 n e, Scan env s t = .val (s1, n, e) → ∀ k ∈ s.cueCache.keys, k ∈ s1.cueCache.keys :=
  ⟨rfl, fun s1 n e h => Scan_cache env s t s1 n e h⟩

/-- Witness for C22 (amended): a second pass over the library of `cueScanEnv` -/
theorem Scan_keeps_cue_cache_witness :
    ∃ s1 s2, Scan cueScanEnv (NewTagScanner "music") 5 = .val (s1, 2, none) ∧
      Scan cueScanEnv s1 100 = .val (s2, 0, none) ∧
      "music/a.cue" ∈ s1.cueCache.keys ∧ "music/a.cue" ∈ s2.cueCache.keys := by
  have hrun : ∃ s1 s2, Scan cueScanEnv (NewTagScanner "music") 5 = .val (s1, 2, none) ∧
      Scan cueScanEnv s1 100 = .val (s2, 0, none) ∧ "music/a.cue" ∈ s1.cueCache.keys :=
    ⟨_, _, rfl, rfl, by decide⟩
  obtain ⟨s1, s2, h1, h2, h3⟩ := hrun
  exact ⟨s1, s2, h1, h2, h3,
    (Scan_keeps_cue_cache cueScanEnv s1 100 "music").2 s2 0 none h2 "music/a.cue" h3⟩

/-- C22 (counterexample): the first pass of a new scanner parses `a.cue` and
caches it. The second pass of the same scanner finds nothing changed: it reads
no cue sheet, yet it starts and ends with the sheet of the first pass in its
cache. -/
theorem cue_cache_survives_counterexample :
    ∃ s1 s2, Scan cueScanEnv (NewTagScanner "music") 5 = .val (s1, 2, none) ∧
      s1.cueCache.keys = ["music/a.cue"] ∧
      Scan cueScanEnv s1 100 = .val (s2, 0, none) ∧
      s2.trace.drop s1.trace.length =
        [.withAdminUser, .loadDir "music", .findPathsRecursively "music",
         .walkDirTree "music", .progress 1] ∧
      s2.cueCache.get? "music/a.cue" = some pairSheet := by
  refine ⟨_, _, rfl, ?_, rfl, ?_, ?_⟩ <;> decide

/-! ## The cached sheet and the loader -/

/-- C27 (the code at the failing input): external cue sheets are enabled, the
folder holds `a.flac` and `a.cue`, whose `FILE` entry is `a.flac`. The pass
caches the sheet under the path of the cue file; the loader looks the cache up
under the path of the media file and finds nothing, so `a.flac` is put as an
ordinary track, without the `sub_track` and the titles of the sheet. -/
theorem cached_sheet_not_found :
    ∃ P : DirPass, processChangedDirPass cueExternalEnv freshScanner false "music" = .val P ∧
      P.err = none ∧
      P.s.cueCache.get? "music/a.cue" = some pairSheet ∧
      P.s.cueCache.get? "music/a.flac" = none ∧
      P.s.trace.filter Event.isPut =
        [.put { MediaFile.zero with ID := "music/a.flac#", Path := "music/a.flac" },
         .put { MediaFile.zero with ID := "music/a.flac#", Path := "music/a.flac" }] ∧
      (∃ s2, loadCueSheet cueExternalEnv P.s ⟨"music/a.flac", ⟨10⟩, GoMap.empty⟩
        = .val (s2, [])) := by
  refine ⟨_, rfl, ?_, ?_, ?_, ?_, ⟨_, rfl⟩⟩ <;> decide

/-! ## A cue extractor that could not be created -/

theorem extractFiles_none (env : Env) (cue : Cuesheet) (last embedded : Bool)
    (files : List CueFile) :
    extractFiles env cue last embedded files none = .panic ∨
      extractFiles env cue last embedded files none = .val none := by
  induction files with
  | nil => exact Or.inr rfl
  | cons f files ih =>
    rw [extractFiles]
    split
    · exact Or.inl rfl
    · split
      · exact ih
      · exact Or.inl rfl

theorem loadCueModes_none (env : Env) (s : TagScanner) (md : Tags) (cueStr : String) (n : Nat)
    (modes : List String) (i : Nat) :
    loadCueModes env s md cueStr n i modes none = .panic ∨
      loadCueModes env s md cueStr n i modes none = .val none := by
  induction modes generalizing i with
  | nil => exact Or.inr rfl
  | cons m modes ih =>
    rw [loadCueModes]
    split
    · have hex : Extract env none (env.readCue cueStr).1 (decide (i + 1 = n)) true = .panic ∨
          Extract env none (env.readCue cueStr).1 (decide (i + 1 = n)) true = .val none := by
        unfold Extract
        split
        · exact Or.inl rfl
        · exact extractFiles_none _ _ _ _ _
      rcases hex with h | h
      · rw [h]
        exact Or.inl rfl
      · rw [h]
        exact ih _
    · split
      · split
        · rename_i cue hget
          have hex : Extract env none (some cue) (decide (i + 1 = n)) false = .panic ∨
              Extract env none (some cue) (decide (i + 1 = n)) false = .val none := by
            unfold Extract
            exact extractFiles_none _ _ _ _ _
          rcases hex with h | h
          · rw [h]
            exact Or.inl rfl
          · rw [h]
            exact ih _
        · exact ih _
      · exact ih _

/-- C29 (the code when the extractor cannot be created): for every tag set with
a non-empty cue string, under a setting other than the disabled one, when the
stat made by `NewExtractor` fails, `loadCueSheet` does not return: the error is
only logged and the nil extractor is dereferenced, by `Extract` or at the latest
by `ForEachTrack`. The track loop of `loadTracks` panics with it instead of
falling back to one ordinary track. -/
theorem loadCueSheet_nil_extractor (env : Env) (s : TagScanner) (md : Tags) (err : GoError)
    (hcue : env.mdCueSheet md ≠ "")
    (hsup : env.CUESheetSupport ≠ env.CUEDisable)
    (hstat : env.stat s.trace md.filePath = .error err) :
    loadCueSheet env s md = .panic ∧
    ∀ mds acc, loadTracksLoop env (md :: mds) s acc = .panic := by
  have h1 : loadCueSheet env s md = .panic := by
    unfold loadCueSheet
    simp only [hcue, hsup, or_self, if_false]
    have hne : NewExtractor env s md = (s.log (.stat md.filePath), none, some err) := by
      simp [NewExtractor, hstat]
    rw [hne]
    dsimp only
    rcases loadCueModes_none env (s.log (.stat md.filePath)) md (env.mdCueSheet md)
        (strings.Split env.CUESheetSupport ',').length
        (strings.Split env.CUESheetSupport ',') 0 with h | h
    · rw [h]
    · rw [h]
      rfl
  refine ⟨h1, fun mds acc => ?_⟩
  rw [loadTracksLoop, h1]

/-- Witness for C29: embedded sheets enabled, the media file cannot be stat'ed -/
theorem loadCueSheet_nil_extractor_witness :
    loadCueSheet nilExtractorEnv freshScanner plainTags = .panic ∧
    nilExtractorEnv.stat freshScanner.trace plainTags.filePath = noEntry :=
  ⟨(loadCueSheet_nil_extractor nilExtractorEnv freshScanner plainTags
    "no such file or directory" (by decide) (by decide) rfl).1, rfl⟩

/-! ## The folders of the catalog along a pass -/

theorem foldersAfter_append (env : Env) (a b h : List Event) (K : List String) :
    foldersAfter env h (a ++ b) K = foldersAfter env (h ++ a) b (foldersAfter env h a K) := by
  induction a generalizing h K with
  | nil => simp [foldersAfter]
  | cons e a ih =>
    show foldersAfter env (h ++ [e]) (a ++ b) _ =
      foldersAfter env (h ++ e :: a) b (foldersAfter env (h ++ [e]) a _)
    rw [ih, List.append_assoc, List.singleton_append]

theorem storedFolders_append (env : Env) (a b h : List Event) :
    storedFolders env h (a ++ b) = storedFolders env h a ++ storedFolders env (h ++ a) b := by
  induction a generalizing h with
  | nil => simp [storedFolders]
  | cons e a ih =>
    show _ ++ storedFolders env (h ++ [e]) (a ++ b) =
      (_ ++ storedFolders env (h ++ [e]) a) ++ storedFolders env (h ++ e :: a) b
    rw [ih, List.append_assoc, List.singleton_append, List.append_assoc]

theorem foldersAfter_inert (env : Env) (evs h : List Event) (K : List String)
    (hq : ∀ e ∈ evs, e.keepsFolders = true) :
    foldersAfter env h evs K = K ∧ storedFolders env h evs = [] := by
  induction evs generalizing h with
  | nil => exact ⟨rfl, rfl⟩
  | cons e evs ih =>
    have he := hq e (by simp)
    have h2 := ih (h ++ [e]) (fun e2 h2 => hq e2 (by simp [h2]))
    cases e with
    | put mf => simp [Event.keepsFolders] at he
    | deleteByPath dir => simp [Event.keepsFolders] at he
    | _ =>
      exact ⟨by simp only [foldersAfter]; exact h2.1,
        by simp only [storedFolders, List.nil_append]; exact h2.2⟩

theorem foldersAfter_loop (env : Env) (evs h : List Event) (K : List String)
    (hq : ∀ e ∈ evs, e.inFolderLoop = true) (d : String) :
    d ∈ foldersAfter env h evs K ↔ d ∈ K ∨ d ∈ storedFolders env h evs := by
  induction evs generalizing h K with
  | nil => simp [foldersAfter, storedFolders]
  | cons e evs ih =>
    have he := hq e (by simp)
    have h2 := fun K1 => ih (h ++ [e]) K1 (fun e2 h2 => hq e2 (by simp [h2]))
    cases e with
    | put mf =>
      simp only [foldersAfter, storedFolders]
      rw [h2]
      by_cases hp : env.put h mf = none
      · simp only [hp, if_true, List.mem_cons, List.mem_append, List.mem_singleton,
          List.not_mem_nil, or_false]
        tauto
      · simp only [hp, if_false, List.nil_append]
    | deleteByPath dir => simp [Event.inFolderLoop] at he
    | _ =>
      simp only [foldersAfter, storedFolders, List.nil_append]
      exact h2 K

theorem processDeletedDir_folders (env : Env)
    (hfind : ∀ h d, ∃ mfs, env.findAllByPath h d = .ok mfs)
    (hbulk : ∀ h d, ∃ c, env.deleteByPath h d = .ok c) (s : TagScanner) (dir : String) :
    ∃ evs, (processDeletedDir env s dir).1.trace = s.trace ++ evs ∧
      storedFolders env s.trace evs = [] ∧
      ∀ K, foldersAfter env s.trace evs K = K.filter (fun d => decide (d ≠ dir)) := by
  obtain ⟨mfs, hm⟩ := hfind s.trace dir
  obtain ⟨c, hc⟩ := hbulk (s.trace ++ [.findAllByPath dir]) dir
  have hc2 : env.deleteByPath (s.log (.findAllByPath dir)).trace dir = .ok c := hc
  have hinert : ∀ e ∈ mfs.map Event.accumulate ++ [.flush], e.keepsFolders = true := by
    intro e he
    rcases List.mem_append.1 he with h | h
    · obtain ⟨x, -, rfl⟩ := List.mem_map.1 h
      rfl
    · simp only [List.mem_singleton] at h
      subst h
      rfl
  refine ⟨.findAllByPath dir :: .deleteByPath dir :: (mfs.map Event.accumulate ++ [.flush]),
    ?_, ?_, ?_⟩
  · unfold processDeletedDir
    simp only [hm, hc2]
    rw [show ∀ x : TagScanner, (x.log .flush).trace = x.trace ++ [.flush] from fun _ => rfl,
      (accumulate_all mfs _).2]
    simp [TagScanner.log]
  · simp only [storedFolders, List.nil_append]
    exact (foldersAfter_inert env _ _ [] hinert).2
  · intro K
    simp only [foldersAfter, hc]
    exact (foldersAfter_inert env _ _ _ hinert).1

theorem processDeletedDirs_folders (env : Env)
    (hfind : ∀ h d, ∃ mfs, env.findAllByPath h d = .ok mfs)
    (hbulk : ∀ h d, ∃ c, env.deleteByPath h d = .ok c) (dirs : List String) (s : TagScanner) :
    ∃ evs, (processDeletedDirs env dirs s).trace = s.trace ++ evs ∧
      storedFolders env s.trace evs = [] ∧
      ∀ K d, d ∈ foldersAfter env s.trace evs K ↔ d ∈ K ∧ d ∉ dirs := by
  induction dirs generalizing s with
  | nil => exact ⟨[], by simp [processDeletedDirs], rfl, by simp [foldersAfter]⟩
  | cons dir dirs ih =>
    obtain ⟨e1, ht1, hs1, hf1⟩ := processDeletedDir_folders env hfind hbulk s dir
    obtain ⟨e2, ht2, hs2, hf2⟩ := ih (processDeletedDir env s dir).1
    refine ⟨e1 ++ e2, ?_, ?_, ?_⟩
    · rw [processDeletedDirs, ht2, ht1, List.append_assoc]
    · rw [storedFolders_append, hs1, ← ht1, hs2]
      rfl
    · intro K d
      rw [foldersAfter_append, ← ht1, hf2, hf1]
      simp only [List.mem_filter, decide_eq_true_eq, List.mem_cons, not_or]
      tauto

theorem scanFolders_keys (env : Env) (t : Time) (fullScan : Bool) (db : GoMap String Unit)
    (walk : List dirStats) (s : TagScanner) (fs : dirMap) (changed : List String)
    (s1 : TagScanner) (fs1 : dirMap) (changed1 : List String)
    (h : scanFolders env t fullScan db walk s fs changed = .val (s1, fs1, changed1)) :
    ∀ k, k ∈ fs1.keys ↔ k ∈ fs.keys ∨ ∃ f ∈ walk, f.Path = k := by
  induction walk generalizing s fs changed with
  | nil =>
    rw [scanFolders] at h
    cases h
    simp
  | cons f walk ih =>
    have hcomb : (∀ k, k ∈ fs1.keys ↔ k ∈ (fs.insert f.Path f).keys ∨ ∃ g ∈ walk, g.Path = k) →
        ∀ k, k ∈ fs1.keys ↔ k ∈ fs.keys ∨ ∃ g ∈ f :: walk, g.Path = k := by
      intro h4 k
      rw [h4 k, GoMap.mem_keys_insert]
      constructor
      · rintro ((h | h) | ⟨g, hg, hk⟩)
        · exact Or.inr ⟨f, by simp, h.symm⟩
        · exact Or.inl h
        · exact Or.inr ⟨g, by simp [hg], hk⟩
      · rintro (h | ⟨g, hg, hk⟩)
        · exact Or.inl (Or.inr h)
        · rcases List.mem_cons.1 hg with h | h
          · subst h
            exact Or.inl (Or.inl hk.symm)
          · exact Or.inr ⟨g, h, hk⟩
    rw [scanFolders] at h
    split at h
    · split at h
      · cases h
      · exact hcomb (ih _ _ _ h)
    · exact hcomb (ih _ _ _ h)

/-! ## The identities given to `Delete` -/

theorem quiet_same (s : TagScanner) : Quiet s s := ⟨[], by simp, by simp⟩

theorem quiet_then {s s1 s2 : TagScanner} (h1 : Quiet s s1) (h2 : Quiet s1 s2) : Quiet s s2 := by
  obtain ⟨e1, ht1, hp1⟩ := h1
  obtain ⟨e2, ht2, hp2⟩ := h2
  refine ⟨e1 ++ e2, by rw [ht2, ht1, List.append_assoc], ?_⟩
  intro e he
  rcases List.mem_append.1 he with h | h
  · exact hp1 e h
  · exact hp2 e h

theorem quiet_log (s : TagScanner) (e : Event) (he : e.emptyDelete = true) : Quiet s (s.log e) :=
  ⟨[e], rfl, by simpa using he⟩

theorem quiet_of_eq {s s1 s2 : TagScanner} (h : Quiet s s1) (ht : s2.trace = s1.trace) :
    Quiet s s2 := by
  obtain ⟨e1, ht1, hp1⟩ := h
  exact ⟨e1, by rw [ht, ht1], hp1⟩

theorem emptyDelete_of_kept (e : Event) (h : e.isRemoval = false) : e.emptyDelete = true := by
  cases e <;> first | rfl | simp [Event.isRemoval] at h

theorem noIds_insert (o : GoMap String MediaFile) (k : String) (v : MediaFile) (h : NoIds o)
    (hv : v.ID = "") : NoIds (o.insert k v) := by
  intro kv hkv
  unfold GoMap.insert at hkv
  split at hkv
  · obtain ⟨e, he, rfl⟩ := List.mem_map.1 hkv
    split
    · exact hv
    · exact h e he
  · rcases List.mem_append.1 hkv with h1 | h1
    · exact h kv h1
    · simp only [List.mem_singleton] at h1
      subst h1
      exact hv

theorem noIds_erase (o : GoMap String MediaFile) (k : String) (h : NoIds o) :
    NoIds (o.erase k) := by
  intro kv hkv
  unfold GoMap.erase at hkv
  exact h kv (List.mem_filter.1 hkv).1

theorem noIds_seedTracks (ct : List MediaFile) (cur : GoMap String (List MediaFile))
    (o : GoMap String MediaFile) (h : NoIds o) : NoIds (seedTracks ct (cur, o)).2 := by
  induction ct generalizing cur o with
  | nil => simpa [seedTracks] using h
  | cons t ct ih =>
    rw [seedTracks]
    exact ih _ _ (noIds_insert o t.ID (orphanOf t) h rfl)

theorem noIds_removeFromOrphan (tracks : List MediaFile) (o : GoMap String MediaFile)
    (h : NoIds o) : NoIds (removeFromOrphan o tracks) := by
  intro kv hkv
  rw [removeFromOrphan_entries] at hkv
  exact h kv (List.mem_filter.1 hkv).1

theorem noIds_keepAnnotations (cur : GoMap String (List MediaFile)) (n : MediaFile)
    (o : GoMap String MediaFile) (h : NoIds o) : NoIds (keepAnnotations cur n o).2 := by
  unfold keepAnnotations
  split
  · split
    · exact noIds_erase _ _ h
    · exact h
  · exact h

theorem handleMediaPath_quiet (env : Env) (fullScan : Bool)
    (cur : GoMap String (List MediaFile)) (p : String) (cb : Time → MediaFile → Bool)
    (s : TagScanner) (c : DirCtx) (s1 : TagScanner) (c1 : DirCtx) (b : Bool)
    (h : handleMediaPath env fullScan cur p cb s c = .val (s1, c1, b)) :
    Quiet s s1 ∧ (NoIds c.orphanTracks → NoIds c1.orphanTracks) := by
  have hstat : Quiet s (s.log (.stat p)) := quiet_log s _ rfl
  have hadd := addMediaForUpdate_frame (s.log (.stat p)) c.filesToUpdate p c.visitedPaths
  unfold handleMediaPath at h
  split at h
  · cases h
    exact ⟨hstat, fun hk => hk⟩
  · split at h
    · cases h
      exact ⟨quiet_of_eq hstat hadd.1, fun hk => hk⟩
    · split at h
      · cases h
        exact ⟨quiet_of_eq hstat hadd.1, fun hk => hk⟩
      · split at h
        · cases h
        · rename_i t0 rest
          cases h
          split
          · exact ⟨quiet_then (quiet_of_eq hstat hadd.1) (quiet_log _ _ rfl), fun hk => hk⟩
          · exact ⟨quiet_then hstat (quiet_log _ _ rfl),
              fun hk => noIds_removeFromOrphan _ _ hk⟩

theorem visitCueFiles_quiet (env : Env) (fullScan : Bool)
    (cur : GoMap String (List MediaFile)) (filePath : String) (cueInfo : FileInfo)
    (cue : Cuesheet) (l : List CueFile) (s : TagScanner) (c : DirCtx) (s1 : TagScanner)
    (c1 : DirCtx)
    (h : visitCueFiles env fullScan cur filePath cueInfo cue l s c = .val (s1, c1)) :
    Quiet s s1 ∧ (NoIds c.orphanTracks → NoIds c1.orphanTracks) := by
  induction l generalizing s c with
  | nil =>
    simp only [visitCueFiles] at h
    cases h
    exact ⟨quiet_same _, fun hk => hk⟩
  | cons f l ih =>
    rw [visitCueFiles] at h
    split at h
    · cases h
    · rename_i s2 c2 hh
      have h1 := handleMediaPath_quiet _ _ _ _ _ _ _ _ _ _ hh
      have h2 := ih _ _ h
      exact ⟨quiet_then h1.1 (quiet_of_eq (quiet_of_eq h2.1 rfl) rfl),
        fun hk => h2.2 (h1.2 hk)⟩
    · rename_i s2 c2 hh
      have h1 := handleMediaPath_quiet _ _ _ _ _ _ _ _ _ _ hh
      have h2 := ih _ _ h
      exact ⟨quiet_then h1.1 h2.1, fun hk => h2.2 (h1.2 hk)⟩

theorem visitEntry_quiet (env : Env) (fullScan : Bool)
    (cur : GoMap String (List MediaFile)) (filePath : String)
    (s : TagScanner) (c : DirCtx) (s1 : TagScanner) (c1 : DirCtx)
    (h : visitEntry env fullScan cur filePath s c = .val (s1, c1)) :
    Quiet s s1 ∧ (NoIds c.orphanTracks → NoIds c1.orphanTracks) := by
  unfold visitEntry at h
  split at h
  · split at h
    · cases h
      exact ⟨quiet_log _ _ rfl, fun hk => hk⟩
    · dsimp only at h
      split at h
      · cases h
        exact ⟨quiet_then (quiet_log s (.entryInfo filePath) rfl)
          (quiet_log _ (.readFromFile filePath) rfl), fun hk => hk⟩
      · have h2 := visitCueFiles_quiet _ _ _ _ _ _ _ _ _ _ _ h
        exact ⟨quiet_then (quiet_then (quiet_log s (.entryInfo filePath) rfl)
          (quiet_log _ (.readFromFile filePath) rfl)) h2.1, h2.2⟩
  · split at h
    · cases h
    · rename_i s2 c2 b hh
      cases h
      exact handleMediaPath_quiet _ _ _ _ _ _ _ _ _ _ hh

theorem visitEntries_quiet (env : Env) (fullScan : Bool)
    (cur : GoMap String (List MediaFile)) (l : List (String × DirEntry))
    (s : TagScanner) (c : DirCtx) (s1 : TagScanner) (c1 : DirCtx)
    (h : visitEntries env fullScan cur l s c = .val (s1, c1)) :
    Quiet s s1 ∧ (NoIds c.orphanTracks → NoIds c1.orphanTracks) := by
  induction l generalizing s c with
  | nil =>
    simp only [visitEntries] at h
    cases h
    exact ⟨quiet_same _, fun hk => hk⟩
  | cons kv l ih =>
    rw [visitEntries] at h
    split at h
    · cases h
    · rename_i s2 c2 hh
      have h1 := visitEntry_quiet _ _ _ _ _ _ _ _ hh
      have h2 := ih _ _ h
      exact ⟨quiet_then h1.1 h2.1, fun hk => h2.2 (h1.2 hk)⟩

theorem putTracks_noIds (env : Env) (cur : GoMap String (List MediaFile)) (l : List MediaFile)
    (s : TagScanner) (o : GoMap String MediaFile) (n : Int) (h : NoIds o) :
    NoIds (putTracks env (keepAnnotations cur) l s o n).2.1 := by
  induction l generalizing s o n with
  | nil => simpa [putTracks] using h
  | cons t l ih =>
    rw [putTracks]
    split
    · exact noIds_keepAnnotations cur t o h
    · exact ih _ _ _ (noIds_keepAnnotations cur t o h)

theorem updateChunks_quiet (env : Env) (cur : GoMap String (List MediaFile))
    (chunks : List (List String)) (s : TagScanner) (o : GoMap String MediaFile) (n : Int)
    (s1 : TagScanner) (o1 : GoMap String MediaFile) (n1 : Int) (err : Option GoError)
    (h : updateChunks env (keepAnnotations cur) chunks s o n = .val (s1, o1, n1, err)) :
    Quiet s s1 ∧ (NoIds o → NoIds o1) := by
  constructor
  · have hout := updateChunks_outcome env (keepAnnotations cur) chunks s o n s1 o1 n1 err h
    cases err with
    | none =>
      obtain ⟨evs, ht, hl, -⟩ := hout
      have hk := loaderLog_kinds env evs s.trace hl
      exact ⟨evs, ht, fun e he => emptyDelete_of_kept e (hk e he).2⟩
    | some e0 =>
      obtain ⟨-, evs, last, ht, hl, hf⟩ := hout
      have hk := loaderLog_kinds env evs s.trace hl
      have hk2 := failsWith_kinds env _ _ _ hf
      refine ⟨evs ++ [last], by rw [ht, List.append_assoc], ?_⟩
      intro e he
      rcases List.mem_append.1 he with h1 | h1
      · exact emptyDelete_of_kept e (hk e h1).2
      · simp only [List.mem_singleton] at h1
        subst h1
        exact emptyDelete_of_kept _ hk2.2
  · induction chunks generalizing s o n with
    | nil =>
      simp only [updateChunks] at h
      cases h
      exact fun hk => hk
    | cons chunk chunks ih =>
      rw [updateChunks] at h
      split at h
      · cases h
      · cases h
        exact fun hk => hk
      · rename_i s2 newTracks hh
        have h2 := putTracks_noIds env cur newTracks s2 o n
        split at h
        · rename_i s3 o3 e hp
          rw [hp] at h2
          cases h
          exact h2
        · rename_i s3 o3 n3 hp
          rw [hp] at h2
          exact fun hk => ih _ _ _ h (h2 hk)

theorem deleteOrphanLoop_quiet (env : Env) (l : List (String × MediaFile))
    (hl : ∀ kv ∈ l, kv.2.ID = "") (s : TagScanner) (n : Int) :
    Quiet s (deleteOrphanLoop env l s n).1 := by
  induction l generalizing s n with
  | nil => exact quiet_same _
  | cons kv l ih =>
    have hid := hl kv (by simp)
    have hlog : Quiet s ((s.log (.accumulate kv.2)).log (.delete kv.2.ID)) :=
      quiet_then (quiet_log s (.accumulate kv.2) rfl)
        (quiet_log _ (.delete kv.2.ID) (by simp [Event.emptyDelete, hid]))
    rw [deleteOrphanLoop]
    cases hdel : env.delete (s.log (.accumulate kv.2)).trace kv.2.ID with
    | some err => exact hlog
    | none =>
      exact quiet_then (quiet_of_eq hlog rfl) (ih (fun kv2 h2 => hl kv2 (by simp [h2])) _ _)

theorem processChangedDirPass_quiet (env : Env) (s : TagScanner) (fullScan : Bool)
    (dir : String) (P : DirPass) (hP : processChangedDirPass env s fullScan dir = .val P) :
    Quiet s P.s := by
  have h1 : Quiet s (s.log (.findAllByPath dir)) := quiet_log s _ rfl
  unfold processChangedDirPass at hP
  dsimp only at hP
  split at hP
  · cases hP
    exact h1
  · rename_i ct hct
    have h2 : Quiet s
        (loadAllAudioFiles env (s.log (.findAllByPath dir)) dir env.CUESheetSupport).1 := by
      rw [loadAllAudioFiles_state]
      exact quiet_then h1 (quiet_log _ _ rfl)
    have hseed : NoIds (seedTracks ct (GoMap.empty, GoMap.empty)).2 :=
      noIds_seedTracks ct _ _ (by intro kv hkv; simp [GoMap.empty] at hkv)
    split at hP
    · rename_i s2 err hla
      cases hP
      rw [hla] at h2
      exact h2
    · rename_i s2 files hla
      rw [hla] at h2
      simp only at h2
      split at hP
      · cases hP
        exact h2
      · split at hP
        · cases hP
        · rename_i s3 c hvis
          obtain ⟨h3, h3n⟩ := visitEntries_quiet _ _ _ _ _ _ _ _ hvis
          have hc : NoIds c.orphanTracks := h3n hseed
          split at hP
          · cases hP
          · rename_i s4 orphans n4 err hupd
            cases hP
            have h4 : Quiet s3 s4 := by
              split at hupd
              · exact (updateChunks_quiet _ _ _ _ _ _ _ _ _ _ hupd).1
              · cases hupd
            exact quiet_then (quiet_then h2 h3) h4
          · rename_i s4 orphans n4 hupd
            have h4 : Quiet s3 s4 ∧ NoIds orphans := by
              split at hupd
              · have := updateChunks_quiet _ _ _ _ _ _ _ _ _ _ hupd
                exact ⟨this.1, this.2 hc⟩
              · cases hupd
                exact ⟨quiet_same _, hc⟩
            have h5 := deleteOrphanLoop_quiet env (env.order.range orphans.entries)
              (fun kv hkv => h4.2 kv ((env.order.perm orphans.entries).mem_iff.1 hkv)) s4 0
            split at hP
            · rename_i s5 n5 err hpur
              cases hP
              split at hpur
              · unfold deleteOrphanSongs at hpur
                rw [hpur] at h5
                exact quiet_then (quiet_then (quiet_then h2 h3) h4.1) h5
              · cases hpur
            · rename_i s5 n5 hpur
              cases hP
              split at hpur
              · unfold deleteOrphanSongs at hpur
                rw [hpur] at h5
                exact quiet_then (quiet_then (quiet_then (quiet_then h2 h3) h4.1) h5)
                  (quiet_log _ _ rfl)
              · cases hpur
                exact quiet_then (quiet_then (quiet_then h2 h3) h4.1) (quiet_log _ _ rfl)

theorem scanFolders_quiet (env : Env) (t : Time) (fullScan : Bool)
    (allDBDirs : GoMap String Unit) (walk : List dirStats) (s : TagScanner) (fs : dirMap)
    (changed : List String) (s1 : TagScanner) (fs1 : dirMap) (changed1 : List String)
    (h : scanFolders env t fullScan allDBDirs walk s fs changed = .val (s1, fs1, changed1)) :
    Quiet s s1 := by
  induction walk generalizing s fs changed with
  | nil =>
    simp only [scanFolders] at h
    cases h
    exact quiet_same _
  | cons f walk ih =>
    rw [scanFolders] at h
    have h1 : Quiet s (s.log (.progress f.AudioFilesCount)) := quiet_log s _ rfl
    split at h
    · split at h
      · cases h
      · rename_i s2 e hp
        unfold processChangedDir at hp
        split at hp
        · cases hp
        · rename_i P hP
          cases hp
          exact quiet_then (quiet_then h1 (processChangedDirPass_quiet _ _ _ _ _ hP)) (ih _ _ _ h)
    · exact quiet_then h1 (ih _ _ _ h)

theorem processDeletedDirs_quiet (env : Env) (dirs : List String) (s : TagScanner) :
    Quiet s (processDeletedDirs env dirs s) := by
  induction dirs generalizing s with
  | nil => exact quiet_same _
  | cons d dirs ih =>
    rw [processDeletedDirs]
    refine quiet_then ?_ (ih _)
    have h1 : Quiet s (s.log (.findAllByPath d)) := quiet_log s _ rfl
    unfold processDeletedDir
    dsimp only
    split
    · exact h1
    · rename_i mfs hfind
      cases hdel : env.deleteByPath (s.log (.findAllByPath d)).trace d with
      | error err => exact quiet_then h1 (quiet_log _ (.deleteByPath d) rfl)
      | ok c =>
        have hacc := accumulate_all mfs
          { (s.log (.findAllByPath d)).log (.deleteByPath d) with
            cnt := ((s.log (.findAllByPath d)).log (.deleteByPath d)).cnt.addDeleted c }
        have h3 : Quiet ((s.log (.findAllByPath d)).log (.deleteByPath d))
            (mfs.foldl (fun st t => st.log (.accumulate t))
              { (s.log (.findAllByPath d)).log (.deleteByPath d) with
                cnt := ((s.log (.findAllByPath d)).log (.deleteByPath d)).cnt.addDeleted c }) := by
          refine ⟨mfs.map Event.accumulate, hacc.2, ?_⟩
          intro e he
          obtain ⟨x, -, rfl⟩ := List.mem_map.1 he
          rfl
        exact quiet_then (quiet_then (quiet_then h1 (quiet_log _ (.deleteByPath d) rfl))
          (quiet_of_eq h3 rfl)) (quiet_log _ .flush rfl)

/-- Every `Delete` call of a pass of `Scan` carries the empty identity: the
orphan set of a folder pass holds record literals without identity, and the
purge passes the identity of the literal. -/
theorem Scan_delete_calls (env : Env) (s : TagScanner) (t : Time) (r : List String × dirStats)
    (dirs : List String) (s1 : TagScanner) (n : Int) (e : Option GoError)
    (hload : env.loadDir (s.trace ++ [.withAdminUser]) s.rootFolder = .ok r)
    (hguard : (decide (r.1.length = 0) && decide (r.2.AudioFilesCount = 0) && !t.IsZero) = false)
    (hdb : env.findPathsRecursively (s.trace ++ [.withAdminUser, .loadDir s.rootFolder])
      s.rootFolder = .ok dirs)
    (h : Scan env s t = .val (s1, n, e)) :
    ∀ id, Event.delete id ∈ passCalls s s1 → id = "" := by
  have hq : Quiet (walkStart s) s1 := by
    rw [Scan_eq env s t r dirs hload hguard hdb] at h
    split at h
    · cases h
    · rename_i s5 fs changed hloop
      have h5 := scanFolders_quiet _ _ _ _ _ _ _ _ _ _ _ hloop
      split at h
      · cases h
        exact h5
      · dsimp only at h
        split at h
        · cases h
          exact h5
        · simp only [Ret.val.injEq, Prod.mk.injEq] at h
          obtain ⟨h1, -, -⟩ := h
          subst h1
          have h6 := processDeletedDirs_quiet env
            (getDeletedDirs env.order fs (dbDirTree dirs)) s5
          have h7 : Quiet s5
              { processDeletedDirs env (getDeletedDirs env.order fs (dbDirTree dirs)) s5 with
                cnt := { (processDeletedDirs env
                  (getDeletedDirs env.order fs (dbDirTree dirs)) s5).cnt with playlists := 0 } } :=
            quiet_of_eq h6 rfl
          refine quiet_then (quiet_then h5 (quiet_then h7 ?_)) (quiet_log _ _ rfl)
          split
          · refine ⟨_, importPlaylists_trace _ _ _ _ _, ?_⟩
            intro e he
            split at he
            · obtain ⟨x, -, rfl⟩ := List.mem_map.1 he
              rfl
            · simp at he
          · exact quiet_same _
  obtain ⟨evs, ht, hp⟩ := hq
  intro id hid
  unfold passCalls at hid
  rw [ht, List.drop_left] at hid
  have := hp _ hid
  simpa [Event.emptyDelete] using this

theorem Scan_tail_folders (env : Env)
    (hfind : ∀ h d, ∃ mfs, env.findAllByPath h d = .ok mfs)
    (hbulk : ∀ h d, ∃ c, env.deleteByPath h d = .ok c) (isAdmin auto : Bool) (fs : dirMap)
    (changed dirs : List String) (s5 : TagScanner) :
    ∃ evs,
      (TagScanner.log
        (if auto then
          importPlaylists env isAdmin fs changed
            { processDeletedDirs env dirs s5 with
              cnt := { (processDeletedDirs env dirs s5).cnt with playlists := 0 } }
        else
          { processDeletedDirs env dirs s5 with
            cnt := { (processDeletedDirs env dirs s5).cnt with playlists := 0 } })
        (.gc (if auto then
          importPlaylists env isAdmin fs changed
            { processDeletedDirs env dirs s5 with
              cnt := { (processDeletedDirs env dirs s5).cnt with playlists := 0 } }
        else
          { processDeletedDirs env dirs s5 with
            cnt := { (processDeletedDirs env dirs s5).cnt with playlists := 0 } }).rootFolder)).trace =
        s5.trace ++ evs ∧
      storedFolders env s5.trace evs = [] ∧
      ∀ K d, d ∈ foldersAfter env s5.trace evs K ↔ d ∈ K ∧ d ∉ dirs := by
  obtain ⟨e1, ht1, hs1, hf1⟩ := processDeletedDirs_folders env hfind hbulk dirs s5
  have key : ∀ X : TagScanner,
      (∃ e2, X.trace = (processDeletedDirs env dirs s5).trace ++ e2 ∧
        ∀ e ∈ e2, e.keepsFolders = true) →
      ∃ evs, (X.log (.gc X.rootFolder)).trace = s5.trace ++ evs ∧
        storedFolders env s5.trace evs = [] ∧
        ∀ K d, d ∈ foldersAfter env s5.trace evs K ↔ d ∈ K ∧ d ∉ dirs := by
    rintro X ⟨e2, ht2, hq2⟩
    have hq3 : ∀ e ∈ e2 ++ [Event.gc X.rootFolder], e.keepsFolders = true := by
      intro e he
      rcases List.mem_append.1 he with h | h
      · exact hq2 e h
      · simp only [List.mem_singleton] at h
        subst h
        rfl
    have hin := foldersAfter_inert env (e2 ++ [Event.gc X.rootFolder]) (s5.trace ++ e1)
    refine ⟨e1 ++ (e2 ++ [Event.gc X.rootFolder]), ?_, ?_, ?_⟩
    · show X.trace ++ [Event.gc X.rootFolder] = _
      rw [ht2, ht1]
      simp
    · rw [storedFolders_append, hs1, (hin [] hq3).2]
      rfl
    · intro K d
      rw [foldersAfter_append, (hin _ hq3).1, hf1]
  apply key
  cases auto
  · exact ⟨[], by simp, by simp⟩
  · refine ⟨if isAdmin then (playlistDirs fs changed).map Event.processPlaylists else [],
      ?_, ?_⟩
    · simp only [if_true]
      rw [importPlaylists_trace]
    · intro e he
      split at he
      · obtain ⟨x, -, rfl⟩ := List.mem_map.1 he
        rfl
      · simp at he

theorem Scan_folders (env : Env) (s : TagScanner) (t : Time) (r : List String × dirStats)
    (dirs : List String) (s1 : TagScanner) (n : Int) (e : Option GoError)
    (hload : env.loadDir (s.trace ++ [.withAdminUser]) s.rootFolder = .ok r)
    (hguard : (decide (r.1.length = 0) && decide (r.2.AudioFilesCount = 0) && !t.IsZero) = false)
    (hdb : env.findPathsRecursively (s.trace ++ [.withAdminUser, .loadDir s.rootFolder])
      s.rootFolder = .ok dirs)
    (hwalk : (walkOf env s).2 = none)
    (hfind : ∀ h d, ∃ mfs, env.findAllByPath h d = .ok mfs)
    (hbulk : ∀ h d, ∃ c, env.deleteByPath h d = .ok c)
    (h : Scan env s t = .val (s1, n, e)) :
    ∃ evs, s1.trace = (walkStart s).trace ++ evs ∧
      ∀ K d, d ∈ foldersAfter env (walkStart s).trace evs K ↔
        (d ∈ K ∨ d ∈ storedFolders env (walkStart s).trace evs) ∧
        (d ∈ (dbDirTree dirs).keys → ∃ f ∈ (walkOf env s).1, f.Path = d) := by
  rw [Scan_eq env s t r dirs hload hguard hdb] at h
  split at h
  · cases h
  · rename_i s5 fs changed hloop
    obtain ⟨loopEvs, ht5, hq5, -, -⟩ := scanFolders_step _ _ _ _ _ _ _ _ _ _ _ hloop
    have hkeys := scanFolders_keys _ _ _ _ _ _ _ _ _ _ _ hloop
    have hdel : ∀ d, d ∈ getDeletedDirs env.order fs (dbDirTree dirs) ↔
        d ∈ (dbDirTree dirs).keys ∧ ¬ ∃ f ∈ (walkOf env s).1, f.Path = d := by
      intro d
      rw [(getDeletedDirs_perm _ _ _).mem_iff, List.mem_filter]
      have hc := GoMap.contains_iff fs d
      have hk := hkeys d
      have hempty : d ∉ (GoMap.empty : dirMap).keys := by simp [GoMap.empty, GoMap.keys]
      constructor
      · rintro ⟨h1, h2⟩
        refine ⟨h1, fun hw => ?_⟩
        have := hc.2 (hk.2 (Or.inr hw))
        simp [this] at h2
      · rintro ⟨h1, h2⟩
        refine ⟨h1, ?_⟩
        cases hcon : fs.contains d
        · rfl
        · rcases hk.1 (hc.1 hcon) with h3 | h3
          · exact absurd h3 hempty
          · exact absurd h3 h2
    have hloopf := foldersAfter_loop env loopEvs (walkStart s).trace
    simp only [hwalk] at h
    split at h
    · rename_i hzero
      cases h
      have hnil : getDeletedDirs env.order fs (dbDirTree dirs) = [] :=
        List.length_eq_zero.1 (by omega)
      refine ⟨loopEvs, ht5, fun K d => ?_⟩
      rw [hloopf K hq5 d]
      constructor
      · intro h1
        refine ⟨h1, fun hk => ?_⟩
        by_contra hw
        have := (hdel d).2 ⟨hk, hw⟩
        rw [hnil] at this
        simp at this
      · exact fun h1 => h1.1
    · simp only [Ret.val.injEq, Prod.mk.injEq] at h
      obtain ⟨h1, -, -⟩ := h
      subst h1
      obtain ⟨tailEvs, ht, hs, hf⟩ := Scan_tail_folders env hfind hbulk (env.adminUser s.trace)
        env.AutoImportPlaylists fs changed (getDeletedDirs env.order fs (dbDirTree dirs)) s5
      refine ⟨loopEvs ++ tailEvs, ?_, fun K d => ?_⟩
      · rw [ht, ht5, List.append_assoc]
      · rw [foldersAfter_append, ← ht5, hf, hloopf K hq5 d, storedFolders_append, ← ht5, hs,
          List.append_nil, hdel d]
        constructor
        · rintro ⟨h1, h2⟩
          refine ⟨h1, fun hk => ?_⟩
          by_contra hw
          exact h2 ⟨hk, hw⟩
        · rintro ⟨h1, h2⟩
          exact ⟨h1, fun h3 => h3.2 (h2 h3.1)⟩

/-- C11 (amended): the media folder is not empty. A first pass of `Scan` gets
past its prologue, its walker ends without error, no `FindAllByPath` and no
`DeleteByPath` call fails, and it returns, leaving the scanner `s1`. The second
pass is started on `s1` over the same disk (same listing of the root, same
walk) with a `lastModifiedSince` that no walked folder was modified after, and
over the catalog as the first pass left it: a folder is listed when it was
listed before or a record was stored in it, and it was not bulk-deleted.
Provided that the first pass stored a record in every walked folder that has
audio files and was unknown to the catalog, and stored records in walked
folders only, the second pass finds no changed and no deleted directory: it
returns `(0, nil)` with all counters at zero and, after its prologue, only
reports progress, so it writes nothing. Every `Delete` call of the first pass
carried the empty identity, which is why the folders of the catalog follow the
`Put` and `DeleteByPath` calls alone. -/
theorem Scan_second_pass_idle (env : Env) (s s1 : TagScanner) (t1 t2 : Time) (n1 : Int)
    (e1 : Option GoError) (r : List String × dirStats) (dirs1 dirs2 : List String)
    (hload1 : env.loadDir (s.trace ++ [.withAdminUser]) s.rootFolder = .ok r)
    (hroot : (decide (r.1.length = 0) && decide (r.2.AudioFilesCount = 0)) = false)
    (hdb1 : env.findPathsRecursively (s.trace ++ [.withAdminUser, .loadDir s.rootFolder])
      s.rootFolder = .ok dirs1)
    (hwalk1 : (walkOf env s).2 = none)
    (hfind : ∀ h d, ∃ mfs, env.findAllByPath h d = .ok mfs)
    (hbulk : ∀ h d, ∃ c, env.deleteByPath h d = .ok c)
    (hfirst : Scan env s t1 = .val (s1, n1, e1))
    (hstored : ∀ f ∈ (walkOf env s).1, 0 < f.AudioFilesCount →
      f.Path ∉ (dbDirTree dirs1).keys →
      f.Path ∈ storedFolders env (walkStart s).trace (passCalls s s1))
    (hinside : ∀ d ∈ storedFolders env (walkStart s).trace (passCalls s s1),
      ∃ f ∈ (walkOf env s).1, f.Path = d)
    (hload2 : env.loadDir (s1.trace ++ [.withAdminUser]) s1.rootFolder = .ok r)
    (hwalk2 : walkOf env s1 = walkOf env s)
    (htime : ∀ f ∈ (walkOf env s).1, ¬ t2 < f.ModTime)
    (hdb2 : env.findPathsRecursively (s1.trace ++ [.withAdminUser, .loadDir s1.rootFolder])
      s1.rootFolder = .ok dirs2)
    (hrepo : ∀ d, d ∈ (dbDirTree dirs2).keys ↔
      d ∈ foldersAfter env (walkStart s).trace (passCalls s s1) (dbDirTree dirs1).keys) :
    (∀ id, Event.delete id ∈ passCalls s s1 → id = "") ∧
    ∃ s2, Scan env s1 t2 = .val (s2, 0, none) ∧
      s2.cnt = ⟨0, 0, 0, 0⟩ ∧
      s2.trace = s1.trace ++ [.withAdminUser, .loadDir s1.rootFolder,
          .findPathsRecursively s1.rootFolder, .walkDirTree s1.rootFolder] ++
        (walkOf env s).1.map (fun f => Event.progress f.AudioFilesCount) ∧
      ∀ e ∈ s2.trace.drop s1.trace.length, e.isWrite = false := by
  have hguard1 : (decide (r.1.length = 0) && decide (r.2.AudioFilesCount = 0) && !t1.IsZero)
      = false := by
    rw [hroot]
    rfl
  have hguard2 : (decide (r.1.length = 0) && decide (r.2.AudioFilesCount = 0) && !t2.IsZero)
      = false := by
    rw [hroot]
    rfl
  obtain ⟨evs, htr, hfold⟩ := Scan_folders env s t1 r dirs1 s1 n1 e1 hload1 hguard1 hdb1 hwalk1
    hfind hbulk hfirst
  have hpc : passCalls s s1 = evs := by
    unfold passCalls
    rw [htr, List.drop_left]
  rw [hpc] at hstored hinside hrepo
  have hidle : ∀ f ∈ (walkOf env s1).1, folderHasChanged f (dbDirTree dirs2) t2 = false := by
    rw [hwalk2]
    intro f hf
    have ht := htime f hf
    have hin : 0 < f.AudioFilesCount → f.Path ∈ (dbDirTree dirs2).keys := by
      intro hpos
      rw [hrepo, hfold]
      refine ⟨?_, fun _ => ⟨f, hf, rfl⟩⟩
      by_cases hk : f.Path ∈ (dbDirTree dirs1).keys
      · exact Or.inl hk
      · exact Or.inr (hstored f hf hpos hk)
    unfold folderHasChanged Time.After
    by_cases hpos : 0 < f.AudioFilesCount
    · simp [(GoMap.contains_iff _ _).2 (hin hpos), ht]
    · simp [hpos, ht]
  have hkept : ∀ d ∈ (dbDirTree dirs2).keys, ∃ f ∈ (walkOf env s1).1, f.Path = d := by
    rw [hwalk2]
    intro d hd
    rw [hrepo, hfold] at hd
    obtain ⟨h1 | h1, h2⟩ := hd
    · exact h2 h1
    · exact hinside d h1
  have hres := Scan_unchanged env s1 t2 r dirs2 hload2 hguard2 hdb2 (by rw [hwalk2]; exact hwalk1)
    hidle hkept
  rw [hwalk2] at hres
  exact ⟨Scan_delete_calls env s t1 r dirs1 s1 n1 e1 hload1 hguard1 hdb1 hfirst, hres⟩

/-- Witness for C11 (amended): the first pass over the library of
`newFolderEnv` stores the record of `a.mp3` in the folder `music`, unknown to
the catalog until then; the second pass, run with the time 100, is idle -/
theorem Scan_second_pass_idle_witness :
    ∃ s1 s2, Scan newFolderEnv freshScanner 5 = .val (s1, 1, none) ∧
      storedFolders newFolderEnv (walkStart freshScanner).trace (passCalls freshScanner s1) =
        ["music"] ∧
      Scan newFolderEnv s1 100 = .val (s2, 0, none) ∧ s2.cnt = ⟨0, 0, 0, 0⟩ ∧
      ∀ e ∈ s2.trace.drop s1.trace.length, e.isWrite = false := by
  obtain ⟨s1, hfirst, hst, hfo, hstored, hinside, hload2, hwalk2, hany⟩ :
      ∃ s1, Scan newFolderEnv freshScanner 5 = .val (s1, 1, none) ∧
        storedFolders newFolderEnv (walkStart freshScanner).trace (passCalls freshScanner s1) =
          ["music"] ∧
        foldersAfter newFolderEnv (walkStart freshScanner).trace (passCalls freshScanner s1)
          (dbDirTree []).keys = ["music"] ∧
        (∀ f ∈ (walkOf newFolderEnv freshScanner).1, 0 < f.AudioFilesCount →
          f.Path ∉ (dbDirTree []).keys →
          f.Path ∈ storedFolders newFolderEnv (walkStart freshScanner).trace
            (passCalls freshScanner s1)) ∧
        (∀ d ∈ storedFolders newFolderEnv (walkStart freshScanner).trace
            (passCalls freshScanner s1),
          ∃ f ∈ (walkOf newFolderEnv freshScanner).1, f.Path = d) ∧
        newFolderEnv.loadDir (s1.trace ++ [.withAdminUser]) s1.rootFolder =
          .ok ([], ⟨"music", 20, false, 1⟩) ∧
        walkOf newFolderEnv s1 = walkOf newFolderEnv freshScanner ∧
        List.any (s1.trace ++ [Event.withAdminUser, Event.loadDir s1.rootFolder])
          Event.isPut = true :=
    ⟨_, rfl, by decide, by decide, by decide, by decide, rfl, rfl, by decide⟩
  have hdb2 : newFolderEnv.findPathsRecursively
      (s1.trace ++ [.withAdminUser, .loadDir s1.rootFolder]) s1.rootFolder = .ok ["music"] := by
    show (if List.any (s1.trace ++ [Event.withAdminUser, Event.loadDir s1.rootFolder])
        Event.isPut = true
      then (Except.ok ["music"] : Except GoError (List String)) else Except.ok []) = _
    rw [if_pos hany]
  obtain ⟨-, s2, h2, hc, -, hw⟩ := Scan_second_pass_idle newFolderEnv freshScanner s1 5 100 1 none
    ([], ⟨"music", 20, false, 1⟩) [] ["music"] rfl (by decide) rfl rfl
    (fun _ _ => ⟨_, rfl⟩) (fun _ _ => ⟨_, rfl⟩) hfirst hstored hinside hload2 hwalk2
    (by decide) hdb2
    (by
      intro d
      rw [hfo]
      rfl)
  exact ⟨s1, s2, hfirst, hst, h2, hc, hw⟩

/-! ## Transcoder command line -/

set_option maxRecDepth 20000

theorem createFFmpegCommand_plain_test :
    ffmpeg.createFFmpegCommandForMedia "ffmpeg -i %s -b:a %bk -" "mp3" "/music library/file.mp3"
        "" ffmpeg.plainMedia 123 0 =
      .val ["ffmpeg", "-i", "/music library/file.mp3", "-b:a", "123k", "-f", "mp3", "-"] := by
  decide

theorem createFFmpegCommand_offset_param_test :
    ffmpeg.createFFmpegCommandForMedia "ffmpeg -i %s -b:a %bk -ss %t -f mp3 -" "ogg"
        "/music library/file.mp3" "" ffmpeg.plainMedia 123 456 =
      .val ["ffmpeg", "-i", "/music library/file.mp3", "-b:a", "123k", "-ss", "456", "-f", "mp3",
        "-"] := by
  decide

theorem createFFmpegCommand_offset_added_test :
    ffmpeg.createFFmpegCommandForMedia "ffmpeg -i %s -b:a %bk -f mp3 -" "ogg"
        "/music library/file.mp3" "" ffmpeg.plainMedia 123 456 =
      .val ["ffmpeg", "-i", "/music library/file.mp3", "-ss", "456", "-b:a", "123k", "-f", "mp3",
        "-"] := by
  decide

theorem createFFmpegCommand_subtrack_test :
    ffmpeg.createFFmpegCommandForMedia "ffmpeg -i %s -b:a %bk -f mp3 -" "ogg"
        "/music library/file.ape" "" ffmpeg.subTrackMedia 123 456 =
      .val ["ffmpeg", "-ss", "00:09:16.000", "-t", "00:00:05.000", "-i",
        "/music library/file.ape", "-b:a", "123k", "-f", "mp3",
        "-metadata", "title=title", "-metadata", "artist=Artist", "-metadata", "album=Album",
        "-metadata", "year=2019", "-metadata", "track=5", "-metadata", "comment=c",
        "-metadata", "genre=rock", "-metadata", "cuesheet=", "-"] := by
  decide

/-- The range of a sub-track is computed in `float32`: the offset 20000.125 s
times 1000 is not a `float32` and rounds to 20000124 ms, and an offset of
16777216 s absorbs an extra second. -/
theorem makeRangeParams_rounds :
    ffmpeg.makeRangeParams
        { ffmpeg.subTrackMedia with Offset := .finite (160001 * 2 ^ 146) } 0 =
      ["-ss", "05:33:20.124", "-t", "00:00:05.000"] ∧
    ffmpeg.makeRangeParams
        { ffmpeg.subTrackMedia with Offset := ffmpeg.float32.ofInt 16777216 } 1 =
      ffmpeg.makeRangeParams
        { ffmpeg.subTrackMedia with Offset := ffmpeg.float32.ofInt 16777216 } 0 := by
  constructor <;> decide

/-- C25 (the code at the failing input): the media file is not a sub-track and
the template names the offset placeholder before the source placeholder. The
placeholder is replaced by the offset 456, and the source token, coming later,
sets the insertion index again: a second `-ss 456` is inserted after the source
path. -/
theorem createFFmpegCommand_offset_twice :
    ffmpeg.isSubTrack ffmpeg.plainMedia = false ∧
    "%t" ∈ strings.Split "ffmpeg -ss %t -i %s -f mp3 -" ' ' ∧
    ffmpeg.createFFmpegCommandForMedia "ffmpeg -ss %t -i %s -f mp3 -" "ogg"
        "/music library/file.mp3" "" ffmpeg.plainMedia 123 456 =
      .val ["ffmpeg", "-ss", "456", "-i", "/music library/file.mp3", "-ss", "456", "-f", "mp3",
        "-"] := by
  refine ⟨?_, ?_, ?_⟩ <;> decide

/-- C28 (the code at the failing input): the template ends with `-f`. The loop
reads `split[i+1]` for that token, one past the end of the token list, and the
function panics instead of returning an argument list. -/
theorem createFFmpegCommand_format_last_panics :
    (strings.Split "ffmpeg -i %s -f" ' ').getLast? = some "-f" ∧
    ffmpeg.createFFmpegCommandForMedia "ffmpeg -i %s -f" "mp3" "/music library/file.mp3" ""
        ffmpeg.plainMedia 123 0 = .panic := by
  constructor <;> decide

end Scanner
